import Mathlib

/-!
# Student record store (`Exam.c`)

A shallow embedding of the record store of `Exam.c` and of the prompts that
feed it.

* A byte is a `Nat`; a C string held in a `char` buffer is the list of its
  bytes before the terminating NUL.
* `student_t.name` is the whole 33-byte array of the struct, as it is written
  to and read from `Students.bin`.
* The file `Students.bin` is `none` when it does not exist and otherwise the
  list of the whole records it holds, in file order; a file position is a
  number of records.
* Standard input is the list of the bytes not read yet; end of input is the
  empty list.
* Text written to `stdout`/`stderr` is a list of `Event`s, one per `printf`,
  `puts`, `fputs` or `perror` call.
* The failures of the C library calls on the file are given by a `Faults`
  value, one per operation.
-/

namespace Exam

/-! ## Constants and data -/

def NAME_LEN : Nat := 32

def AGE_MIN : Nat := 5

def AGE_MAX : Nat := 75

def UINT32_MAX : Nat := 2 ^ 32 - 1

/-- Largest `unsigned long` (an LP64 platform: 64 bits). -/
def ULONG_MAX : Nat := 2 ^ 64 - 1

/-- The struct `student_t`: `uint32_t id; uint8_t age; char name[NAME_LEN + 1]`. -/
structure student_t where
  id : Nat
  age : Nat
  name : List Nat
deriving DecidableEq, Repr

/-- One call that writes text: each constructor stands for one message of the source. -/
inductive Event where
  /-- `printf("%s", message)` of a prompt, and `printf("Enter ID: ")` -/
  | prompt (message : String)
  /-- "Input aborted." -/
  | input_aborted
  /-- "Age cannot be empty." -/
  | age_empty
  /-- "Please enter a number between 5 and 75." -/
  | age_range
  /-- "Name cannot be empty." -/
  | name_empty
  /-- "Name must be at most 32 characters." -/
  | name_too_long
  /-- "ID cannot be empty." -/
  | id_empty
  /-- "Please enter a positive integer." -/
  | id_invalid
  /-- `perror(what)` -/
  | perror (what : String)
  /-- "ID limit reached." -/
  | id_limit
  /-- "No students stored yet." -/
  | no_students
  /-- the two header lines of a listing -/
  | header
  /-- `print_student`: id, name as a C string, age -/
  | student (id : Nat) (name : List Nat) (age : Nat)
  /-- "Student created with ID %u." -/
  | created (id : Nat)
  /-- "No student found with ID %u." -/
  | not_found (id : Nat)
  /-- "Editing student %u (%s, %u years old)" -/
  | editing (id : Nat) (name : List Nat) (age : Nat)
  /-- "No changes entered." -/
  | no_changes
  /-- "Student updated." -/
  | updated
deriving DecidableEq, Repr

/-- Failures of the C library calls during one operation. A failed `fwrite`
is taken to write nothing. -/
structure Faults where
  /-- `fopen(EXAM_FILE, "rb")` fails with an `errno` other than `ENOENT` -/
  open_read : Bool
  /-- `some k`: the first `k` calls of `fread` behave normally and the next one
  returns 0 with the error indicator set -/
  read_error : Option Nat
  /-- `fopen(EXAM_FILE, "ab")` fails -/
  open_append : Bool
  /-- `fopen(EXAM_FILE, "rb+")` fails with an `errno` other than `ENOENT` -/
  open_update : Bool
  /-- `fseek` fails -/
  seek : Bool
  /-- `fwrite` fails -/
  write : Bool
deriving DecidableEq, Repr

/-- No library call fails. -/
def no_faults : Faults :=
  { open_read := false, read_error := none, open_append := false,
    open_update := false, seek := false, write := false }

/-- What the program acts on: standard input, `Students.bin`, and the text written so far. -/
structure World where
  stdin : List Nat
  file : Option (List student_t)
  out : List Event
deriving DecidableEq, Repr

/-- Writes one message. -/
def emit (w : World) (e : Event) : World :=
  { w with out := w.out ++ [e] }

/-! ## Characters and strings -/

/-- `isspace` in the "C" locale: space, and `\t \n \v \f \r`. -/
def isspace (c : Nat) : Bool :=
  c == 32 || (9 ≤ c && c ≤ 13)

/-- `isdigit`. -/
def isdigit (c : Nat) : Bool :=
  48 ≤ c && c ≤ 57

/-- The C string held in a `char` array: the bytes before the first NUL. -/
def cstr (buf : List Nat) : List Nat :=
  buf.takeWhile (fun c => c != 0)

/-- `strncpy(dst, src, n)` for a C string `src`: the first `n` bytes of `dst`
become the first `n` bytes of `src`, padded with NUL when `src` is shorter. -/
def strncpy (dst : List Nat) (src : List Nat) (n : Nat) : List Nat :=
  src.take n ++ List.replicate (n - src.length) 0 ++ dst.drop n

/-! ## Reading a line -/

/-- The reading loop of `fgets` with room for `n` more bytes: stops after a
newline, at end of input, or when the room is used up. Returns the bytes
stored and the input left. -/
def fgets_loop : Nat → List Nat → List Nat × List Nat
  | 0, s => ([], s)
  | _ + 1, [] => ([], [])
  | n + 1, c :: s =>
    if c = 10 then ([c], s)
    else ((c :: (fgets_loop n s).1), (fgets_loop n s).2)

/-- `fgets(buffer, size, stdin)`: `none` is the `NULL` returned at end of input. -/
def fgets (size : Nat) (stdin : List Nat) : Option (List Nat × List Nat) :=
  match stdin with
  | [] => none
  | _ :: _ => some (fgets_loop (size - 1) stdin)

/-- `strcspn(buffer, "\n")`: the number of bytes before the first newline or the end of the string. -/
def strcspn_newline (buffer : List Nat) : Nat :=
  (buffer.takeWhile (fun c => c != 0 && c != 10)).length

/-- The loop `while ((ch = getchar()) != '\n' && ch != EOF)`. -/
def drain : List Nat → List Nat
  | [] => []
  | c :: s => if c = 10 then s else drain s

/-- `read_line(buffer, size)`: `none` when it returns false, else the C string
left in `buffer` and the input left. -/
def read_line (size : Nat) (stdin : List Nat) : Option (List Nat × List Nat) :=
  match fgets size stdin with
  | none => none
  | some (raw, rest) =>
    let len := strcspn_newline raw
    if raw.get? len = some 10 then some (raw.take len, rest)
    else some (cstr raw, drain rest)

/-- `trim(text)`: trailing white space is cut first, then leading white space. -/
def trim (text : List Nat) : List Nat :=
  ((text.reverse.dropWhile isspace).reverse).dropWhile isspace

/-! ## Parsing numbers -/

/-- Value of a run of decimal digits, most significant first. -/
def digits_value (ds : List Nat) : Nat :=
  ds.foldl (fun acc c => 10 * acc + (c - 48)) 0

/-- What `strtoul(text, &end, 10)` gives. -/
structure strtoul_result where
  /-- the returned value -/
  value : Nat
  /-- the string `end` points to -/
  rest : List Nat
  /-- `errno` is set (to `ERANGE`) -/
  erange : Bool
deriving DecidableEq, Repr

/-- `strtoul(text, &end, 10)`: leading white space, an optional sign, then
digits. Without a digit nothing is converted and `end` is `text`. A magnitude
above `ULONG_MAX` gives `ULONG_MAX` and `ERANGE`; a minus sign negates the
value in `unsigned long`. -/
def strtoul (text : List Nat) : strtoul_result :=
  let s := text.dropWhile isspace
  let negative := s.head? == some 45
  let s := if s.head? == some 45 || s.head? == some 43 then s.tail else s
  let ds := s.takeWhile isdigit
  if ds = [] then { value := 0, rest := text, erange := false }
  else if digits_value ds > ULONG_MAX then
    { value := ULONG_MAX, rest := s.dropWhile isdigit, erange := true }
  else
    { value := if negative then (ULONG_MAX + 1 - digits_value ds) % (ULONG_MAX + 1)
               else digits_value ds,
      rest := s.dropWhile isdigit, erange := false }

/-- `parse_uint32(text, min, max, &value)`: `none` when it returns false, else the value stored. -/
def parse_uint32 (text : List Nat) (min max : Nat) : Option Nat :=
  if text = [] then none
  else
    let r := strtoul text
    if r.erange || r.rest == text || r.rest != [] then none
    else if r.value < min || r.value > max then none
    else some (r.value % 2 ^ 32)

/-! ## Prompts

Each prompt is a `while (true)` loop that reads one line per turn. The loops
are written with a bound on the number of turns (`none` when the bound is
reached); every turn that goes round again has consumed input, so a bound
above the length of the input is never reached (`s_age_loop_terminates`,
`s_name_loop_terminates`, `s_id_loop_terminates`). -/

/-- What a prompt leaves: its return value and the pointees of its out
parameters. A `provided` pointer that is `NULL` is a pointee nobody reads. -/
structure prompt_result (α : Type) where
  /-- the `bool` returned -/
  ok : Bool
  /-- `*age`, the string in `name`, or `*id` afterwards -/
  value : α
  /-- `*provided` afterwards -/
  provided : Bool
deriving DecidableEq, Repr

/-- The loop of `s_age`. -/
def s_age_loop (message : String) (allow_empty : Bool) :
    Nat → Nat → Bool → World → Option (prompt_result Nat × World)
  | 0, _, _, _ => none
  | turns + 1, age, provided, w =>
    let w := emit w (Event.prompt message)
    match read_line 32 w.stdin with
    | none => some ({ ok := false, value := age, provided := provided }, emit w Event.input_aborted)
    | some (buffer, rest) =>
      let w := { w with stdin := rest }
      if buffer = [] then
        if allow_empty then some ({ ok := true, value := age, provided := false }, w)
        else s_age_loop message allow_empty turns age provided (emit w Event.age_empty)
      else
        match parse_uint32 buffer AGE_MIN AGE_MAX with
        | none => s_age_loop message allow_empty turns age provided (emit w Event.age_range)
        | some value => some ({ ok := true, value := value % 256, provided := true }, w)

/-- `s_age(&age, message, allow_empty, &provided)`, given the values of `age`
and `provided` before the call. -/
def s_age (age : Nat) (message : String) (allow_empty : Bool) (provided : Bool) (w : World) :
    prompt_result Nat × World :=
  (s_age_loop message allow_empty (w.stdin.length + 1) age provided w).getD
    ({ ok := false, value := age, provided := provided }, w)

/-- The loop of `s_name`. -/
def s_name_loop (message : String) (allow_empty : Bool) :
    Nat → List Nat → Bool → World → Option (prompt_result (List Nat) × World)
  | 0, _, _, _ => none
  | turns + 1, name, provided, w =>
    let w := emit w (Event.prompt message)
    match read_line 128 w.stdin with
    | none => some ({ ok := false, value := name, provided := provided }, emit w Event.input_aborted)
    | some (line, rest) =>
      let w := { w with stdin := rest }
      let buffer := trim line
      if buffer = [] then
        if allow_empty then some ({ ok := true, value := name, provided := false }, w)
        else s_name_loop message allow_empty turns name provided (emit w Event.name_empty)
      else if buffer.length > NAME_LEN then
        s_name_loop message allow_empty turns name provided (emit w Event.name_too_long)
      else some ({ ok := true, value := buffer.take NAME_LEN, provided := true }, w)

/-- `s_name(name, message, allow_empty, &provided)`, given the string in `name`
and the value of `provided` before the call. -/
def s_name (name : List Nat) (message : String) (allow_empty : Bool) (provided : Bool)
    (w : World) : prompt_result (List Nat) × World :=
  (s_name_loop message allow_empty (w.stdin.length + 1) name provided w).getD
    ({ ok := false, value := name, provided := provided }, w)

/-- The loop of `s_id`. -/
def s_id_loop : Nat → Nat → World → Option (prompt_result Nat × World)
  | 0, _, _ => none
  | turns + 1, id, w =>
    let w := emit w (Event.prompt "Enter ID: ")
    match read_line 32 w.stdin with
    | none => some ({ ok := false, value := id, provided := false }, emit w Event.input_aborted)
    | some (buffer, rest) =>
      let w := { w with stdin := rest }
      if buffer = [] then s_id_loop turns id (emit w Event.id_empty)
      else
        match parse_uint32 buffer 1 UINT32_MAX with
        | none => s_id_loop turns id (emit w Event.id_invalid)
        | some value => some ({ ok := true, value := value, provided := false }, w)

/-- `s_id(&id)`, given the value of `id` before the call. -/
def s_id (id : Nat) (w : World) : prompt_result Nat × World :=
  (s_id_loop (w.stdin.length + 1) id w).getD
    ({ ok := false, value := id, provided := false }, w)

/-! ## The record store -/

/-- The loop `while (fread(&student, sizeof(student), 1, fp) == 1)` of
`next_student_id` over the records not read yet: gives `max_id` and the error
indicator of the stream afterwards. `read_error` counts the calls of `fread`
that still behave normally. -/
def max_id_loop : List student_t → Option Nat → Nat → Nat × Bool
  | [], read_error, max_id => (max_id, read_error == some 0)
  | student :: rest, read_error, max_id =>
    if read_error = some 0 then (max_id, true)
    else
      max_id_loop rest (read_error.map (fun k => k - 1))
        (if student.id > max_id then student.id else max_id)

/-- `next_student_id()`: the id returned (0 is the failure value) and the world afterwards. -/
def next_student_id (F : Faults) (w : World) : Nat × World :=
  if F.open_read then (0, emit w (Event.perror "Failed to open student file"))
  else
    match w.file with
    | none => (1, w)
    | some records =>
      let r := max_id_loop records F.read_error 0
      let w := if r.2 then emit w (Event.perror "Failed to read student file") else w
      let max_id := if r.2 then 0 else r.1
      if max_id = UINT32_MAX then (0, emit w Event.id_limit)
      else ((max_id + 1) % 2 ^ 32, w)

/-- The records of the file, none for a file that does not exist. -/
def records_of (file : Option (List student_t)) : List student_t :=
  file.getD []

/-- `create_student()`. The array `name` is not initialised; it is read only
after `s_name` has stored a string in it. -/
def create_student (F : Faults) (w : World) : World :=
  let a := s_age 0 "Enter age (5-75): " false false w
  if !a.1.ok then a.2
  else
    let n := s_name [] "Enter name (max 32 chars): " false false a.2
    if !n.1.ok then n.2
    else
      let i := next_student_id F n.2
      if i.1 = 0 then i.2
      else
        let student : student_t :=
          { id := i.1, age := a.1.value,
            name := (strncpy (List.replicate (NAME_LEN + 1) 0) n.1.value NAME_LEN).set NAME_LEN 0 }
        if F.open_append then emit i.2 (Event.perror "Failed to open student file")
        else if F.write then emit i.2 (Event.perror "Failed to write student")
        else
          emit { i.2 with file := some (records_of i.2.file ++ [student]) }
            (Event.created student.id)

/-- What the search loop of `print_student_by_id` and `edit_student` leaves. -/
structure scan_result where
  /-- `found` -/
  found : Bool
  /-- `student`, the record read last (all zero when none was read) -/
  student : student_t
  /-- the file position, in records -/
  pos : Nat
  /-- the error indicator of the stream -/
  error : Bool
deriving DecidableEq, Repr

/-- The loop `while (fread(...) == 1) { if (student.id == student_id) { found = true; break; } }`
over the records not read yet, from file position `pos` with `student` the record read last. -/
def find_loop (student_id : Nat) :
    List student_t → Option Nat → Nat → student_t → scan_result
  | [], read_error, pos, student =>
    { found := false, student := student, pos := pos, error := read_error == some 0 }
  | s :: rest, read_error, pos, student =>
    if read_error = some 0 then
      { found := false, student := student, pos := pos, error := true }
    else if s.id = student_id then
      { found := true, student := s, pos := pos + 1, error := false }
    else find_loop student_id rest (read_error.map (fun k => k - 1)) (pos + 1) s

/-- The search from the start of the file. -/
def find_student (F : Faults) (records : List student_t) (student_id : Nat) : scan_result :=
  find_loop student_id records F.read_error 0 { id := 0, age := 0, name := List.replicate (NAME_LEN + 1) 0 }

/-- `print_student(&student)`. -/
def print_student (w : World) (student : student_t) : World :=
  emit w (Event.student student.id (cstr student.name) student.age)

/-- `print_student_by_id()`. -/
def print_student_by_id (F : Faults) (w : World) : World :=
  let i := s_id 0 w
  if !i.1.ok then i.2
  else if F.open_read then emit i.2 (Event.perror "Failed to open student file")
  else
    match i.2.file with
    | none => emit i.2 Event.no_students
    | some records =>
      let r := find_student F records i.1.value
      if r.found then print_student (emit i.2 Event.header) r.student
      else if r.error then emit i.2 (Event.perror "Failed to read student file")
      else emit i.2 (Event.not_found i.1.value)

/-- `edit_student()`. The array `new_name` is not initialised; it is read only
after `s_name` has stored a string in it. The write goes to the position the
`fseek` leaves, one record before the position after the search. -/
def edit_student (F : Faults) (w : World) : World :=
  let i := s_id 0 w
  if !i.1.ok then i.2
  else if F.open_update then emit i.2 (Event.perror "Failed to open student file")
  else
    match i.2.file with
    | none => emit i.2 Event.no_students
    | some records =>
      let r := find_student F records i.1.value
      if !r.found then
        if r.error then emit i.2 (Event.perror "Failed to read student file")
        else emit i.2 (Event.not_found i.1.value)
      else
        let a := s_age r.student.age
          "Enter new age (5-75) or press ENTER to keep current: " true false
          (emit i.2 (Event.editing r.student.id (cstr r.student.name) r.student.age))
        if !a.1.ok then a.2
        else
          let n := s_name []
            "Enter new name (max 32 chars) or press ENTER to keep current: " true false a.2
          if !n.1.ok then n.2
          else if !a.1.provided && !n.1.provided then emit n.2 Event.no_changes
          else
            let student := if a.1.provided then { r.student with age := a.1.value } else r.student
            let student :=
              if n.1.provided then
                { student with name := (strncpy student.name n.1.value NAME_LEN).set NAME_LEN 0 }
              else student
            if F.seek then emit n.2 (Event.perror "Failed to seek student file")
            else if F.write then emit n.2 (Event.perror "Failed to update student")
            else
              emit { n.2 with file := some (records.set (r.pos - 1) student) }
                Event.updated

/-! ## Notions used to state the properties -/

/-- The bytes of a text. -/
def ascii (s : String) : List Nat :=
  s.toList.map Char.toNat

/-- The field `name` that holds the C string `n`: the bytes of `n`, then NUL
bytes up to the `NAME_LEN + 1` bytes of the array. -/
def name_field (n : List Nat) : List Nat :=
  n ++ List.replicate (NAME_LEN + 1 - n.length) 0

/-- The largest id among the records, 0 when there is none. -/
def max_id (records : List student_t) : Nat :=
  (records.map student_t.id).foldr max 0

/-- Every id lies in [1, 2^32 - 1] and no two records share an id. -/
def ids_unique (records : List student_t) : Prop :=
  (∀ s ∈ records, 1 ≤ s.id ∧ s.id ≤ UINT32_MAX) ∧ (records.map student_t.id).Nodup

instance (records : List student_t) : Decidable (ids_unique records) := by
  unfold ids_unique
  infer_instance

/-- The answer to the age prompt of `create_student`. -/
def create_age (w : World) : prompt_result Nat × World :=
  s_age 0 "Enter age (5-75): " false false w

/-- The answer to the name prompt of `create_student`, which follows the age prompt. -/
def create_name (w : World) : prompt_result (List Nat) × World :=
  s_name [] "Enter name (max 32 chars): " false false (create_age w).2

/-- The id `next_student_id` gives `create_student`, after the two prompts. -/
def create_id (F : Faults) (w : World) : Nat :=
  (next_student_id F (create_name w).2).1

/-- The last message written is "Student created with ID X". -/
def reports_created (w : World) (X : Nat) : Prop :=
  w.out.getLast? = some (Event.created X)

instance (w : World) (X : Nat) : Decidable (reports_created w X) := by
  unfold reports_created
  infer_instance

/-- The answer to the id prompt of `edit_student`. -/
def edit_id (w : World) : prompt_result Nat × World :=
  s_id 0 w

/-- The search of `edit_student` for the id entered. -/
def edit_scan (F : Faults) (w : World) : scan_result :=
  find_student F (records_of w.file) (edit_id w).1.value

/-- The answer to the age prompt of `edit_student`, which follows the search. -/
def edit_age (F : Faults) (w : World) : prompt_result Nat × World :=
  s_age (edit_scan F w).student.age
    "Enter new age (5-75) or press ENTER to keep current: " true false
    (emit (edit_id w).2 (Event.editing (edit_scan F w).student.id
      (cstr (edit_scan F w).student.name) (edit_scan F w).student.age))

/-- The answer to the name prompt of `edit_student`, which follows the age prompt. -/
def edit_name (F : Faults) (w : World) : prompt_result (List Nat) × World :=
  s_name [] "Enter new name (max 32 chars) or press ENTER to keep current: " true false
    (edit_age F w).2

/-- The record `edit_student` writes back: the record found, with the age and
the name that were entered. -/
def edited_student (F : Faults) (w : World) : student_t :=
  let student :=
    if (edit_age F w).1.provided then
      { (edit_scan F w).student with age := (edit_age F w).1.value }
    else (edit_scan F w).student
  if (edit_name F w).1.provided then
    { student with name := (strncpy student.name (edit_name F w).1.value NAME_LEN).set NAME_LEN 0 }
  else student

/-- The run of `edit_student` reaches its `fwrite` and the write succeeds. -/
def edit_writes (F : Faults) (w : World) : Prop :=
  (edit_id w).1.ok = true ∧ F.open_update = false ∧ w.file ≠ none ∧
  (edit_scan F w).found = true ∧ (edit_age F w).1.ok = true ∧ (edit_name F w).1.ok = true ∧
  ((edit_age F w).1.provided = true ∨ (edit_name F w).1.provided = true) ∧
  F.seek = false ∧ F.write = false

instance (F : Faults) (w : World) : Decidable (edit_writes F w) := by
  unfold edit_writes
  infer_instance

/-- The part of the answer to the age prompt that does not depend on the age held before. -/
def age_answer (r : prompt_result Nat × World) : Bool × Bool × Nat × List Nat :=
  (r.1.ok, r.1.provided, if r.1.provided then r.1.value else 0, r.2.stdin)

/-- The name field is a string followed by NUL bytes up to the end of the
array, the form in which `create_student` and `edit_student` write it. -/
def name_padded (s : student_t) : Prop :=
  s.name = name_field (cstr s.name)

instance (s : student_t) : Decidable (name_padded s) := by
  unfold name_padded
  infer_instance

/-- A record as its id, its age and the string its name field holds. -/
def record_view (s : student_t) : Nat × Nat × List Nat :=
  (s.id, s.age, cstr s.name)

/-- The decimal digits of a number, as bytes. -/
def decimal (n : Nat) : List Nat :=
  ascii (Nat.repr n)

/-- An age the age prompt accepts. -/
def valid_age (a : Nat) : Prop :=
  AGE_MIN ≤ a ∧ a ≤ AGE_MAX

instance (a : Nat) : Decidable (valid_age a) := by
  unfold valid_age
  infer_instance

/-- A name as it can be typed on one line and is stored as typed: 1 to 32
bytes, none of them NUL or newline, no white space at either end. -/
def valid_name (n : List Nat) : Prop :=
  n ≠ [] ∧ n.length ≤ NAME_LEN ∧ (∀ c ∈ n, c ≠ 0 ∧ c ≠ 10) ∧ trim n = n

instance (n : List Nat) : Decidable (valid_name n) := by
  unfold valid_name
  infer_instance

/-- The input that answers the prompts of successive `create_student` calls:
for each record the age in decimal on one line and the name on the next. -/
def input_lines : List (Nat × List Nat) → List Nat
  | [] => []
  | p :: rest => decimal p.1 ++ 10 :: (p.2 ++ 10 :: input_lines rest)

/-- The ids reported by "Student created with ID ..." messages, in the order written. -/
def created_ids (out : List Event) : List Nat :=
  out.filterMap (fun e => match e with
    | Event.created id => some id
    | _ => none)

/-- What `s_age` guarantees about the world `w` it starts from and the result `r` it gives. -/
structure s_age_post (allow_empty : Bool) (age : Nat) (w : World)
    (r : prompt_result Nat × World) : Prop where
  file_eq : r.2.file = w.file
  aborted : r.1.ok = false → r.2.out.getLast? = some Event.input_aborted
  skipped : r.1.ok = true → r.1.provided = false → allow_empty = true ∧ r.1.value = age
  range : r.1.ok = true → r.1.provided = true → AGE_MIN ≤ r.1.value ∧ r.1.value ≤ AGE_MAX
  required : r.1.ok = true → allow_empty = false → r.1.provided = true

/-- What `s_name` guarantees about the world `w` it starts from and the result `r` it gives. -/
structure s_name_post (message : String) (allow_empty : Bool) (name : List Nat) (w : World)
    (r : prompt_result (List Nat) × World) : Prop where
  file_eq : r.2.file = w.file
  aborted : r.1.ok = false → r.2.out.getLast? = some Event.input_aborted
  answered : r.1.ok = true → r.2.out.getLast? = some (Event.prompt message)
  skipped : r.1.ok = true → r.1.provided = false → allow_empty = true ∧ r.1.value = name
  accepted : r.1.ok = true → r.1.provided = true →
    r.1.value ≠ [] ∧ r.1.value.length ≤ NAME_LEN ∧ ∀ c ∈ r.1.value, c ≠ 0
  required : r.1.ok = true → allow_empty = false → r.1.provided = true

/-- What `s_id` guarantees about the world `w` it starts from and the result `r` it gives. -/
structure s_id_post (w : World) (r : prompt_result Nat × World) : Prop where
  file_eq : r.2.file = w.file
  aborted : r.1.ok = false → r.2.out.getLast? = some Event.input_aborted
  range : r.1.ok = true → 1 ≤ r.1.value ∧ r.1.value ≤ UINT32_MAX

/-- The field constraints of a record: the age lies in [5, 75], and the string
in the name field has 1 to 32 bytes and no white space at either end. -/
def field_ok (s : student_t) : Prop :=
  AGE_MIN ≤ s.age ∧ s.age ≤ AGE_MAX ∧ 1 ≤ (cstr s.name).length ∧
  (cstr s.name).length ≤ NAME_LEN ∧ trim (cstr s.name) = cstr s.name

instance (s : student_t) : Decidable (field_ok s) := by
  unfold field_ok
  infer_instance

/-! ## Reading consumes input -/

theorem fgets_loop_length (n : Nat) (s : List Nat) :
    (fgets_loop n s).2.length ≤ s.length := by
  induction n generalizing s with
  | zero => simp [fgets_loop]
  | succ n ih =>
    cases s with
    | nil => simp [fgets_loop]
    | cons c s =>
      simp only [fgets_loop]
      split
      · simp
      · have := ih s
        simp only [List.length_cons]
        omega

theorem fgets_loop_length_lt (n : Nat) (c : Nat) (s : List Nat) :
    (fgets_loop (n + 1) (c :: s)).2.length < (c :: s).length := by
  simp only [fgets_loop]
  split
  · simp
  · have := fgets_loop_length n s
    simp only [List.length_cons]
    omega

theorem drain_length (s : List Nat) : (drain s).length ≤ s.length := by
  induction s with
  | nil => simp [drain]
  | cons c s ih =>
    simp only [drain]
    split
    · simp
    · simp only [List.length_cons]; omega

theorem read_line_none (size : Nat) (s : List Nat) :
    read_line size s = none ↔ s = [] := by
  cases s with
  | nil => simp [read_line, fgets]
  | cons c s =>
    simp only [read_line, fgets]
    split <;> simp

theorem read_line_length (n : Nat) (s buffer rest : List Nat)
    (h : read_line (n + 2) s = some (buffer, rest)) : rest.length < s.length := by
  cases s with
  | nil => simp [read_line, fgets] at h
  | cons c s =>
    have h1 := fgets_loop_length_lt n c s
    simp only [read_line, fgets, Nat.add_sub_cancel] at h
    split at h
    · simp only [Option.some.injEq, Prod.mk.injEq] at h
      rw [← h.2]; exact h1
    · simp only [Option.some.injEq, Prod.mk.injEq] at h
      rw [← h.2]
      exact lt_of_le_of_lt (drain_length _) h1

/-! ## What the prompts guarantee -/

theorem parse_uint32_bounds (text : List Nat) (min max v : Nat) (hmax : max < 2 ^ 32)
    (h : parse_uint32 text min max = some v) : min ≤ v ∧ v ≤ max := by
  unfold parse_uint32 at h
  split at h
  · simp at h
  · simp only at h
    split at h
    · simp at h
    · split at h
      · simp at h
      · rename_i h1
        simp only [Bool.or_eq_true, decide_eq_true_eq, not_or, not_lt] at h1
        simp only [Option.some.injEq] at h
        have : (strtoul text).value % 2 ^ 32 = (strtoul text).value :=
          Nat.mod_eq_of_lt (by omega)
        omega

theorem s_age_loop_terminates (message : String) (allow_empty : Bool) (turns : Nat) :
    ∀ (age : Nat) (provided : Bool) (w : World), w.stdin.length < turns →
      ∃ r, s_age_loop message allow_empty turns age provided w = some r := by
  induction turns with
  | zero => intro _ _ w h; omega
  | succ turns ih =>
    intro age provided w h
    simp only [s_age_loop]
    cases hr : read_line 32 (emit w (Event.prompt message)).stdin with
    | none => exact ⟨_, rfl⟩
    | some p =>
      obtain ⟨buffer, rest⟩ := p
      have hlen : rest.length < w.stdin.length := read_line_length 30 _ _ _ hr
      have hlt : rest.length < turns := by omega
      simp only
      split
      · split
        · exact ⟨_, rfl⟩
        · exact ih _ _ _ hlt
      · split
        · exact ih _ _ _ hlt
        · exact ⟨_, rfl⟩

theorem s_age_loop_post (message : String) (allow_empty : Bool) (turns : Nat) :
    ∀ (age : Nat) (provided : Bool) (w : World) (r : prompt_result Nat × World),
      s_age_loop message allow_empty turns age provided w = some r →
      s_age_post allow_empty age w r := by
  induction turns with
  | zero => intro _ _ _ _ h; simp [s_age_loop] at h
  | succ turns ih =>
    intro age provided w r h
    simp only [s_age_loop] at h
    cases hr : read_line 32 (emit w (Event.prompt message)).stdin with
    | none =>
      rw [hr] at h
      simp only [Option.some.injEq] at h
      subst h
      constructor <;> simp [emit]
    | some p =>
      obtain ⟨buffer, rest⟩ := p
      rw [hr] at h
      simp only at h
      split at h
      · split at h
        · rename_i hae
          simp only [Option.some.injEq] at h
          subst h
          constructor <;> simp [emit, hae]
        · have := ih _ _ _ _ h
          exact ⟨this.file_eq, this.aborted, this.skipped, this.range, this.required⟩
      · split at h
        · have := ih _ _ _ _ h
          exact ⟨this.file_eq, this.aborted, this.skipped, this.range, this.required⟩
        · rename_i v hv
          simp only [Option.some.injEq] at h
          subst h
          have hb := parse_uint32_bounds _ _ _ _ (by decide) hv
          have hv' : v ≤ 75 := hb.2
          have hm : v % 256 = v := Nat.mod_eq_of_lt (by omega)
          constructor <;> simp [emit, hm, hb]

theorem s_age_post_holds (age : Nat) (message : String) (allow_empty provided : Bool)
    (w : World) : s_age_post allow_empty age w (s_age age message allow_empty provided w) := by
  obtain ⟨r, hr⟩ := s_age_loop_terminates message allow_empty (w.stdin.length + 1) age provided w
    (Nat.lt_succ_self _)
  have := s_age_loop_post message allow_empty _ age provided w r hr
  simpa [s_age, hr] using this

theorem take_takeWhile_length (p : Nat → Bool) (l : List Nat) :
    l.take (l.takeWhile p).length = l.takeWhile p := by
  induction l with
  | nil => simp
  | cons a l ih =>
    by_cases h : p a
    · simp [List.takeWhile_cons, h, ih]
    · simp [List.takeWhile_cons, h]

theorem read_line_no_nul (size : Nat) (s buffer rest : List Nat)
    (h : read_line size s = some (buffer, rest)) : ∀ c ∈ buffer, c ≠ 0 := by
  unfold read_line at h
  split at h
  · simp at h
  · simp only at h
    split at h
    · simp only [Option.some.injEq, Prod.mk.injEq] at h
      intro c hc
      rw [← h.1, strcspn_newline, take_takeWhile_length] at hc
      have := List.mem_takeWhile_imp hc
      simp only [bne_iff_ne, ne_eq, Bool.and_eq_true] at this
      exact this.1
    · simp only [Option.some.injEq, Prod.mk.injEq] at h
      intro c hc
      rw [← h.1, cstr] at hc
      have := List.mem_takeWhile_imp hc
      simpa using this

theorem mem_trim (text : List Nat) (c : Nat) (h : c ∈ trim text) : c ∈ text := by
  unfold trim at h
  have h1 := (List.dropWhile_sublist _).mem h
  rw [List.mem_reverse] at h1
  have h2 := (List.dropWhile_sublist _).mem h1
  simpa using h2

theorem s_name_loop_terminates (message : String) (allow_empty : Bool) (turns : Nat) :
    ∀ (name : List Nat) (provided : Bool) (w : World), w.stdin.length < turns →
      ∃ r, s_name_loop message allow_empty turns name provided w = some r := by
  induction turns with
  | zero => intro _ _ w h; omega
  | succ turns ih =>
    intro name provided w h
    simp only [s_name_loop]
    cases hr : read_line 128 (emit w (Event.prompt message)).stdin with
    | none => exact ⟨_, rfl⟩
    | some p =>
      obtain ⟨line, rest⟩ := p
      have hlen : rest.length < w.stdin.length := read_line_length 126 _ _ _ hr
      have hlt : rest.length < turns := by omega
      simp only
      split
      · split
        · exact ⟨_, rfl⟩
        · exact ih _ _ _ hlt
      · split
        · exact ih _ _ _ hlt
        · exact ⟨_, rfl⟩

theorem s_name_loop_post (message : String) (allow_empty : Bool) (turns : Nat) :
    ∀ (name : List Nat) (provided : Bool) (w : World) (r : prompt_result (List Nat) × World),
      s_name_loop message allow_empty turns name provided w = some r →
      s_name_post message allow_empty name w r := by
  induction turns with
  | zero => intro _ _ _ _ h; simp [s_name_loop] at h
  | succ turns ih =>
    intro name provided w r h
    simp only [s_name_loop] at h
    cases hr : read_line 128 (emit w (Event.prompt message)).stdin with
    | none =>
      rw [hr] at h
      simp only [Option.some.injEq] at h
      subst h
      constructor <;> simp [emit]
    | some p =>
      obtain ⟨line, rest⟩ := p
      rw [hr] at h
      simp only at h
      split at h
      · split at h
        · rename_i hae
          simp only [Option.some.injEq] at h
          subst h
          constructor <;> simp [emit, hae]
        · have := ih _ _ _ _ h
          exact ⟨this.file_eq, this.aborted, this.answered, this.skipped, this.accepted, this.required⟩
      · split at h
        · have := ih _ _ _ _ h
          exact ⟨this.file_eq, this.aborted, this.answered, this.skipped, this.accepted, this.required⟩
        · rename_i hne hlen
          simp only [Option.some.injEq] at h
          subst h
          have hnul : ∀ c ∈ trim line, c ≠ 0 := fun c hc =>
            read_line_no_nul _ _ _ _ hr c (mem_trim _ _ hc)
          have htake : (trim line).take NAME_LEN = trim line :=
            List.take_of_length_le (by omega)
          constructor
          · simp [emit]
          · simp
          · simp [emit]
          · simp
          · intro _ _
            simp only [htake]
            exact ⟨hne, by omega, hnul⟩
          · simp

theorem s_name_post_holds (name : List Nat) (message : String) (allow_empty provided : Bool)
    (w : World) : s_name_post message allow_empty name w (s_name name message allow_empty provided w) := by
  obtain ⟨r, hr⟩ := s_name_loop_terminates message allow_empty (w.stdin.length + 1) name
    provided w (Nat.lt_succ_self _)
  have := s_name_loop_post message allow_empty _ name provided w r hr
  simpa [s_name, hr] using this

theorem s_id_loop_terminates (turns : Nat) :
    ∀ (id : Nat) (w : World), w.stdin.length < turns →
      ∃ r, s_id_loop turns id w = some r := by
  induction turns with
  | zero => intro _ w h; omega
  | succ turns ih =>
    intro id w h
    simp only [s_id_loop]
    cases hr : read_line 32 (emit w (Event.prompt "Enter ID: ")).stdin with
    | none => exact ⟨_, rfl⟩
    | some p =>
      obtain ⟨buffer, rest⟩ := p
      have hlen : rest.length < w.stdin.length := read_line_length 30 _ _ _ hr
      have hlt : rest.length < turns := by omega
      simp only
      split
      · exact ih _ _ hlt
      · split
        · exact ih _ _ hlt
        · exact ⟨_, rfl⟩

theorem s_id_loop_post (turns : Nat) :
    ∀ (id : Nat) (w : World) (r : prompt_result Nat × World),
      s_id_loop turns id w = some r → s_id_post w r := by
  induction turns with
  | zero => intro _ _ _ h; simp [s_id_loop] at h
  | succ turns ih =>
    intro id w r h
    simp only [s_id_loop] at h
    cases hr : read_line 32 (emit w (Event.prompt "Enter ID: ")).stdin with
    | none =>
      rw [hr] at h
      simp only [Option.some.injEq] at h
      subst h
      constructor <;> simp [emit]
    | some p =>
      obtain ⟨buffer, rest⟩ := p
      rw [hr] at h
      simp only at h
      split at h
      · have := ih _ _ _ h
        exact ⟨this.file_eq, this.aborted, this.range⟩
      · split at h
        · have := ih _ _ _ h
          exact ⟨this.file_eq, this.aborted, this.range⟩
        · rename_i v hv
          simp only [Option.some.injEq] at h
          subst h
          have hb := parse_uint32_bounds _ _ _ _ (by decide) hv
          constructor <;> simp [emit, hb]

theorem s_id_post_holds (id : Nat) (w : World) : s_id_post w (s_id id w) := by
  obtain ⟨r, hr⟩ := s_id_loop_terminates (w.stdin.length + 1) id w (Nat.lt_succ_self _)
  have := s_id_loop_post _ id w r hr
  simpa [s_id, hr] using this

/-! ## The bound on the turns of a prompt does not matter -/

theorem s_age_loop_turns (message : String) (allow_empty : Bool) (turns : Nat) :
    ∀ (turns' age : Nat) (provided : Bool) (w : World),
      w.stdin.length < turns → w.stdin.length < turns' →
      s_age_loop message allow_empty turns age provided w =
        s_age_loop message allow_empty turns' age provided w := by
  induction turns with
  | zero => intro _ _ _ w h; omega
  | succ turns ih =>
    intro turns' age provided w h h'
    obtain ⟨t, rfl⟩ : ∃ t, turns' = t + 1 := ⟨turns' - 1, by omega⟩
    simp only [s_age_loop]
    cases hr : read_line 32 (emit w (Event.prompt message)).stdin with
    | none => rfl
    | some p =>
      obtain ⟨buffer, rest⟩ := p
      have hlen : rest.length < w.stdin.length := read_line_length 30 _ _ _ hr
      simp only
      split
      · split
        · rfl
        · exact ih _ _ _ _ (by simp [emit]; omega) (by simp [emit]; omega)
      · split
        · exact ih _ _ _ _ (by simp [emit]; omega) (by simp [emit]; omega)
        · rfl

/-- The value of `s_age` is what its loop returns, for every bound above the length of the input. -/
theorem s_age_returns (age : Nat) (message : String) (allow_empty provided : Bool) (w : World)
    (turns : Nat) (h : w.stdin.length < turns) :
    s_age_loop message allow_empty turns age provided w =
      some (s_age age message allow_empty provided w) := by
  obtain ⟨r, hr⟩ := s_age_loop_terminates message allow_empty (w.stdin.length + 1) age provided w
    (Nat.lt_succ_self _)
  rw [s_age_loop_turns message allow_empty turns (w.stdin.length + 1) age provided w h
    (Nat.lt_succ_self _)]
  simp [s_age, hr]

theorem s_name_loop_turns (message : String) (allow_empty : Bool) (turns : Nat) :
    ∀ (turns' : Nat) (name : List Nat) (provided : Bool) (w : World),
      w.stdin.length < turns → w.stdin.length < turns' →
      s_name_loop message allow_empty turns name provided w =
        s_name_loop message allow_empty turns' name provided w := by
  induction turns with
  | zero => intro _ _ _ w h; omega
  | succ turns ih =>
    intro turns' name provided w h h'
    obtain ⟨t, rfl⟩ : ∃ t, turns' = t + 1 := ⟨turns' - 1, by omega⟩
    simp only [s_name_loop]
    cases hr : read_line 128 (emit w (Event.prompt message)).stdin with
    | none => rfl
    | some p =>
      obtain ⟨line, rest⟩ := p
      have hlen : rest.length < w.stdin.length := read_line_length 126 _ _ _ hr
      simp only
      split
      · split
        · rfl
        · exact ih _ _ _ _ (by simp [emit]; omega) (by simp [emit]; omega)
      · split
        · exact ih _ _ _ _ (by simp [emit]; omega) (by simp [emit]; omega)
        · rfl

/-- The value of `s_name` is what its loop returns, for every bound above the length of the input. -/
theorem s_name_returns (name : List Nat) (message : String) (allow_empty provided : Bool)
    (w : World) (turns : Nat) (h : w.stdin.length < turns) :
    s_name_loop message allow_empty turns name provided w =
      some (s_name name message allow_empty provided w) := by
  obtain ⟨r, hr⟩ := s_name_loop_terminates message allow_empty (w.stdin.length + 1) name
    provided w (Nat.lt_succ_self _)
  rw [s_name_loop_turns message allow_empty turns (w.stdin.length + 1) name provided w h
    (Nat.lt_succ_self _)]
  simp [s_name, hr]

theorem s_id_loop_turns (turns : Nat) :
    ∀ (turns' id : Nat) (w : World),
      w.stdin.length < turns → w.stdin.length < turns' →
      s_id_loop turns id w = s_id_loop turns' id w := by
  induction turns with
  | zero => intro _ _ w h; omega
  | succ turns ih =>
    intro turns' id w h h'
    obtain ⟨t, rfl⟩ : ∃ t, turns' = t + 1 := ⟨turns' - 1, by omega⟩
    simp only [s_id_loop]
    cases hr : read_line 32 (emit w (Event.prompt "Enter ID: ")).stdin with
    | none => rfl
    | some p =>
      obtain ⟨buffer, rest⟩ := p
      have hlen : rest.length < w.stdin.length := read_line_length 30 _ _ _ hr
      simp only
      split
      · exact ih _ _ _ (by simp [emit]; omega) (by simp [emit]; omega)
      · split
        · exact ih _ _ _ (by simp [emit]; omega) (by simp [emit]; omega)
        · rfl

/-- The value of `s_id` is what its loop returns, for every bound above the length of the input. -/
theorem s_id_returns (id : Nat) (w : World) (turns : Nat) (h : w.stdin.length < turns) :
    s_id_loop turns id w = some (s_id id w) := by
  obtain ⟨r, hr⟩ := s_id_loop_terminates (w.stdin.length + 1) id w (Nat.lt_succ_self _)
  rw [s_id_loop_turns turns (w.stdin.length + 1) id w h (Nat.lt_succ_self _)]
  simp [s_id, hr]

/-! ## The next id -/

theorem max_id_loop_no_error (records : List student_t) (m : Nat) :
    max_id_loop records none m = (max m (max_id records), false) := by
  induction records generalizing m with
  | nil => simp [max_id_loop, max_id]
  | cons s rest ih =>
    simp only [max_id, max_id_loop, reduceCtorEq, ↓reduceIte, Option.map_none', ih, List.map_cons,
      List.foldr_cons, Prod.mk.injEq, and_true]
    split <;> omega

theorem le_foldr_max (l : List Nat) (x : Nat) (h : x ∈ l) : x ≤ l.foldr max 0 := by
  induction l with
  | nil => simp at h
  | cons a l ih =>
    simp only [List.mem_cons] at h
    simp only [List.foldr_cons]
    rcases h with h | h
    · omega
    · have := ih h; omega

theorem foldr_max_le (l : List Nat) (b : Nat) (h : ∀ x ∈ l, x ≤ b) : l.foldr max 0 ≤ b := by
  induction l with
  | nil => simp
  | cons a l ih =>
    simp only [List.foldr_cons]
    have h1 := h a (by simp)
    have h2 := ih (fun x hx => h x (by simp [hx]))
    omega

theorem next_student_id_file (F : Faults) (w : World) : (next_student_id F w).2.file = w.file := by
  unfold next_student_id
  split
  · rfl
  · split
    · rfl
    · simp only
      split <;> split <;> simp [emit]

theorem next_student_id_stdin (F : Faults) (w : World) :
    (next_student_id F w).2.stdin = w.stdin := by
  unfold next_student_id
  split
  · rfl
  · split
    · rfl
    · simp only
      split <;> split <;> simp [emit]

theorem next_student_id_out (F : Faults) (w : World) (X : Nat)
    (h : w.out.getLast? ≠ some (Event.created X)) :
    (next_student_id F w).2.out.getLast? ≠ some (Event.created X) := by
  unfold next_student_id
  by_cases hopen : F.open_read = true
  · simp [hopen, emit]
  · simp only [hopen, Bool.false_eq_true, ↓reduceIte]
    cases hf : w.file with
    | none => simpa using h
    | some records =>
      simp only
      by_cases he : (max_id_loop records F.read_error 0).2 = true
      · simp [he, UINT32_MAX, emit]
      · simp only [he, Bool.false_eq_true, ↓reduceIte]
        by_cases hm : (max_id_loop records F.read_error 0).1 = UINT32_MAX
        · simp [hm, emit]
        · simpa [hm] using h

/-- The id `next_student_id` returns when the file is opened and read without error. -/
theorem next_student_id_no_error (F : Faults) (w : World) (hopen : F.open_read = false)
    (hread : F.read_error = none) :
    (next_student_id F w).1 =
      if max_id (records_of w.file) = UINT32_MAX then 0
      else (max_id (records_of w.file) + 1) % 2 ^ 32 := by
  unfold next_student_id
  simp only [hopen, Bool.false_eq_true, ↓reduceIte, hread]
  cases hf : w.file with
  | none => simp [records_of, UINT32_MAX, max_id]
  | some records =>
    simp only [max_id_loop_no_error, Bool.false_eq_true, ↓reduceIte, records_of, Option.getD_some,
      Nat.zero_le, max_eq_right]
    split <;> rfl

theorem max_id_loop_read_error (records : List student_t) (k m : Nat)
    (hk : k ≤ records.length) : (max_id_loop records (some k) m).2 = true := by
  induction records generalizing k m with
  | nil =>
    have : k = 0 := by simpa using hk
    simp [max_id_loop, this]
  | cons s rest ih =>
    cases k with
    | zero => simp [max_id_loop]
    | succ k =>
      simp only [max_id_loop, Option.some.injEq, Nat.add_one_ne_zero, ↓reduceIte, Option.map_some',
        Nat.add_sub_cancel]
      exact ih k _ (by simpa using hk)

/-- After a read error at any point of the scan, `next_student_id` returns 1. -/
theorem next_student_id_read_error (F : Faults) (w : World) (records : List student_t)
    (k : Nat) (hopen : F.open_read = false) (hfile : w.file = some records)
    (hread : F.read_error = some k) (hk : k ≤ records.length) :
    (next_student_id F w).1 = 1 := by
  unfold next_student_id
  simp [hopen, hfile, hread, max_id_loop_read_error records k 0 hk, UINT32_MAX]

/-- When the file cannot be opened, `next_student_id` returns 0. -/
theorem next_student_id_open_error (F : Faults) (w : World) (hopen : F.open_read = true) :
    (next_student_id F w).1 = 0 := by
  simp [next_student_id, hopen]

/-! ## Creating a record -/

theorem name_field_eq (n : List Nat) (h : n.length ≤ NAME_LEN) :
    (strncpy (List.replicate (NAME_LEN + 1) 0) n NAME_LEN).set NAME_LEN 0 = name_field n := by
  unfold strncpy name_field
  have h1 : n.take NAME_LEN = n := List.take_of_length_le h
  have h2 : (List.replicate (NAME_LEN + 1) 0).drop NAME_LEN = [0] := by decide
  have h3 : NAME_LEN + 1 - n.length = (NAME_LEN - n.length) + 1 := by omega
  have h4 : (n ++ List.replicate (NAME_LEN - n.length) 0).length = NAME_LEN := by
    simp only [List.length_append, List.length_replicate]; omega
  rw [h1, h2, h3, List.replicate_succ', ← List.append_assoc]
  rw [List.set_append_right _ _ (by omega), h4]
  simp

theorem cstr_append_zero (n tail : List Nat) (h : ∀ c ∈ n, c ≠ 0) : cstr (n ++ 0 :: tail) = n := by
  unfold cstr
  rw [List.takeWhile_append_of_pos (by simpa using h)]
  simp

theorem cstr_name_field (n : List Nat) (hlen : n.length ≤ NAME_LEN) (h : ∀ c ∈ n, c ≠ 0) :
    cstr (name_field n) = n := by
  unfold name_field
  have h3 : NAME_LEN + 1 - n.length = (NAME_LEN - n.length) + 1 := by omega
  rw [h3, List.replicate_succ]
  exact cstr_append_zero n _ h

/-- The file `create_student` leaves: the old records followed by the new one
when every step succeeds, and the old file otherwise. -/
theorem create_student_file (F : Faults) (w : World) :
    (create_student F w).file =
      if (s_age 0 "Enter age (5-75): " false false w).1.ok = true ∧
          (s_name [] "Enter name (max 32 chars): " false false
            (s_age 0 "Enter age (5-75): " false false w).2).1.ok = true ∧
          (next_student_id F (s_name [] "Enter name (max 32 chars): " false false
            (s_age 0 "Enter age (5-75): " false false w).2).2).1 ≠ 0 ∧
          F.open_append = false ∧ F.write = false then
        some (records_of w.file ++
          [{ id := (next_student_id F (s_name [] "Enter name (max 32 chars): " false false
                (s_age 0 "Enter age (5-75): " false false w).2).2).1,
             age := (s_age 0 "Enter age (5-75): " false false w).1.value,
             name := name_field (s_name [] "Enter name (max 32 chars): " false false
                (s_age 0 "Enter age (5-75): " false false w).2).1.value }])
      else w.file := by
  have ha := s_age_post_holds 0 "Enter age (5-75): " false false w
  have hn := s_name_post_holds [] "Enter name (max 32 chars): " false false
    (s_age 0 "Enter age (5-75): " false false w).2
  have hi := next_student_id_file F (s_name [] "Enter name (max 32 chars): " false false
    (s_age 0 "Enter age (5-75): " false false w).2).2
  unfold create_student
  simp only
  by_cases h1 : (s_age 0 "Enter age (5-75): " false false w).1.ok = true
  · by_cases h2 : (s_name [] "Enter name (max 32 chars): " false false
        (s_age 0 "Enter age (5-75): " false false w).2).1.ok = true
    · by_cases h3 : (next_student_id F (s_name [] "Enter name (max 32 chars): " false false
          (s_age 0 "Enter age (5-75): " false false w).2).2).1 = 0
      · simp [h1, h2, h3, hi, hn.file_eq, ha.file_eq]
      · have hlen := (hn.accepted h2 (hn.required h2 rfl)).2.1
        cases h4 : F.open_append <;> cases h5 : F.write <;>
          simp [h1, h2, h3, h4, h5, hi, hn.file_eq, ha.file_eq, emit, name_field_eq _ hlen]
    · simp [h1, h2, hn.file_eq, ha.file_eq]
  · simp [h1, ha.file_eq]

/-- The last message `create_student` writes is "Student created with ID X"
exactly when every step succeeds and `next_student_id` gave `X`. -/
theorem create_student_created (F : Faults) (w : World) (X : Nat) :
    (create_student F w).out.getLast? = some (Event.created X) ↔
      ((s_age 0 "Enter age (5-75): " false false w).1.ok = true ∧
        (s_name [] "Enter name (max 32 chars): " false false
          (s_age 0 "Enter age (5-75): " false false w).2).1.ok = true ∧
        (next_student_id F (s_name [] "Enter name (max 32 chars): " false false
          (s_age 0 "Enter age (5-75): " false false w).2).2).1 ≠ 0 ∧
        F.open_append = false ∧ F.write = false) ∧
      (next_student_id F (s_name [] "Enter name (max 32 chars): " false false
          (s_age 0 "Enter age (5-75): " false false w).2).2).1 = X := by
  have ha := s_age_post_holds 0 "Enter age (5-75): " false false w
  have hn := s_name_post_holds [] "Enter name (max 32 chars): " false false
    (s_age 0 "Enter age (5-75): " false false w).2
  unfold create_student
  simp only
  by_cases h1 : (s_age 0 "Enter age (5-75): " false false w).1.ok = true
  · by_cases h2 : (s_name [] "Enter name (max 32 chars): " false false
        (s_age 0 "Enter age (5-75): " false false w).2).1.ok = true
    · by_cases h3 : (next_student_id F (s_name [] "Enter name (max 32 chars): " false false
          (s_age 0 "Enter age (5-75): " false false w).2).2).1 = 0
      · have hout := next_student_id_out F (s_name [] "Enter name (max 32 chars): " false false
          (s_age 0 "Enter age (5-75): " false false w).2).2 X (by simp [hn.answered h2])
        simp [h1, h2, h3, hout]
      · cases h4 : F.open_append <;> cases h5 : F.write <;>
          simp [h1, h2, h3, h4, h5, emit]
    · simp [h1, h2, hn.aborted (by simpa using h2)]
  · simp [h1, ha.aborted (by simpa using h1)]

/-! ## Claims on the next id and on creation -/

/-- C2: `next_student_id` returns 1 when the file does not exist; when the
file is opened and read without error and its largest id is below 2^32 - 1, it
returns the largest id plus one (0 plus one for a file without records), which
is greater than every id in the file. -/
theorem next_student_id_max_plus_one (F : Faults) (w : World)
    (hopen : F.open_read = false) (hread : F.read_error = none) :
    (w.file = none → (next_student_id F w).1 = 1) ∧
    (∀ records, w.file = some records → max_id records < UINT32_MAX →
      (next_student_id F w).1 = max_id records + 1 ∧
      (records = [] → (next_student_id F w).1 = 1) ∧
      ∀ s ∈ records, s.id < (next_student_id F w).1) := by
  have h := next_student_id_no_error F w hopen hread
  constructor
  · intro hf
    rw [h, hf]
    decide
  · intro records hf hmax
    have hne : max_id records ≠ UINT32_MAX := by omega
    have hval : (next_student_id F w).1 = max_id records + 1 := by
      rw [h, hf]
      simp only [records_of, Option.getD_some, hne, ↓reduceIte]
      apply Nat.mod_eq_of_lt
      simp only [UINT32_MAX] at hmax
      omega
    refine ⟨hval, ?_, ?_⟩
    · intro he
      rw [hval, he]
      rfl
    · intro s hs
      rw [hval]
      have : s.id ≤ max_id records :=
        le_foldr_max _ _ (List.mem_map_of_mem student_t.id hs)
      omega

theorem next_student_id_max_plus_one_witness :
    (next_student_id no_faults
        { stdin := [], out := [],
          file := some [{ id := 3, age := 20, name := name_field (ascii "Ada") },
                        { id := 7, age := 30, name := name_field (ascii "Bob") }] }).1 = 8 :=
  ((next_student_id_max_plus_one no_faults
      { stdin := [], out := [],
        file := some [{ id := 3, age := 20, name := name_field (ascii "Ada") },
                      { id := 7, age := 30, name := name_field (ascii "Bob") }] } rfl rfl).2
    _ rfl (by decide)).1

/-- C3 (failing input): the file holds the record (1, 20, "Ada") and the first
`fread` of the scan fails. `next_student_id` returns 1, not the failure value
0, and `create_student` appends a second record with id 1. -/
theorem create_student_after_read_error :
    (next_student_id { no_faults with read_error := some 0 }
        { stdin := [], out := [],
          file := some [{ id := 1, age := 20, name := name_field (ascii "Ada") }] }).1 = 1 ∧
    (create_student { no_faults with read_error := some 0 }
        { stdin := ascii "30\nBob\n", out := [],
          file := some [{ id := 1, age := 20, name := name_field (ascii "Ada") }] }).file =
      some [{ id := 1, age := 20, name := name_field (ascii "Ada") },
            { id := 1, age := 30, name := name_field (ascii "Bob") }] := by
  decide

/-- The part of C3 the code does: when the file cannot be opened for a reason
other than absence, `next_student_id` returns 0 and `create_student` leaves the file as it is. -/
theorem create_student_open_error (F : Faults) (w : World) (hopen : F.open_read = true) :
    (next_student_id F w).1 = 0 ∧ (create_student F w).file = w.file := by
  refine ⟨next_student_id_open_error F w hopen, ?_⟩
  rw [create_student_file]
  simp [next_student_id_open_error F _ hopen]

/-- C4: when the file holds a record with id 2^32 - 1 and is read without
error, `next_student_id` returns 0 (after "ID limit reached." when the file
was opened), and `create_student` leaves the file as it is whatever is typed. -/
theorem create_student_id_limit (F : Faults) (w : World) (records : List student_t)
    (hfile : w.file = some records)
    (hty : ∀ s ∈ records, s.id ≤ UINT32_MAX)
    (hmax : ∃ s ∈ records, s.id = UINT32_MAX)
    (hread : F.read_error = none) :
    (next_student_id F w).1 = 0 ∧
    (F.open_read = false → (next_student_id F w).2.out = w.out ++ [Event.id_limit]) ∧
    create_id F w = 0 ∧
    (create_student F w).file = w.file := by
  have hm : max_id records = UINT32_MAX := by
    obtain ⟨s, hs, hid⟩ := hmax
    have h1 : s.id ≤ max_id records := le_foldr_max _ _ (List.mem_map_of_mem student_t.id hs)
    have h2 : max_id records ≤ UINT32_MAX :=
      foldr_max_le _ _ (by
        intro x hx
        obtain ⟨t, ht, rfl⟩ := List.mem_map.mp hx
        exact hty t ht)
    omega
  have hzero : ∀ w' : World, w'.file = some records → (next_student_id F w').1 = 0 := by
    intro w' hf
    cases ho : F.open_read with
    | true => exact next_student_id_open_error F w' ho
    | false =>
      rw [next_student_id_no_error F w' ho hread, hf]
      simp [records_of, hm]
  have hfile' : (create_name w).2.file = some records := by
    unfold create_name create_age
    rw [(s_name_post_holds _ _ _ _ _).file_eq, (s_age_post_holds _ _ _ _ _).file_eq, hfile]
  refine ⟨hzero w hfile, ?_, hzero _ hfile', ?_⟩
  · intro ho
    unfold next_student_id
    simp only [ho, Bool.false_eq_true, ↓reduceIte, hfile, hread, max_id_loop_no_error,
      Nat.zero_le, max_eq_right, hm, emit]
  · rw [create_student_file]
    have := hzero _ hfile'
    unfold create_name create_age at this
    simp [this]

theorem create_student_id_limit_witness :
    (create_student no_faults
        { stdin := ascii "30\nBob\n", out := [],
          file := some [{ id := 4294967295, age := 20, name := name_field (ascii "Ada") }] }).file =
      some [{ id := 4294967295, age := 20, name := name_field (ascii "Ada") }] :=
  (create_student_id_limit no_faults
      { stdin := ascii "30\nBob\n", out := [],
        file := some [{ id := 4294967295, age := 20, name := name_field (ascii "Ada") }] }
      _ rfl (by decide) (by decide) rfl).2.2.2

/-- C6: when `create_student` ends with "Student created with ID X", both
prompts were answered, and the file afterwards holds the old records, in their
order, followed by the one record (X, age entered, name entered); a file that
did not exist holds just that record. -/
theorem create_student_appends (F : Faults) (w : World) (X : Nat)
    (h : reports_created (create_student F w) X) :
    (create_age w).1.ok = true ∧ (create_name w).1.ok = true ∧
    (create_student F w).file =
      some (records_of w.file ++
        [{ id := X, age := (create_age w).1.value,
           name := name_field (create_name w).1.value }]) ∧
    cstr (name_field (create_name w).1.value) = (create_name w).1.value ∧
    (w.file = none →
      (create_student F w).file =
        some [{ id := X, age := (create_age w).1.value,
                name := name_field (create_name w).1.value }]) := by
  have hc := (create_student_created F w X).mp h
  have hfile := create_student_file F w
  rw [if_pos hc.1, hc.2] at hfile
  have hn := s_name_post_holds [] "Enter name (max 32 chars): " false false
    (s_age 0 "Enter age (5-75): " false false w).2
  have hacc := hn.accepted hc.1.2.1 (hn.required hc.1.2.1 rfl)
  refine ⟨hc.1.1, hc.1.2.1, hfile, cstr_name_field _ hacc.2.1 hacc.2.2, ?_⟩
  intro hnone
  rw [hfile, hnone]
  rfl

theorem create_student_appends_witness :
    (create_student no_faults
        { stdin := ascii "30\nBob\n", out := [],
          file := some [{ id := 1, age := 20, name := name_field (ascii "Ada") }] }).file =
      some [{ id := 1, age := 20, name := name_field (ascii "Ada") },
            { id := 2, age := 30, name := name_field (ascii "Bob") }] :=
  (create_student_appends no_faults
      { stdin := ascii "30\nBob\n", out := [],
        file := some [{ id := 1, age := 20, name := name_field (ascii "Ada") }] }
      2 (by decide)).2.2.1

/-! ## Searching and editing -/

/-- A successful search stops at the first record with the id sought. -/
theorem find_loop_found (student_id : Nat) (records : List student_t) :
    ∀ (read_error : Option Nat) (pos : Nat) (student : student_t),
      (find_loop student_id records read_error pos student).found = true →
      ∃ k, (find_loop student_id records read_error pos student).pos = pos + k + 1 ∧
        records[k]? = some (find_loop student_id records read_error pos student).student ∧
        (find_loop student_id records read_error pos student).student.id = student_id ∧
        ∀ j, j < k → ∀ t, records[j]? = some t → t.id ≠ student_id := by
  induction records with
  | nil => intro re pos st h; simp [find_loop] at h
  | cons s rest ih =>
    intro re pos st h
    simp only [find_loop] at h ⊢
    by_cases h0 : re = some 0
    · simp [h0] at h
    · simp only [h0, ↓reduceIte] at h ⊢
      by_cases hid : s.id = student_id
      · rw [if_pos hid]
        exact ⟨0, by simp, by simp, hid, by intro j hj; omega⟩
      · simp only [hid, ↓reduceIte] at h ⊢
        obtain ⟨k, h1, h2, h3, h4⟩ := ih _ _ _ h
        refine ⟨k + 1, by omega, by simpa using h2, h3, ?_⟩
        intro j hj t ht
        cases j with
        | zero =>
          simp only [List.getElem?_cons_zero, Option.some.injEq] at ht
          rw [← ht]; exact hid
        | succ j =>
          simp only [List.getElem?_cons_succ] at ht
          exact h4 j (by omega) t ht

/-- Without a read error the search finds a record exactly when some record has the id. -/
theorem find_loop_found_iff (student_id : Nat) (records : List student_t) :
    ∀ (pos : Nat) (student : student_t),
      ((find_loop student_id records none pos student).found = true ↔
        ∃ s ∈ records, s.id = student_id) ∧
      (find_loop student_id records none pos student).error = false := by
  induction records with
  | nil => intro pos st; simp [find_loop]
  | cons s rest ih =>
    intro pos st
    simp only [find_loop, reduceCtorEq, ↓reduceIte, Option.map_none', List.mem_cons,
      exists_eq_or_imp]
    by_cases hid : s.id = student_id
    · simp [hid]
    · simp only [hid, ↓reduceIte, false_or]
      exact ih _ _

/-- The outcome of the search, the record found apart, depends on the ids only. -/
theorem find_loop_ids (student_id : Nat) (records : List student_t) :
    ∀ (records' : List student_t) (read_error : Option Nat) (pos : Nat)
      (student student' : student_t),
      records.map student_t.id = records'.map student_t.id →
      (find_loop student_id records read_error pos student).found =
        (find_loop student_id records' read_error pos student').found ∧
      (find_loop student_id records read_error pos student).pos =
        (find_loop student_id records' read_error pos student').pos ∧
      (find_loop student_id records read_error pos student).error =
        (find_loop student_id records' read_error pos student').error := by
  induction records with
  | nil =>
    intro records' re pos st st' h
    have : records' = [] := by simpa using h.symm
    subst this
    simp [find_loop]
  | cons s rest ih =>
    intro records' re pos st st' h
    cases records' with
    | nil => simp at h
    | cons s' rest' =>
      simp only [List.map_cons, List.cons.injEq] at h
      simp only [find_loop, h.1]
      by_cases h0 : re = some 0
      · simp [h0]
      · simp only [h0, ↓reduceIte]
        by_cases hid : s'.id = student_id
        · simp [hid]
        · simp only [hid, ↓reduceIte]
          exact ih _ _ _ _ _ h.2

/-- The file `edit_student` leaves: the old records with the record found
replaced when the run reaches a successful write, and the old file otherwise. -/
theorem edit_student_file (F : Faults) (w : World) :
    (edit_student F w).file =
      if edit_writes F w then
        some ((records_of w.file).set ((edit_scan F w).pos - 1) (edited_student F w))
      else w.file := by
  have hi := s_id_post_holds 0 w
  have ha := s_age_post_holds (edit_scan F w).student.age
    "Enter new age (5-75) or press ENTER to keep current: " true false
    (emit (edit_id w).2 (Event.editing (edit_scan F w).student.id
      (cstr (edit_scan F w).student.name) (edit_scan F w).student.age))
  have hn := s_name_post_holds []
    "Enter new name (max 32 chars) or press ENTER to keep current: " true false (edit_age F w).2
  have hfa : (edit_age F w).2.file = w.file := by
    unfold edit_age; rw [ha.file_eq]; exact hi.file_eq
  have hfn : (edit_name F w).2.file = w.file := by
    unfold edit_name; rw [hn.file_eq, hfa]
  unfold edit_student
  simp only
  by_cases h1 : (s_id 0 w).1.ok = true
  swap
  · have : ¬ edit_writes F w := fun h => h1 h.1
    simp [h1, this, hi.file_eq]
  by_cases h2 : F.open_update = true
  · have : ¬ edit_writes F w := fun h => by simp [h.2.1] at h2
    simp [h1, h2, this, emit, hi.file_eq]
  simp only [h1, h2, Bool.not_true, Bool.false_eq_true, ↓reduceIte]
  cases hf : w.file with
  | none =>
    have : ¬ edit_writes F w := fun h => h.2.2.1 hf
    have hf' : (s_id 0 w).2.file = none := by rw [hi.file_eq, hf]
    rw [if_neg this]
    simp [hf', emit]
  | some records =>
    have hf' : (s_id 0 w).2.file = some records := by rw [hi.file_eq, hf]
    have hscan : edit_scan F w = find_student F records (s_id 0 w).1.value := by
      simp [edit_scan, edit_id, hf, records_of]
    simp only [hf']
    rw [← hscan]
    by_cases h3 : (edit_scan F w).found = true
    swap
    · have : ¬ edit_writes F w := fun h => h3 h.2.2.2.1
      rw [if_neg this]
      simp only [h3, Bool.not_false, ↓reduceIte]
      split <;> simp [emit, hi.file_eq, hf]
    simp only [h3, Bool.not_true, Bool.false_eq_true, ↓reduceIte]
    change (if (!(edit_age F w).1.ok) = true then (edit_age F w).2
      else if (!(edit_name F w).1.ok) = true then (edit_name F w).2
      else if (!(edit_age F w).1.provided && !(edit_name F w).1.provided) = true then
        emit (edit_name F w).2 Event.no_changes
      else if F.seek = true then emit (edit_name F w).2 (Event.perror "Failed to seek student file")
      else if F.write = true then emit (edit_name F w).2 (Event.perror "Failed to update student")
      else emit { (edit_name F w).2 with
          file := some (records.set ((edit_scan F w).pos - 1) (edited_student F w)) }
        Event.updated).file = _
    by_cases h4 : (edit_age F w).1.ok = true
    swap
    · have : ¬ edit_writes F w := fun h => h4 h.2.2.2.2.1
      simp [h4, this, hfa, hf]
    by_cases h5 : (edit_name F w).1.ok = true
    swap
    · have : ¬ edit_writes F w := fun h => h5 h.2.2.2.2.2.1
      simp [h4, h5, this, hfn, hf]
    by_cases h6 : (edit_age F w).1.provided = true ∨ (edit_name F w).1.provided = true
    swap
    · have : ¬ edit_writes F w := fun h => h6 h.2.2.2.2.2.2.1
      have h6' := not_or.mp h6
      simp [h4, h5, this, h6'.1, h6'.2, emit, hfn, hf]
    have h6' : ¬ ((edit_age F w).1.provided = false ∧ (edit_name F w).1.provided = false) := by
      intro h; rcases h6 with h' | h' <;> simp [h.1, h.2] at h'
    cases h7 : F.seek with
    | true =>
      have : ¬ edit_writes F w := fun h => by simp [h.2.2.2.2.2.2.2.1] at h7
      rw [if_neg this]
      simp [h4, h5, h6', emit, hfn, hf]
    | false =>
      cases h8 : F.write with
      | true =>
        have : ¬ edit_writes F w := fun h => by simp [h.2.2.2.2.2.2.2.2] at h8
        rw [if_neg this]
        simp [h4, h5, h6', emit, hfn, hf]
      | false =>
        have : edit_writes F w :=
          ⟨h1, by simpa using h2, by simp [hf], h3, h4, h5, h6, h7, h8⟩
        rw [if_pos this]
        simp [h4, h5, h6', emit, records_of]

theorem set_of_getElem? {α : Type} (l : List α) (k : Nat) (a : α) (h : l[k]? = some a) :
    l.set k a = l := by
  induction l generalizing k with
  | nil => simp
  | cons b l ih =>
    cases k with
    | zero =>
      simp only [List.getElem?_cons_zero, Option.some.injEq] at h
      simp [h]
    | succ k =>
      simp only [List.getElem?_cons_succ] at h
      simp [ih k h]

theorem map_id_set (records : List student_t) (k : Nat) (s t : student_t)
    (h : records[k]? = some s) (hid : t.id = s.id) :
    (records.set k t).map student_t.id = records.map student_t.id := by
  rw [List.map_set]
  apply set_of_getElem?
  simp [h, hid]

theorem edited_student_id (F : Faults) (w : World) :
    (edited_student F w).id = (edit_scan F w).student.id := by
  unfold edited_student
  simp only
  split <;> split <;> rfl

/-- The search of `edit_student`, when it succeeds, stops at the first record with the id entered. -/
theorem edit_scan_found (F : Faults) (w : World) (h : (edit_scan F w).found = true) :
    (records_of w.file)[(edit_scan F w).pos - 1]? = some (edit_scan F w).student ∧
    (edit_scan F w).student.id = (edit_id w).1.value ∧
    ∀ j, j < (edit_scan F w).pos - 1 → ∀ t, (records_of w.file)[j]? = some t →
      t.id ≠ (edit_id w).1.value := by
  unfold edit_scan find_student at h ⊢
  obtain ⟨k, h1, h2, h3, h4⟩ := find_loop_found _ _ _ _ _ h
  have hk : (find_loop (edit_id w).1.value (records_of w.file) F.read_error 0
      { id := 0, age := 0, name := List.replicate (NAME_LEN + 1) 0 }).pos - 1 = k := by omega
  rw [hk]
  exact ⟨h2, h3, h4⟩

/-- An edit leaves the ids of the file as they are, in their order. -/
theorem edit_student_ids (F : Faults) (w : World) :
    (records_of (edit_student F w).file).map student_t.id =
      (records_of w.file).map student_t.id := by
  rw [edit_student_file]
  split
  · rename_i hw
    have hf := edit_scan_found F w hw.2.2.2.1
    simp only [records_of, Option.getD_some]
    exact map_id_set _ _ _ _ hf.1 (edited_student_id F w)
  · rfl

/-- The id a successful `create_student` assigns, when the ids in the file fit
`uint32_t` and the scan meets no read error: the largest id plus one. -/
theorem create_id_fresh (F : Faults) (w : World) (X : Nat)
    (hty : ∀ s ∈ records_of w.file, s.id ≤ UINT32_MAX)
    (hread : F.read_error = none)
    (h : reports_created (create_student F w) X) :
    X = max_id (records_of w.file) + 1 ∧ X ≤ UINT32_MAX ∧
    ∀ s ∈ records_of w.file, s.id < X := by
  have hc := (create_student_created F w X).mp h
  have hfile : (s_name [] "Enter name (max 32 chars): " false false
      (s_age 0 "Enter age (5-75): " false false w).2).2.file = w.file := by
    rw [(s_name_post_holds _ _ _ _ _).file_eq, (s_age_post_holds _ _ _ _ _).file_eq]
  have hX := hc.2
  have hne := hc.1.2.2.1
  have hle : max_id (records_of w.file) ≤ UINT32_MAX :=
    foldr_max_le _ _ (by
      intro x hx
      obtain ⟨t, ht, rfl⟩ := List.mem_map.mp hx
      exact hty t ht)
  cases ho : F.open_read with
  | true => exact absurd (next_student_id_open_error F _ ho) hne
  | false =>
    rw [next_student_id_no_error F _ ho hread, hfile] at hX hne
    by_cases hm : max_id (records_of w.file) = UINT32_MAX
    · simp [hm] at hne
    · simp only [hm, ↓reduceIte] at hX
      have hlt : max_id (records_of w.file) + 1 < 2 ^ 32 := by
        simp only [UINT32_MAX] at hm hle
        omega
      rw [Nat.mod_eq_of_lt hlt] at hX
      refine ⟨hX.symm, ?_, ?_⟩
      · simp only [UINT32_MAX]; omega
      · intro s hs
        have : s.id ≤ max_id (records_of w.file) :=
          le_foldr_max _ _ (List.mem_map_of_mem student_t.id hs)
        omega

/-- The file after a `create_student` that ends with "Student created with ID X". -/
theorem create_student_file_created (F : Faults) (w : World) (X : Nat)
    (h : reports_created (create_student F w) X) :
    (create_student F w).file =
      some (records_of w.file ++
        [{ id := X, age := (create_age w).1.value,
           name := name_field (create_name w).1.value }]) := by
  have hc := (create_student_created F w X).mp h
  have hfile := create_student_file F w
  rw [if_pos hc.1, hc.2] at hfile
  exact hfile

/-- C5: when the ids in the file lie in [1, 2^32 - 1] and are pairwise
distinct, they still are after `create_student` (given that the scan for the
next id meets no read error) and after `edit_student`, whatever is typed. -/
theorem ids_unique_preserved (F : Faults) (w : World) (h : ids_unique (records_of w.file)) :
    (F.read_error = none → ids_unique (records_of (create_student F w).file)) ∧
    ids_unique (records_of (edit_student F w).file) := by
  constructor
  · intro hread
    by_cases hc : ∃ X, reports_created (create_student F w) X
    · obtain ⟨X, hX⟩ := hc
      have hfresh := create_id_fresh F w X (fun s hs => (h.1 s hs).2) hread hX
      have hfile := create_student_file_created F w X hX
      rw [hfile]
      simp only [records_of, Option.getD_some]
      constructor
      · intro s hs
        rcases List.mem_append.mp hs with hs | hs
        · exact h.1 s hs
        · simp only [List.mem_singleton] at hs
          subst hs
          exact ⟨by have := hfresh.1; simp only; omega, hfresh.2.1⟩
      · rw [List.map_append]
        apply List.Nodup.append h.2 (by simp)
        intro x hx1 hx2
        simp only [List.map_cons, List.map_nil, List.mem_singleton] at hx2
        obtain ⟨t, ht, rfl⟩ := List.mem_map.mp hx1
        have := hfresh.2.2 t ht
        omega
    · have hfile := create_student_file F w
      split at hfile
      · rename_i hcond
        exact absurd ⟨_, (create_student_created F w _).mpr ⟨hcond, rfl⟩⟩ hc
      · rw [hfile]; exact h
  · constructor
    · intro s hs
      have hid : s.id ∈ (records_of (edit_student F w).file).map student_t.id :=
        List.mem_map_of_mem student_t.id hs
      rw [edit_student_ids] at hid
      obtain ⟨t, ht, hteq⟩ := List.mem_map.mp hid
      rw [← hteq]
      exact h.1 t ht
    · rw [edit_student_ids]
      exact h.2

theorem ids_unique_preserved_witness :
    ids_unique (records_of (create_student no_faults
      { stdin := ascii "40\nCyd\n", out := [],
        file := some [{ id := 1, age := 20, name := name_field (ascii "Ada") },
                      { id := 2, age := 30, name := name_field (ascii "Bob") }] }).file) ∧
    ids_unique (records_of (edit_student no_faults
      { stdin := ascii "40\nCyd\n", out := [],
        file := some [{ id := 1, age := 20, name := name_field (ascii "Ada") },
                      { id := 2, age := 30, name := name_field (ascii "Bob") }] }).file) :=
  ⟨(ids_unique_preserved no_faults
      { stdin := ascii "40\nCyd\n", out := [],
        file := some [{ id := 1, age := 20, name := name_field (ascii "Ada") },
                      { id := 2, age := 30, name := name_field (ascii "Bob") }] }
      (by decide)).1 rfl,
   (ids_unique_preserved no_faults
      { stdin := ascii "40\nCyd\n", out := [],
        file := some [{ id := 1, age := 20, name := name_field (ascii "Ada") },
                      { id := 2, age := 30, name := name_field (ascii "Bob") }] }
      (by decide)).2⟩

/-! ## Looking a record up -/

theorem find_loop_append_fresh (X : Nat) (records : List student_t) (new : student_t)
    (hnew : new.id = X) (hfresh : ∀ s ∈ records, s.id ≠ X) :
    ∀ (pos : Nat) (student : student_t),
      find_loop X (records ++ [new]) none pos student =
        { found := true, student := new, pos := pos + records.length + 1, error := false } := by
  induction records with
  | nil => intro pos st; simp [find_loop, hnew]
  | cons s rest ih =>
    intro pos st
    have hs : s.id ≠ X := hfresh s (by simp)
    have hrest := ih (fun t ht => hfresh t (by simp [ht])) (pos + 1) s
    rw [List.cons_append]
    simp only [find_loop, reduceCtorEq, ↓reduceIte, hs, Option.map_none', List.length_cons]
    rw [hrest]
    simp only [scan_result.mk.injEq, true_and, and_true]
    omega

/-- What `print_student_by_id` writes when the id entered is found. -/
theorem print_student_by_id_found (G : Faults) (w : World) (records : List student_t)
    (hopen : G.open_read = false) (hok : (s_id 0 w).1.ok = true)
    (hfile : w.file = some records)
    (hfound : (find_student G records (s_id 0 w).1.value).found = true) :
    (print_student_by_id G w).out =
      (s_id 0 w).2.out ++
        [Event.header,
         Event.student (find_student G records (s_id 0 w).1.value).student.id
           (cstr (find_student G records (s_id 0 w).1.value).student.name)
           (find_student G records (s_id 0 w).1.value).student.age] := by
  have hf : (s_id 0 w).2.file = some records := by
    rw [(s_id_post_holds 0 w).file_eq, hfile]
  unfold print_student_by_id
  simp [hok, hopen, hf, hfound, print_student, emit]

/-- Edits leave the ids of the file as they are, however many follow one another. -/
theorem edits_ids (edits : List Faults) (w : World) :
    (records_of (edits.foldl (fun v E => edit_student E v) w).file).map student_t.id =
      (records_of w.file).map student_t.id := by
  induction edits generalizing w with
  | nil => rfl
  | cons E rest ih =>
    simp only [List.foldl_cons]
    rw [ih, edit_student_ids]

/-- C7: after a `create_student` that ends with "Student created with ID X"
(ids in the file fit `uint32_t`, no read error in the scan for the next id), a
search for X finds the new record (X, age entered, name entered) and
`print_student_by_id` prints it; after any later edits the search for X still
finds, at the same place, a record with id X. -/
theorem lookup_after_create (F : Faults) (w : World) (X : Nat)
    (hty : ∀ s ∈ records_of w.file, s.id ≤ UINT32_MAX)
    (hread : F.read_error = none)
    (h : reports_created (create_student F w) X) :
    (∀ G : Faults, G.read_error = none →
      find_student G (records_of (create_student F w).file) X =
        { found := true,
          student := { id := X, age := (create_age w).1.value,
                       name := name_field (create_name w).1.value },
          pos := (records_of w.file).length + 1, error := false }) ∧
    (∀ (G : Faults) (v : World), G.open_read = false → G.read_error = none →
      v.file = (create_student F w).file → (s_id 0 v).1.ok = true → (s_id 0 v).1.value = X →
      (print_student_by_id G v).out =
        (s_id 0 v).2.out ++
          [Event.header,
           Event.student X (create_name w).1.value (create_age w).1.value]) ∧
    (∀ (edits : List Faults) (G : Faults), G.read_error = none →
      (find_student G
        (records_of (edits.foldl (fun v E => edit_student E v) (create_student F w)).file)
        X).found = true ∧
      (find_student G
        (records_of (edits.foldl (fun v E => edit_student E v) (create_student F w)).file)
        X).student.id = X ∧
      (find_student G
        (records_of (edits.foldl (fun v E => edit_student E v) (create_student F w)).file)
        X).pos = (records_of w.file).length + 1) := by
  have hfresh := create_id_fresh F w X hty hread h
  have hfile := create_student_file_created F w X h
  have hc := (create_student_created F w X).mp h
  have hn := s_name_post_holds [] "Enter name (max 32 chars): " false false
    (s_age 0 "Enter age (5-75): " false false w).2
  have hacc := hn.accepted hc.1.2.1 (hn.required hc.1.2.1 rfl)
  have hcstr : cstr (name_field (create_name w).1.value) = (create_name w).1.value :=
    cstr_name_field _ hacc.2.1 hacc.2.2
  have hfind : ∀ G : Faults, G.read_error = none →
      find_student G (records_of (create_student F w).file) X =
        { found := true,
          student := { id := X, age := (create_age w).1.value,
                       name := name_field (create_name w).1.value },
          pos := (records_of w.file).length + 1, error := false } := by
    intro G hG
    rw [hfile]
    unfold find_student
    simp only [records_of, Option.getD_some, hG]
    rw [find_loop_append_fresh X _ _ rfl (fun s hs => by have := hfresh.2.2 s hs; omega)]
    simp
  refine ⟨hfind, ?_, ?_⟩
  · intro G v hopen hG hv hok hval
    have hv' : v.file = some (records_of (create_student F w).file) := by
      rw [hv, hfile]; rfl
    have hfound := print_student_by_id_found G v _ hopen hok hv'
      (by rw [hval, hfind G hG])
    rw [hfound, hval, hfind G hG, hcstr]
  · intro edits G hG
    have hids := edits_ids edits (create_student F w)
    have h0 := hfind G hG
    unfold find_student at h0 ⊢
    have hsame := find_loop_ids X _ _ G.read_error 0
      { id := 0, age := 0, name := List.replicate (NAME_LEN + 1) 0 }
      { id := 0, age := 0, name := List.replicate (NAME_LEN + 1) 0 } hids
    rw [h0] at hsame
    refine ⟨hsame.1, ?_, hsame.2.1⟩
    exact (find_loop_found X _ _ _ _ hsame.1).choose_spec.2.2.1

theorem lookup_after_create_witness :
    (print_student_by_id no_faults
      (create_student no_faults
        { stdin := ascii "30\nBob\n2\n", out := [],
          file := some [{ id := 1, age := 20, name := name_field (ascii "Ada") }] })).out =
      [Event.prompt "Enter age (5-75): ", Event.prompt "Enter name (max 32 chars): ",
       Event.created 2, Event.prompt "Enter ID: ", Event.header,
       Event.student 2 (ascii "Bob") 30] :=
  (lookup_after_create no_faults
      { stdin := ascii "30\nBob\n2\n", out := [],
        file := some [{ id := 1, age := 20, name := name_field (ascii "Ada") }] }
      2 (by decide) rfl (by decide)).2.1 no_faults _ rfl rfl rfl (by decide) (by decide)

/-! ## Editing one field -/

theorem cstr_of_no_nul (n : List Nat) (h : ∀ c ∈ n, c ≠ 0) : cstr n = n := by
  unfold cstr
  rw [List.takeWhile_eq_self_iff]
  intro c hc
  simpa using h c hc

/-- The string in the field after `strncpy` and the terminator written at its last byte. -/
theorem cstr_strncpy (arr n : List Nat) (hlen : n.length ≤ NAME_LEN) (h : ∀ c ∈ n, c ≠ 0) :
    cstr ((strncpy arr n NAME_LEN).set NAME_LEN 0) = n := by
  unfold strncpy
  have h1 : n.take NAME_LEN = n := List.take_of_length_le hlen
  rw [h1, List.append_assoc, List.set_append_right _ _ hlen]
  rcases Nat.lt_or_ge n.length NAME_LEN with hlt | hge
  · obtain ⟨m, hm⟩ : ∃ m, NAME_LEN - n.length = m + 1 := ⟨NAME_LEN - n.length - 1, by omega⟩
    rw [hm, List.replicate_succ, List.cons_append, List.set_cons_succ]
    exact cstr_append_zero n _ h
  · have h0 : NAME_LEN - n.length = 0 := by omega
    rw [h0, List.replicate_zero, List.nil_append]
    cases arr.drop NAME_LEN with
    | nil => simpa using cstr_of_no_nul n h
    | cons x t => exact cstr_append_zero n _ h

/-- The field after `strncpy` and the terminator, for an array of `NAME_LEN + 1` bytes. -/
theorem strncpy_name_field (arr n : List Nat) (harr : arr.length = NAME_LEN + 1)
    (hlen : n.length ≤ NAME_LEN) :
    (strncpy arr n NAME_LEN).set NAME_LEN 0 = name_field n := by
  unfold strncpy name_field
  have h1 : n.take NAME_LEN = n := List.take_of_length_le hlen
  obtain ⟨x, hx⟩ : ∃ x, arr.drop NAME_LEN = [x] := by
    have hl : (arr.drop NAME_LEN).length = 1 := by simp [harr]
    match hd : arr.drop NAME_LEN, hl with
    | [x], _ => exact ⟨x, rfl⟩
  have h3 : NAME_LEN + 1 - n.length = (NAME_LEN - n.length) + 1 := by omega
  have h4 : (n ++ List.replicate (NAME_LEN - n.length) 0).length = NAME_LEN := by
    simp only [List.length_append, List.length_replicate]; omega
  rw [h1, hx, h3, List.replicate_succ', ← List.append_assoc]
  rw [List.set_append_right _ _ (by omega), h4]
  simp

/-- Without a read error the search of `edit_student` finds every id the file holds. -/
theorem edit_scan_found_of_mem (F : Faults) (w : World) (hread : F.read_error = none)
    (h : ∃ s ∈ records_of w.file, s.id = (edit_id w).1.value) :
    (edit_scan F w).found = true := by
  unfold edit_scan find_student
  rw [hread]
  exact (find_loop_found_iff _ _ _ _).1.mpr h

/-! ## Reading one line of input -/

theorem fgets_loop_short (line rest : List Nat) (h : ∀ c ∈ line, c ≠ 10) :
    ∀ n, line.length < n → fgets_loop n (line ++ 10 :: rest) = (line ++ [10], rest) := by
  induction line with
  | nil =>
    intro n hn
    obtain ⟨m, rfl⟩ : ∃ m, n = m + 1 := ⟨n - 1, by simp at hn; omega⟩
    simp [fgets_loop]
  | cons c line ih =>
    intro n hn
    obtain ⟨m, rfl⟩ : ∃ m, n = m + 1 := ⟨n - 1, by simp at hn; omega⟩
    have hc : c ≠ 10 := h c (by simp)
    have := ih (fun d hd => h d (by simp [hd])) m (by simpa using hn)
    simp [fgets_loop, hc, this]

theorem fgets_loop_long (line rest : List Nat) (h : ∀ c ∈ line, c ≠ 10) :
    ∀ n, n ≤ line.length →
      fgets_loop n (line ++ 10 :: rest) = (line.take n, line.drop n ++ 10 :: rest) := by
  induction line with
  | nil =>
    intro n hn
    have : n = 0 := by simpa using hn
    subst this
    simp [fgets_loop]
  | cons c line ih =>
    intro n hn
    cases n with
    | zero => simp [fgets_loop]
    | succ m =>
      have hc : c ≠ 10 := h c (by simp)
      have := ih (fun d hd => h d (by simp [hd])) m (by simpa using hn)
      simp [fgets_loop, hc, this]

theorem drain_line (line rest : List Nat) (h : ∀ c ∈ line, c ≠ 10) :
    drain (line ++ 10 :: rest) = rest := by
  induction line with
  | nil => simp [drain]
  | cons c line ih =>
    have hc : c ≠ 10 := h c (by simp)
    simp [drain, hc, ih (fun d hd => h d (by simp [hd]))]

theorem strcspn_newline_all (l tail : List Nat) (h : ∀ c ∈ l, c ≠ 0 ∧ c ≠ 10) :
    (tail = [] ∨ tail.head? = some 10 ∨ tail.head? = some 0) →
    strcspn_newline (l ++ tail) = l.length := by
  intro ht
  unfold strcspn_newline
  rw [List.takeWhile_append_of_pos (by
    intro c hc
    have := h c hc
    simp [this.1, this.2])]
  rcases ht with ht | ht | ht
  · simp [ht]
  · cases tail with
    | nil => simp at ht
    | cons x t =>
      simp only [List.head?_cons, Option.some.injEq] at ht
      simp [ht]
  · cases tail with
    | nil => simp at ht
    | cons x t =>
      simp only [List.head?_cons, Option.some.injEq] at ht
      simp [ht]

/-- A line without NUL that ends with a newline: `read_line` leaves the line,
cut to the `size - 1` bytes the buffer holds, and consumes it with its newline. -/
theorem read_line_line (size : Nat) (line rest : List Nat)
    (h : ∀ c ∈ line, c ≠ 0 ∧ c ≠ 10) :
    read_line size (line ++ 10 :: rest) = some (line.take (size - 1), rest) := by
  have h10 : ∀ c ∈ line, c ≠ 10 := fun c hc => (h c hc).2
  have hne : line ++ 10 :: rest ≠ [] := by simp
  have hfgets : fgets size (line ++ 10 :: rest) =
      some (fgets_loop (size - 1) (line ++ 10 :: rest)) := by
    unfold fgets
    split
    · rename_i hl; exact absurd hl hne
    · rfl
  unfold read_line
  rw [hfgets]
  simp only
  rcases Nat.lt_or_ge line.length (size - 1) with hlt | hge
  · rw [fgets_loop_short line rest h10 _ hlt]
    simp only
    have hs : strcspn_newline (line ++ [10]) = line.length :=
      strcspn_newline_all line [10] h (Or.inr (Or.inl rfl))
    rw [hs]
    have hget : (line ++ [10]).get? line.length = some 10 := by
      simp [List.getElem?_append_right]
    rw [if_pos hget]
    simp [List.take_of_length_le (Nat.le_of_lt hlt)]
  · rw [fgets_loop_long line rest h10 _ hge]
    simp only
    have hmem : ∀ c ∈ line.take (size - 1), c ≠ 0 ∧ c ≠ 10 :=
      fun c hc => h c (List.mem_of_mem_take hc)
    have hs : strcspn_newline (line.take (size - 1)) = (line.take (size - 1)).length := by
      have := strcspn_newline_all (line.take (size - 1)) [] hmem (Or.inl rfl)
      simpa using this
    rw [hs]
    have hget : ¬ ((line.take (size - 1)).get? (line.take (size - 1)).length = some 10) := by
      rw [List.get?_eq_none.mpr (le_refl _)]
      simp
    rw [if_neg hget]
    rw [cstr_of_no_nul _ (fun c hc => (hmem c hc).1)]
    rw [drain_line _ _ (fun c hc => h10 c (List.mem_of_mem_drop hc))]

theorem trim_blank (ws : List Nat) (h : ∀ c ∈ ws, isspace c = true) : trim ws = [] := by
  unfold trim
  have : ws.reverse.dropWhile isspace = [] := by
    rw [List.dropWhile_eq_nil_iff]
    intro c hc
    exact h c (List.mem_reverse.mp hc)
  simp [this]

/-- An empty line at a prompt that allows it: `s_age` keeps the old age. -/
theorem s_age_empty_line (age : Nat) (message : String) (provided : Bool) (w : World)
    (rest : List Nat) (h : w.stdin = 10 :: rest) :
    s_age age message true provided w =
      ({ ok := true, value := age, provided := false },
       { emit w (Event.prompt message) with stdin := rest }) := by
  have hr : read_line 32 (10 :: rest) = some ([], rest) := by
    have := read_line_line 32 [] rest (by simp)
    simpa using this
  unfold s_age
  rw [h]
  simp only [List.length_cons, s_age_loop, emit, h, hr]
  simp

/-- A line of white space at a prompt that allows it: `s_name` keeps the old name. -/
theorem s_name_blank_line (name : List Nat) (message : String) (provided : Bool) (w : World)
    (ws rest : List Nat) (h : w.stdin = ws ++ 10 :: rest)
    (hws : ∀ c ∈ ws, isspace c = true ∧ c ≠ 10) :
    s_name name message true provided w =
      ({ ok := true, value := name, provided := false },
       { emit w (Event.prompt message) with stdin := rest }) := by
  have h0 : ∀ c ∈ ws, c ≠ 0 ∧ c ≠ 10 := by
    intro c hc
    refine ⟨?_, (hws c hc).2⟩
    intro h0
    have := (hws c hc).1
    rw [h0] at this
    exact absurd this (by decide)
  have hr : read_line 128 (ws ++ 10 :: rest) = some (ws.take 127, rest) :=
    read_line_line 128 ws rest h0
  have ht : trim (ws.take 127) = [] :=
    trim_blank _ (fun c hc => (hws c (List.mem_of_mem_take hc)).1)
  unfold s_name
  rw [h]
  simp only [List.length_append, List.length_cons, s_name_loop, emit, h, hr, ht]
  simp

/-! ## Claims on editing -/

/-- C8: in a run without library failure, with the id X entered held by some
record and both prompts answered, the record edited is the first one with id
X. When only an age is entered the file afterwards is the old one with the age
of that record replaced, name and id as they were; when only a name is entered
it is the old one with the name of that record replaced, age and id as they
were. In both cases the number of records and every other record stay. -/
theorem edit_student_one_field (w : World) (records : List student_t) (X : Nat)
    (hfile : w.file = some records) (hX : ∃ s ∈ records, s.id = X)
    (hok : (edit_id w).1.ok = true) (hval : (edit_id w).1.value = X)
    (hage : (edit_age no_faults w).1.ok = true)
    (hname : (edit_name no_faults w).1.ok = true) :
    records[(edit_scan no_faults w).pos - 1]? = some (edit_scan no_faults w).student ∧
    (edit_scan no_faults w).student.id = X ∧
    (∀ j, j < (edit_scan no_faults w).pos - 1 → ∀ t, records[j]? = some t → t.id ≠ X) ∧
    ((edit_age no_faults w).1.provided = true → (edit_name no_faults w).1.provided = false →
      (edit_student no_faults w).file =
        some (records.set ((edit_scan no_faults w).pos - 1)
          { id := (edit_scan no_faults w).student.id,
            age := (edit_age no_faults w).1.value,
            name := (edit_scan no_faults w).student.name })) ∧
    ((edit_age no_faults w).1.provided = false → (edit_name no_faults w).1.provided = true →
      (edit_student no_faults w).file =
        some (records.set ((edit_scan no_faults w).pos - 1)
          { id := (edit_scan no_faults w).student.id,
            age := (edit_scan no_faults w).student.age,
            name := (strncpy (edit_scan no_faults w).student.name
              (edit_name no_faults w).1.value NAME_LEN).set NAME_LEN 0 }) ∧
      cstr ((strncpy (edit_scan no_faults w).student.name
        (edit_name no_faults w).1.value NAME_LEN).set NAME_LEN 0) =
          (edit_name no_faults w).1.value ∧
      ((edit_scan no_faults w).student.name.length = NAME_LEN + 1 →
        (strncpy (edit_scan no_faults w).student.name
          (edit_name no_faults w).1.value NAME_LEN).set NAME_LEN 0 =
            name_field (edit_name no_faults w).1.value)) ∧
    (records_of (edit_student no_faults w).file).length = records.length ∧
    (∀ j, j ≠ (edit_scan no_faults w).pos - 1 →
      (records_of (edit_student no_faults w).file)[j]? = records[j]?) := by
  have hrec : records_of w.file = records := by simp [hfile, records_of]
  have hfound : (edit_scan no_faults w).found = true :=
    edit_scan_found_of_mem no_faults w rfl (by rw [hrec, hval]; exact hX)
  have hscan := edit_scan_found no_faults w hfound
  rw [hrec, hval] at hscan
  have hfile' := edit_student_file no_faults w
  rw [hrec] at hfile'
  have hwrites : ((edit_age no_faults w).1.provided = true ∨
      (edit_name no_faults w).1.provided = true) → edit_writes no_faults w := fun hp =>
    ⟨hok, rfl, by simp [hfile], hfound, hage, hname, hp, rfl, rfl⟩
  refine ⟨hscan.1, hscan.2.1, hscan.2.2, ?_, ?_, ?_, ?_⟩
  · intro ha hn
    rw [hfile', if_pos (hwrites (Or.inl ha))]
    simp [edited_student, ha, hn]
  · intro ha hn
    have hacc := (s_name_post_holds []
      "Enter new name (max 32 chars) or press ENTER to keep current: " true false
      (edit_age no_faults w).2).accepted hname hn
    refine ⟨?_, cstr_strncpy _ _ hacc.2.1 hacc.2.2, fun hl => strncpy_name_field _ _ hl hacc.2.1⟩
    rw [hfile', if_pos (hwrites (Or.inr hn))]
    simp [edited_student, ha, hn]
  · rw [hfile']
    split
    · simp [records_of]
    · simp [hfile, records_of]
  · intro j hj
    rw [hfile']
    split
    · simp only [records_of, Option.getD_some]
      exact List.getElem?_set_ne (Ne.symm hj)
    · simp [hfile, records_of]

theorem edit_student_one_field_witness :
    (edit_student no_faults
      { stdin := ascii "2\n31\n\n", out := [],
        file := some [{ id := 1, age := 20, name := name_field (ascii "Ada") },
                      { id := 2, age := 30, name := name_field (ascii "Bob") }] }).file =
      some [{ id := 1, age := 20, name := name_field (ascii "Ada") },
            { id := 2, age := 31, name := name_field (ascii "Bob") }] ∧
    (edit_student no_faults
      { stdin := ascii "2\n\nRobert\n", out := [],
        file := some [{ id := 1, age := 20, name := name_field (ascii "Ada") },
                      { id := 2, age := 30, name := name_field (ascii "Bob") }] }).file =
      some [{ id := 1, age := 20, name := name_field (ascii "Ada") },
            { id := 2, age := 30, name := name_field (ascii "Robert") }] :=
  ⟨(edit_student_one_field
      { stdin := ascii "2\n31\n\n", out := [],
        file := some [{ id := 1, age := 20, name := name_field (ascii "Ada") },
                      { id := 2, age := 30, name := name_field (ascii "Bob") }] }
      _ 2 rfl (by decide) (by decide) (by decide) (by decide) (by decide)).2.2.2.1
    (by decide) (by decide),
   ((edit_student_one_field
      { stdin := ascii "2\n\nRobert\n", out := [],
        file := some [{ id := 1, age := 20, name := name_field (ascii "Ada") },
                      { id := 2, age := 30, name := name_field (ascii "Bob") }] }
      _ 2 rfl (by decide) (by decide) (by decide) (by decide) (by decide)).2.2.2.2.1
    (by decide) (by decide)).1⟩

/-- C9: when neither an age nor a name is entered at the prompts of
`edit_student`, and when the id entered is not found, the file afterwards is
the file before. An empty line at the age prompt followed by a line of white
space at the name prompt enters neither. -/
theorem edit_student_no_write (F : Faults) (w : World) :
    ((edit_age F w).1.provided = false → (edit_name F w).1.provided = false →
      (edit_student F w).file = w.file) ∧
    ((edit_scan F w).found = false → (edit_student F w).file = w.file) ∧
    (∀ ws rest : List Nat, (edit_id w).2.stdin = 10 :: (ws ++ 10 :: rest) →
      (∀ c ∈ ws, isspace c = true ∧ c ≠ 10) →
      (edit_age F w).1.ok = true ∧ (edit_age F w).1.provided = false ∧
      (edit_name F w).1.ok = true ∧ (edit_name F w).1.provided = false ∧
      (edit_name F w).2.stdin = rest ∧
      (edit_student F w).file = w.file) := by
  have h1 : (edit_age F w).1.provided = false → (edit_name F w).1.provided = false →
      (edit_student F w).file = w.file := by
    intro ha hn
    rw [edit_student_file, if_neg]
    intro hw
    rcases hw.2.2.2.2.2.2.1 with h | h
    · simp [ha] at h
    · simp [hn] at h
  refine ⟨h1, ?_, ?_⟩
  · intro hf
    rw [edit_student_file, if_neg]
    intro hw
    exact absurd hw.2.2.2.1 (by simp [hf])
  · intro ws rest hstdin hws
    have ha : edit_age F w = _ :=
      s_age_empty_line (edit_scan F w).student.age
        "Enter new age (5-75) or press ENTER to keep current: " false
        (emit (edit_id w).2 (Event.editing (edit_scan F w).student.id
          (cstr (edit_scan F w).student.name) (edit_scan F w).student.age))
        (ws ++ 10 :: rest) hstdin
    have hn : edit_name F w = _ :=
      s_name_blank_line [] "Enter new name (max 32 chars) or press ENTER to keep current: "
        false (edit_age F w).2 ws rest (by rw [ha]) hws
    have hap : (edit_age F w).1.provided = false := by rw [ha]
    have hnp : (edit_name F w).1.provided = false := by rw [hn]
    refine ⟨by rw [ha], hap, by rw [hn], hnp, by rw [hn], h1 hap hnp⟩

theorem edit_student_no_write_witness :
    (edit_student no_faults
      { stdin := ascii "2\n\n  \t\n", out := [],
        file := some [{ id := 1, age := 20, name := name_field (ascii "Ada") },
                      { id := 2, age := 30, name := name_field (ascii "Bob") }] }).file =
      some [{ id := 1, age := 20, name := name_field (ascii "Ada") },
            { id := 2, age := 30, name := name_field (ascii "Bob") }] :=
  ((edit_student_no_write no_faults
      { stdin := ascii "2\n\n  \t\n", out := [],
        file := some [{ id := 1, age := 20, name := name_field (ascii "Ada") },
                      { id := 2, age := 30, name := name_field (ascii "Bob") }] }).2.2
    (ascii "  \t") [] (by decide) (by decide)).2.2.2.2.2

/-! ## The prompts depend on the input only -/

theorem s_id_loop_stdin (turns : Nat) :
    ∀ (id : Nat) (w v : World), w.stdin = v.stdin →
      (s_id_loop turns id w).map (fun r => (r.1, r.2.stdin)) =
        (s_id_loop turns id v).map (fun r => (r.1, r.2.stdin)) := by
  induction turns with
  | zero => intro _ _ _ _; simp [s_id_loop]
  | succ turns ih =>
    intro id w v h
    simp only [s_id_loop, emit, h]
    cases read_line 32 v.stdin with
    | none => simp
    | some p =>
      obtain ⟨buffer, rest⟩ := p
      simp only
      split
      · exact ih _ _ _ rfl
      · split
        · exact ih _ _ _ rfl
        · simp

theorem s_id_stdin (id : Nat) (w v : World) (h : w.stdin = v.stdin) :
    (s_id id w).1 = (s_id id v).1 ∧ (s_id id w).2.stdin = (s_id id v).2.stdin := by
  obtain ⟨r, hr⟩ := s_id_loop_terminates (w.stdin.length + 1) id w (Nat.lt_succ_self _)
  obtain ⟨r', hr'⟩ := s_id_loop_terminates (v.stdin.length + 1) id v (Nat.lt_succ_self _)
  have := s_id_loop_stdin (w.stdin.length + 1) id w v h
  rw [h] at this hr
  rw [hr, hr'] at this
  simp only [Option.map_some', Option.some.injEq, Prod.mk.injEq] at this
  simp [s_id, h, hr, hr', this]

theorem s_name_loop_stdin (message : String) (allow_empty : Bool) (turns : Nat) :
    ∀ (name : List Nat) (provided : Bool) (w v : World), w.stdin = v.stdin →
      (s_name_loop message allow_empty turns name provided w).map (fun r => (r.1, r.2.stdin)) =
        (s_name_loop message allow_empty turns name provided v).map
          (fun r => (r.1, r.2.stdin)) := by
  induction turns with
  | zero => intro _ _ _ _ _; simp [s_name_loop]
  | succ turns ih =>
    intro name provided w v h
    simp only [s_name_loop, emit, h]
    cases read_line 128 v.stdin with
    | none => simp
    | some p =>
      obtain ⟨line, rest⟩ := p
      simp only
      split
      · split
        · simp
        · exact ih _ _ _ _ rfl
      · split
        · exact ih _ _ _ _ rfl
        · simp

theorem s_name_stdin (name : List Nat) (message : String) (allow_empty provided : Bool)
    (w v : World) (h : w.stdin = v.stdin) :
    (s_name name message allow_empty provided w).1 =
      (s_name name message allow_empty provided v).1 ∧
    (s_name name message allow_empty provided w).2.stdin =
      (s_name name message allow_empty provided v).2.stdin := by
  obtain ⟨r, hr⟩ := s_name_loop_terminates message allow_empty (w.stdin.length + 1) name
    provided w (Nat.lt_succ_self _)
  obtain ⟨r', hr'⟩ := s_name_loop_terminates message allow_empty (v.stdin.length + 1) name
    provided v (Nat.lt_succ_self _)
  have := s_name_loop_stdin message allow_empty (w.stdin.length + 1) name provided w v h
  rw [h] at this hr
  rw [hr, hr'] at this
  simp only [Option.map_some', Option.some.injEq, Prod.mk.injEq] at this
  simp [s_name, h, hr, hr', this]

theorem s_age_loop_stdin (message : String) (allow_empty : Bool) (turns : Nat) :
    ∀ (age age' : Nat) (w v : World), w.stdin = v.stdin →
      (s_age_loop message allow_empty turns age false w).map age_answer =
        (s_age_loop message allow_empty turns age' false v).map age_answer := by
  induction turns with
  | zero => intro _ _ _ _ _; simp [s_age_loop]
  | succ turns ih =>
    intro age age' w v h
    simp only [s_age_loop, emit, h]
    cases read_line 32 v.stdin with
    | none => simp [age_answer]
    | some p =>
      obtain ⟨buffer, rest⟩ := p
      simp only
      split
      · split
        · simp [age_answer]
        · exact ih _ _ _ _ rfl
      · split
        · exact ih _ _ _ _ rfl
        · simp [age_answer]

theorem s_age_stdin (age age' : Nat) (message : String) (allow_empty : Bool)
    (w v : World) (h : w.stdin = v.stdin) :
    age_answer (s_age age message allow_empty false w) =
      age_answer (s_age age' message allow_empty false v) := by
  obtain ⟨r, hr⟩ := s_age_loop_terminates message allow_empty (w.stdin.length + 1) age
    false w (Nat.lt_succ_self _)
  obtain ⟨r', hr'⟩ := s_age_loop_terminates message allow_empty (v.stdin.length + 1) age'
    false v (Nat.lt_succ_self _)
  have := s_age_loop_stdin message allow_empty (w.stdin.length + 1) age age' w v h
  rw [h] at this hr
  rw [hr, hr'] at this
  simp only [Option.map_some', Option.some.injEq] at this
  simp [s_age, h, hr, hr', this]

/-! ## Idempotence of an edit -/

theorem strncpy_set (d n : List Nat) :
    (strncpy d n NAME_LEN).set NAME_LEN 0 =
      (n.take NAME_LEN ++ List.replicate (NAME_LEN - n.length) 0) ++
        (d.drop NAME_LEN).set 0 0 := by
  unfold strncpy
  have hlen : (n.take NAME_LEN ++ List.replicate (NAME_LEN - n.length) 0).length = NAME_LEN := by
    simp only [List.length_append, List.length_take, List.length_replicate]
    omega
  rw [List.set_append_right _ _ (by omega), hlen]
  simp

theorem strncpy_twice (d n : List Nat) :
    (strncpy ((strncpy d n NAME_LEN).set NAME_LEN 0) n NAME_LEN).set NAME_LEN 0 =
      (strncpy d n NAME_LEN).set NAME_LEN 0 := by
  have hlen : (n.take NAME_LEN ++ List.replicate (NAME_LEN - n.length) 0).length = NAME_LEN := by
    simp only [List.length_append, List.length_take, List.length_replicate]
    omega
  rw [strncpy_set (_ : List Nat) n, strncpy_set d n, List.drop_left' hlen, List.set_set]

/-- Entering the values a record already holds leaves the file as it is. -/
theorem edit_student_same_values (F : Faults) (w : World)
    (hwf : ∀ s ∈ records_of w.file, name_padded s)
    (hage : (edit_age F w).1.provided = true →
      (edit_age F w).1.value = (edit_scan F w).student.age)
    (hname : (edit_name F w).1.provided = true →
      (edit_name F w).1.value = cstr (edit_scan F w).student.name) :
    (edit_student F w).file = w.file := by
  rw [edit_student_file]
  split
  · rename_i hw
    have hscan := edit_scan_found F w hw.2.2.2.1
    have hmem : (edit_scan F w).student ∈ records_of w.file :=
      List.getElem?_mem hscan.1
    have hpad := hwf _ hmem
    have hsame : edited_student F w = (edit_scan F w).student := by
      unfold edited_student
      simp only
      have h1 : (if (edit_age F w).1.provided = true then
            { (edit_scan F w).student with age := (edit_age F w).1.value }
          else (edit_scan F w).student) = (edit_scan F w).student := by
        split
        · rename_i hp; rw [hage hp]
        · rfl
      rw [h1]
      split
      · rename_i hp
        have hacc : (edit_name F w).1.value ≠ [] ∧ (edit_name F w).1.value.length ≤ NAME_LEN ∧
            ∀ c ∈ (edit_name F w).1.value, c ≠ 0 :=
          (s_name_post_holds []
            "Enter new name (max 32 chars) or press ENTER to keep current: " true false
            (edit_age F w).2).accepted hw.2.2.2.2.2.1 hp
        have hlen : (edit_scan F w).student.name.length = NAME_LEN + 1 := by
          have hl : (cstr (edit_scan F w).student.name).length ≤ NAME_LEN := by
            rw [← hname hp]; exact hacc.2.1
          unfold name_padded at hpad
          rw [hpad]
          unfold name_field
          simp only [List.length_append, List.length_replicate]
          omega
        have := strncpy_name_field _ _ hlen hacc.2.1
        rw [this, hname hp]
        unfold name_padded at hpad
        rw [← hpad]
      · rfl
    rw [hsame, set_of_getElem? _ _ _ hscan.1]
    cases hf : w.file with
    | none => exact absurd hf hw.2.2.1
    | some r => rfl
  · rfl

/-- Typing the same lines at a second `edit_student` gives the file the first one left. -/
theorem edit_student_twice (F : Faults) (w : World) :
    (edit_student F { edit_student F w with stdin := w.stdin }).file =
      (edit_student F w).file := by
  generalize hv : ({ edit_student F w with stdin := w.stdin } : World) = v
  have hvs : v.stdin = w.stdin := by rw [← hv]
  have hvf : v.file = (edit_student F w).file := by rw [← hv]
  have hids : (records_of v.file).map student_t.id = (records_of w.file).map student_t.id := by
    rw [hvf]; exact edit_student_ids F w
  have hid := s_id_stdin 0 v w hvs
  have hidv : (edit_id v).1 = (edit_id w).1 := hid.1
  have hscan := find_loop_ids (edit_id w).1.value (records_of v.file) (records_of w.file)
    F.read_error 0 { id := 0, age := 0, name := List.replicate (NAME_LEN + 1) 0 }
    { id := 0, age := 0, name := List.replicate (NAME_LEN + 1) 0 } hids
  have hfound : (edit_scan F v).found = (edit_scan F w).found := by
    unfold edit_scan find_student; rw [hidv]; exact hscan.1
  have hpos : (edit_scan F v).pos = (edit_scan F w).pos := by
    unfold edit_scan find_student; rw [hidv]; exact hscan.2.1
  have hage : age_answer (edit_age F v) = age_answer (edit_age F w) :=
    s_age_stdin _ _ _ _ _ _ hid.2
  simp only [age_answer, Prod.mk.injEq] at hage
  obtain ⟨hage_ok, hage_p, hage_v, hage_s⟩ := hage
  have hname := s_name_stdin [] "Enter new name (max 32 chars) or press ENTER to keep current: "
    true false (edit_age F v).2 (edit_age F w).2 hage_s
  have hname1 : (edit_name F v).1 = (edit_name F w).1 := hname.1
  have hwr : edit_writes F v → w.file ≠ none → edit_writes F w := by
    intro h hne
    exact ⟨by rw [← hidv]; exact h.1, h.2.1, hne, by rw [← hfound]; exact h.2.2.2.1,
      by rw [← hage_ok]; exact h.2.2.2.2.1, by rw [← hname1]; exact h.2.2.2.2.2.1,
      by rw [← hage_p, ← hname1]; exact h.2.2.2.2.2.2.1, h.2.2.2.2.2.2.2⟩
  have hfile1 := edit_student_file F w
  by_cases hw : edit_writes F w
  · rw [if_pos hw] at hfile1
    have hscanw := edit_scan_found F w hw.2.2.2.1
    have hvw : edit_writes F v :=
      ⟨by rw [hidv]; exact hw.1, hw.2.1, by rw [hvf, hfile1]; simp,
        by rw [hfound]; exact hw.2.2.2.1, by rw [hage_ok]; exact hw.2.2.2.2.1,
        by rw [hname1]; exact hw.2.2.2.2.2.1,
        by rw [hage_p, hname1]; exact hw.2.2.2.2.2.2.1, hw.2.2.2.2.2.2.2⟩
    have hrec : records_of v.file =
        (records_of w.file).set ((edit_scan F w).pos - 1) (edited_student F w) := by
      rw [hvf, hfile1]; rfl
    have hscanv := edit_scan_found F v hvw.2.2.2.1
    have hk : (edit_scan F w).pos - 1 < (records_of w.file).length := by
      have := hscanw.1
      by_contra hcon
      rw [List.getElem?_eq_none (by omega)] at this
      exact absurd this (by simp)
    have hstudent : (edit_scan F v).student = edited_student F w := by
      have := hscanv.1
      rw [hpos, hrec, List.getElem?_set_self hk] at this
      exact (Option.some.inj this).symm
    have hedited : edited_student F v = edited_student F w := by
      have hv' : (edit_age F v).1.provided = true → (edit_age F v).1.value = (edit_age F w).1.value := by
        intro hp
        have hp' : (edit_age F w).1.provided = true := by rw [← hage_p]; exact hp
        simpa [hp, hp'] using hage_v
      rw [show edited_student F v =
        (let student :=
          if (edit_age F v).1.provided then
            { (edit_scan F v).student with age := (edit_age F v).1.value }
          else (edit_scan F v).student
        if (edit_name F v).1.provided then
          { student with
            name := (strncpy student.name (edit_name F v).1.value NAME_LEN).set NAME_LEN 0 }
        else student) from rfl]
      rw [hstudent, hname1]
      simp only
      by_cases hp : (edit_age F v).1.provided = true
      · have hp' : (edit_age F w).1.provided = true := by rw [← hage_p]; exact hp
        rw [if_pos hp, hv' hp]
        unfold edited_student
        simp only [hp', ↓reduceIte]
        split
        · simp [strncpy_twice]
        · rfl
      · have hp' : ¬ (edit_age F w).1.provided = true := by rw [← hage_p]; exact hp
        rw [if_neg hp]
        unfold edited_student
        simp only [hp', ↓reduceIte]
        split
        · simp [strncpy_twice]
        · rfl
    rw [edit_student_file F v, if_pos hvw, hfile1, hrec, hpos, hedited, List.set_set]
  · rw [if_neg hw] at hfile1
    have hnot : ¬ edit_writes F v := by
      intro h
      apply hw
      apply hwr h
      intro hnone
      exact h.2.2.1 (by rw [hvf, hfile1, hnone])
    rw [edit_student_file F v, if_neg hnot, hvf]

theorem map_set_of_eq {β : Type} (f : student_t → β) (records : List student_t) (k : Nat)
    (s t : student_t) (h : records[k]? = some s) (hf : f t = f s) :
    (records.set k t).map f = records.map f := by
  rw [List.map_set]
  apply set_of_getElem?
  simp [h, hf]

/-- Entering the values a record already holds leaves every record with its
id, its age and the string of its name. -/
theorem edit_student_same_view (F : Faults) (w : World)
    (hage : (edit_age F w).1.provided = true →
      (edit_age F w).1.value = (edit_scan F w).student.age)
    (hname : (edit_name F w).1.provided = true →
      (edit_name F w).1.value = cstr (edit_scan F w).student.name) :
    (records_of (edit_student F w).file).map record_view =
      (records_of w.file).map record_view := by
  rw [edit_student_file]
  split
  · rename_i hw
    have hscan := edit_scan_found F w hw.2.2.2.1
    have hview : record_view (edited_student F w) = record_view (edit_scan F w).student := by
      unfold edited_student record_view
      simp only
      have h1 : (if (edit_age F w).1.provided = true then
            { (edit_scan F w).student with age := (edit_age F w).1.value }
          else (edit_scan F w).student) = (edit_scan F w).student := by
        split
        · rename_i hp; rw [hage hp]
        · rfl
      rw [h1]
      split
      · rename_i hp
        have hacc : (edit_name F w).1.value ≠ [] ∧ (edit_name F w).1.value.length ≤ NAME_LEN ∧
            ∀ c ∈ (edit_name F w).1.value, c ≠ 0 :=
          (s_name_post_holds []
            "Enter new name (max 32 chars) or press ENTER to keep current: " true false
            (edit_age F w).2).accepted hw.2.2.2.2.2.1 hp
        simp only
        rw [cstr_strncpy _ _ hacc.2.1 hacc.2.2, hname hp]
      · rfl
    simp only [records_of, Option.getD_some]
    exact map_set_of_eq record_view _ _ _ _ hscan.1 hview
  · rfl

/-- C10: an edit that enters the current age of the record, its current name,
or both, leaves every record of the file with its id, its age and the string
of its name; when every name field is a string followed by NUL bytes up to the
end of the array (the form in which records are written), it leaves the file
as it was, byte for byte of every field. And for every file, entering the same
lines at a second edit gives the file the first edit left. -/
theorem edit_student_idempotent (F : Faults) (w : World) :
    (((edit_age F w).1.provided = true →
        (edit_age F w).1.value = (edit_scan F w).student.age) →
      ((edit_name F w).1.provided = true →
        (edit_name F w).1.value = cstr (edit_scan F w).student.name) →
      (records_of (edit_student F w).file).map record_view =
        (records_of w.file).map record_view ∧
      ((edit_student F w).file = none ↔ w.file = none) ∧
      ((∀ s ∈ records_of w.file, name_padded s) → (edit_student F w).file = w.file)) ∧
    (edit_student F { edit_student F w with stdin := w.stdin }).file =
      (edit_student F w).file := by
  refine ⟨fun hage hname => ⟨edit_student_same_view F w hage hname, ?_,
    fun hwf => edit_student_same_values F w hwf hage hname⟩, edit_student_twice F w⟩
  rw [edit_student_file]
  split
  · rename_i hw
    simp [hw.2.2.1]
  · rfl

theorem edit_student_idempotent_witness :
    (edit_student no_faults
      { stdin := ascii "2\n30\nBob\n", out := [],
        file := some [{ id := 1, age := 20, name := name_field (ascii "Ada") },
                      { id := 2, age := 30, name := name_field (ascii "Bob") }] }).file =
      some [{ id := 1, age := 20, name := name_field (ascii "Ada") },
            { id := 2, age := 30, name := name_field (ascii "Bob") }] :=
  ((edit_student_idempotent no_faults
      { stdin := ascii "2\n30\nBob\n", out := [],
        file := some [{ id := 1, age := 20, name := name_field (ascii "Ada") },
                      { id := 2, age := 30, name := name_field (ascii "Bob") }] }).1
    (by decide) (by decide)).2.2 (by decide)

/-! ## A sequence of creations -/

theorem decimal_age (a : Nat) (h : valid_age a) :
    decimal a ≠ [] ∧ (decimal a).length ≤ 2 ∧ (∀ c ∈ decimal a, c ≠ 0 ∧ c ≠ 10) ∧
    parse_uint32 (decimal a) AGE_MIN AGE_MAX = some a := by
  obtain ⟨h1, h2⟩ := h
  simp only [AGE_MIN, AGE_MAX] at h1 h2
  interval_cases a <;> decide

/-- The age prompt of `create_student` on a line that holds a valid age in decimal. -/
theorem s_age_valid_line (age : Nat) (message : String) (allow_empty provided : Bool)
    (w : World) (a : Nat) (rest : List Nat) (ha : valid_age a)
    (h : w.stdin = decimal a ++ 10 :: rest) :
    s_age age message allow_empty provided w =
      ({ ok := true, value := a, provided := true },
       { stdin := rest, file := w.file, out := w.out ++ [Event.prompt message] }) := by
  obtain ⟨hne, hlen, hmem, hparse⟩ := decimal_age a ha
  have hr : read_line 32 (decimal a ++ 10 :: rest) = some (decimal a, rest) := by
    rw [read_line_line 32 _ rest hmem, List.take_of_length_le (by omega)]
  have hmod : a % 256 = a := Nat.mod_eq_of_lt (by have := ha.2; simp only [AGE_MAX] at this; omega)
  unfold s_age
  rw [h]
  simp only [List.length_append, List.length_cons, s_age_loop, emit, h, hr, hne, ↓reduceIte,
    hparse, hmod]
  simp

/-- The name prompt of `create_student` on a line that holds a valid name. -/
theorem s_name_valid_line (name : List Nat) (message : String) (allow_empty provided : Bool)
    (w : World) (n rest : List Nat) (hn : valid_name n)
    (h : w.stdin = n ++ 10 :: rest) :
    s_name name message allow_empty provided w =
      ({ ok := true, value := n, provided := true },
       { stdin := rest, file := w.file, out := w.out ++ [Event.prompt message] }) := by
  obtain ⟨hne, hlen, hmem, htrim⟩ := hn
  have hr : read_line 128 (n ++ 10 :: rest) = some (n, rest) := by
    rw [read_line_line 128 _ rest hmem, List.take_of_length_le (by simp only [NAME_LEN] at hlen; omega)]
  have hnot : ¬ (n.length > NAME_LEN) := by omega
  unfold s_name
  rw [h]
  simp only [List.length_append, List.length_cons, s_name_loop, emit, h, hr, htrim, hne,
    ↓reduceIte, hnot, List.take_of_length_le hlen]
  simp

theorem next_student_id_no_faults (w : World) :
    next_student_id no_faults w =
      if max_id (records_of w.file) = UINT32_MAX then (0, emit w Event.id_limit)
      else ((max_id (records_of w.file) + 1) % 2 ^ 32, w) := by
  unfold next_student_id
  simp only [no_faults, Bool.false_eq_true, ↓reduceIte]
  cases hf : w.file with
  | none => simp [records_of, max_id, UINT32_MAX]
  | some records =>
    simp only [max_id_loop_no_error, Bool.false_eq_true, ↓reduceIte, records_of,
      Option.getD_some, Nat.zero_le, max_eq_right]

/-- One `create_student` without library failure, on input that starts with a valid
age line and a valid name line, when the ids in the file fit `uint32_t`. -/
theorem create_student_valid_lines (w : World) (a : Nat) (n rest : List Nat)
    (ha : valid_age a) (hn : valid_name n)
    (h : w.stdin = decimal a ++ 10 :: (n ++ 10 :: rest))
    (hty : max_id (records_of w.file) ≤ UINT32_MAX) :
    create_student no_faults w =
      if max_id (records_of w.file) = UINT32_MAX then
        { stdin := rest, file := w.file,
          out := w.out ++ [Event.prompt "Enter age (5-75): ",
            Event.prompt "Enter name (max 32 chars): ", Event.id_limit] }
      else
        { stdin := rest,
          file := some (records_of w.file ++
            [{ id := max_id (records_of w.file) + 1, age := a, name := name_field n }]),
          out := w.out ++ [Event.prompt "Enter age (5-75): ",
            Event.prompt "Enter name (max 32 chars): ",
            Event.created (max_id (records_of w.file) + 1)] } := by
  have hage := s_age_valid_line 0 "Enter age (5-75): " false false w a _ ha h
  have hname := s_name_valid_line [] "Enter name (max 32 chars): " false false
    { stdin := n ++ 10 :: rest, file := w.file,
      out := w.out ++ [Event.prompt "Enter age (5-75): "] } n rest hn rfl
  have hnext := next_student_id_no_faults
    { stdin := rest, file := w.file,
      out := w.out ++ [Event.prompt "Enter age (5-75): "] ++
        [Event.prompt "Enter name (max 32 chars): "] }
  unfold create_student
  simp only [hage, hname, hnext, Bool.not_true, Bool.false_eq_true, ↓reduceIte,
    name_field_eq n hn.2.1]
  by_cases hm : max_id (records_of w.file) = UINT32_MAX
  · simp only [hm, ↓reduceIte]
    simp [emit]
  · have hmod : (max_id (records_of w.file) + 1) % 2 ^ 32 = max_id (records_of w.file) + 1 := by
      apply Nat.mod_eq_of_lt
      simp only [UINT32_MAX] at hm hty
      omega
    simp only [hm, ↓reduceIte, hmod]
    simp [emit, no_faults]

theorem foldr_max_init (l : List Nat) (b : Nat) : l.foldr max b = max (l.foldr max 0) b := by
  induction l with
  | nil => simp
  | cons a l ih =>
    simp only [List.foldr_cons, ih]
    omega

theorem max_id_append (records : List student_t) (s : student_t) :
    max_id (records ++ [s]) = max (max_id records) s.id := by
  unfold max_id
  simp only [List.map_append, List.map_cons, List.map_nil, List.foldr_append, List.foldr_cons,
    List.foldr_nil]
  rw [foldr_max_init]
  omega

theorem created_ids_append (out out' : List Event) :
    created_ids (out ++ out') = created_ids out ++ created_ids out' := by
  unfold created_ids
  rw [List.filterMap_append]

theorem input_lines_append (l l' : List (Nat × List Nat)) :
    input_lines (l ++ l') = input_lines l ++ input_lines l' := by
  induction l with
  | nil => rfl
  | cons p l ih => simp [input_lines, ih]

/-- Successive creations without library failure on valid input lines, from a
file whose largest id is `k` with room for all the new ids: each creation
appends its record with the next id. -/
theorem create_run (rest : List Nat) (inputs : List (Nat × List Nat)) :
    ∀ (w : World) (k : Nat), w.stdin = input_lines inputs ++ rest →
      max_id (records_of w.file) = k → k + inputs.length ≤ UINT32_MAX →
      (∀ p ∈ inputs, valid_age p.1 ∧ valid_name p.2) →
      ((create_student no_faults)^[inputs.length] w).stdin = rest ∧
      records_of ((create_student no_faults)^[inputs.length] w).file =
        records_of w.file ++
          List.zipWith (fun i p => ({ id := i, age := p.1, name := name_field p.2 } : student_t))
            (List.range' (k + 1) inputs.length) inputs ∧
      (inputs ≠ [] → ((create_student no_faults)^[inputs.length] w).file ≠ none) ∧
      max_id (records_of ((create_student no_faults)^[inputs.length] w).file) =
        k + inputs.length ∧
      created_ids ((create_student no_faults)^[inputs.length] w).out =
        created_ids w.out ++ List.range' (k + 1) inputs.length := by
  induction inputs with
  | nil =>
    intro w k hs hk _ _
    simp [input_lines] at hs
    simp [hs, hk]
  | cons p ps ih =>
    intro w k hs hk hroom hvalid
    have hp := hvalid p (by simp)
    simp only [List.length_cons] at hroom
    have hty : max_id (records_of w.file) ≤ UINT32_MAX := by omega
    have hne : max_id (records_of w.file) ≠ UINT32_MAX := by omega
    have hstep := create_student_valid_lines w p.1 p.2 (input_lines ps ++ rest) hp.1 hp.2
      (by rw [hs]; simp [input_lines]) hty
    rw [if_neg hne, hk] at hstep
    have hih := ih (create_student no_faults w) (k + 1)
      (by rw [hstep])
      (by
        rw [hstep]
        simp only [records_of, Option.getD_some]
        rw [max_id_append]
        have : max_id (w.file.getD []) = k := hk
        simp only [this]
        omega)
      (by omega)
      (fun q hq => hvalid q (by simp [hq]))
    simp only [List.length_cons, Function.iterate_succ_apply]
    obtain ⟨h1, h2, _, h4, h5⟩ := hih
    refine ⟨h1, ?_, ?_, ?_, ?_⟩
    · rw [h2, hstep]
      simp only [records_of, Option.getD_some, List.append_assoc, List.singleton_append]
      rw [List.range'_succ, List.zipWith_cons_cons]
    · intro _
      cases hps : ps with
      | nil =>
        simp only [List.length_nil, Function.iterate_zero, id_eq]
        rw [hstep]
        simp
      | cons q qs =>
        have := (ih (create_student no_faults w) (k + 1)
          (by rw [hstep])
          (by
            rw [hstep]
            simp only [records_of, Option.getD_some]
            rw [max_id_append]
            have : max_id (w.file.getD []) = k := hk
            simp only [this]
            omega)
          (by omega)
          (fun q hq => hvalid q (by simp [hq]))).2.2.1
        rw [hps] at this
        exact this (by simp)
    · rw [h4]; omega
    · rw [h5, hstep]
      simp only [created_ids_append]
      rw [List.range'_succ]
      simp [created_ids]

theorem map_id_zipWith (inputs : List (Nat × List Nat)) :
    ∀ k : Nat,
      (List.zipWith (fun i p => ({ id := i, age := p.1, name := name_field p.2 } : student_t))
        (List.range' k inputs.length) inputs).map student_t.id =
      List.range' k inputs.length := by
  induction inputs with
  | nil => intro k; simp
  | cons p ps ih =>
    intro k
    simp only [List.length_cons, List.range'_succ, List.zipWith_cons_cons, List.map_cons]
    rw [ih (k + 1)]

/-- C1 (as amended): for 1 ≤ N ≤ 2^32 - 1 and N valid (age, name) inputs typed
one per line, N runs of `create_student` without library failure, from a file
that does not exist or holds no record, leave a file of N records whose ids
are 1, 2, ..., N in file order, with the ages and names in the order typed;
the ids reported are 1, 2, ..., N in that order. -/
theorem create_sequence_ids (inputs : List (Nat × List Nat)) (rest : List Nat)
    (file : Option (List student_t)) (out : List Event)
    (hfile : file = none ∨ file = some [])
    (hN : 1 ≤ inputs.length) (hroom : inputs.length ≤ UINT32_MAX)
    (hvalid : ∀ p ∈ inputs, valid_age p.1 ∧ valid_name p.2) :
    ((create_student no_faults)^[inputs.length]
        { stdin := input_lines inputs ++ rest, file := file, out := out }).file =
      some (List.zipWith
        (fun i p => ({ id := i, age := p.1, name := name_field p.2 } : student_t))
        (List.range' 1 inputs.length) inputs) ∧
    (records_of ((create_student no_faults)^[inputs.length]
        { stdin := input_lines inputs ++ rest, file := file, out := out }).file).map
      student_t.id = List.range' 1 inputs.length ∧
    (records_of ((create_student no_faults)^[inputs.length]
        { stdin := input_lines inputs ++ rest, file := file, out := out }).file).length =
      inputs.length ∧
    created_ids ((create_student no_faults)^[inputs.length]
        { stdin := input_lines inputs ++ rest, file := file, out := out }).out =
      created_ids out ++ List.range' 1 inputs.length ∧
    ((create_student no_faults)^[inputs.length]
        { stdin := input_lines inputs ++ rest, file := file, out := out }).stdin = rest := by
  have hrec : records_of file = [] := by
    rcases hfile with h | h <;> simp [h, records_of]
  have hne : inputs ≠ [] := by
    intro h; simp [h] at hN
  obtain ⟨h1, h2, h3, _, h5⟩ := create_run rest inputs
    { stdin := input_lines inputs ++ rest, file := file, out := out } 0 rfl
    (by simp [hrec, max_id]) (by omega) hvalid
  have h2' : records_of ((create_student no_faults)^[inputs.length]
      { stdin := input_lines inputs ++ rest, file := file, out := out }).file =
      List.zipWith (fun i p => ({ id := i, age := p.1, name := name_field p.2 } : student_t))
        (List.range' 1 inputs.length) inputs := by
    rw [h2]; simp [hrec]
  refine ⟨?_, ?_, ?_, h5, h1⟩
  · cases hf : ((create_student no_faults)^[inputs.length]
        { stdin := input_lines inputs ++ rest, file := file, out := out }).file with
    | none => exact absurd hf (h3 hne)
    | some records =>
      rw [hf] at h2'
      simp only [records_of, Option.getD_some] at h2'
      rw [h2']
  · rw [h2', map_id_zipWith]
  · rw [h2']
    simp

theorem create_sequence_ids_witness :
    ((create_student no_faults)^[2]
        { stdin := input_lines [(20, ascii "Ada"), (30, ascii "Bob")] ++ ascii "A\n",
          file := none, out := [] }).file =
      some [{ id := 1, age := 20, name := name_field (ascii "Ada") },
            { id := 2, age := 30, name := name_field (ascii "Bob") }] :=
  (create_sequence_ids [(20, ascii "Ada"), (30, ascii "Bob")] (ascii "A\n") none []
    (Or.inl rfl) (by decide) (by decide) (by decide)).1

/-- When the ids 1 to 2^32 - 1 are used up, one more `create_student` is refused. -/
theorem create_run_refused (M : Nat) (hM : M = UINT32_MAX) (p : Nat × List Nat)
    (hp : valid_age p.1 ∧ valid_name p.2) (w : World)
    (hstdin : w.stdin = input_lines (List.replicate (M + 1) p))
    (hfile : w.file = none) :
    (records_of ((create_student no_faults)^[M + 1] w).file).map student_t.id =
      List.range' 1 M := by
  have hvalid : ∀ q ∈ List.replicate M p, valid_age q.1 ∧ valid_name q.2 := by
    intro q hq
    rw [List.eq_of_mem_replicate hq]
    exact hp
  have hlines : w.stdin = input_lines (List.replicate M p) ++ input_lines [p] := by
    rw [hstdin, List.replicate_succ', input_lines_append]
  have hmax0 : max_id (records_of w.file) = 0 := by
    rw [hfile]; rfl
  have hrun := create_run (input_lines [p]) (List.replicate M p) w 0 hlines hmax0
    (by rw [List.length_replicate]; omega) hvalid
  rw [List.length_replicate] at hrun
  obtain ⟨h1, h2, _, h4, _⟩ := hrun
  have hlast := create_student_valid_lines ((create_student no_faults)^[M] w)
    p.1 p.2 [] hp.1 hp.2 (by rw [h1]; rfl) (by rw [h4]; omega)
  rw [if_pos (by rw [h4]; omega)] at hlast
  have hfile' : ((create_student no_faults)^[M + 1] w).file =
      ((create_student no_faults)^[M] w).file := by
    rw [Function.iterate_succ_apply', hlast]
  rw [hfile', h2, hfile]
  have := map_id_zipWith (List.replicate M p) 1
  rw [List.length_replicate] at this
  have hnil : records_of (none : Option (List student_t)) = [] := rfl
  rw [hnil, List.nil_append]
  exact this

/-- C1 (counterexample): N = 2^32 inputs, all of age 5 and name "a". The first
2^32 - 1 runs of `create_student` use the ids 1 to 2^32 - 1; the last run is
refused, and the file holds the ids 1 to 2^32 - 1, not 1 to 2^32. -/
theorem create_sequence_id_limit :
    (records_of ((create_student no_faults)^[UINT32_MAX + 1]
        { stdin := input_lines (List.replicate (UINT32_MAX + 1) (5, ascii "a")),
          file := none, out := [] }).file).map student_t.id = List.range' 1 UINT32_MAX ∧
    (records_of ((create_student no_faults)^[UINT32_MAX + 1]
        { stdin := input_lines (List.replicate (UINT32_MAX + 1) (5, ascii "a")),
          file := none, out := [] }).file).map student_t.id ≠
      List.range' 1 (UINT32_MAX + 1) := by
  have hids := create_run_refused UINT32_MAX rfl (5, ascii "a") (by decide)
    { stdin := input_lines (List.replicate (UINT32_MAX + 1) (5, ascii "a")),
      file := none, out := [] } rfl rfl
  refine ⟨hids, ?_⟩
  rw [hids]
  intro h
  have := congrArg List.length h
  rw [List.length_range', List.length_range'] at this
  omega

/-! ## One turn of a prompt -/

/-- One turn of `s_age`: the line read is answered, or the prompt goes round
again on the input that is left. -/
theorem s_age_step (age : Nat) (message : String) (allow_empty provided : Bool) (w : World) :
    s_age age message allow_empty provided w =
      match read_line 32 w.stdin with
      | none =>
        ({ ok := false, value := age, provided := provided },
         { stdin := w.stdin, file := w.file,
           out := w.out ++ [Event.prompt message, Event.input_aborted] })
      | some (buffer, rest) =>
        if buffer = [] then
          if allow_empty then
            ({ ok := true, value := age, provided := false },
             { stdin := rest, file := w.file, out := w.out ++ [Event.prompt message] })
          else
            s_age age message allow_empty provided
              { stdin := rest, file := w.file,
                out := w.out ++ [Event.prompt message, Event.age_empty] }
        else
          match parse_uint32 buffer AGE_MIN AGE_MAX with
          | none =>
            s_age age message allow_empty provided
              { stdin := rest, file := w.file,
                out := w.out ++ [Event.prompt message, Event.age_range] }
          | some value =>
            ({ ok := true, value := value % 256, provided := true },
             { stdin := rest, file := w.file, out := w.out ++ [Event.prompt message] }) := by
  have h := s_age_returns age message allow_empty provided w (w.stdin.length + 1)
    (Nat.lt_succ_self _)
  simp only [s_age_loop] at h
  have hs : (emit w (Event.prompt message)).stdin = w.stdin := rfl
  rw [hs] at h
  cases hr : read_line 32 w.stdin with
  | none =>
    rw [hr] at h
    simp only [Option.some.injEq] at h
    rw [← h]
    simp [emit]
  | some p =>
    obtain ⟨buffer, rest⟩ := p
    have hlen : rest.length < w.stdin.length := read_line_length 30 _ _ _ hr
    rw [hr] at h
    simp only at h ⊢
    by_cases hb : buffer = []
    · simp only [hb, ↓reduceIte] at h ⊢
      cases allow_empty with
      | true =>
        simp only [↓reduceIte, Option.some.injEq] at h ⊢
        rw [← h]
        simp [emit]
      | false =>
        simp only [Bool.false_eq_true, ↓reduceIte] at h ⊢
        rw [s_age_returns _ _ _ _ _ _ (by simpa [emit] using hlen)] at h
        simp only [Option.some.injEq] at h
        rw [← h]
        simp [emit]
    · simp only [hb, ↓reduceIte] at h ⊢
      cases hp : parse_uint32 buffer AGE_MIN AGE_MAX with
      | none =>
        rw [hp] at h
        simp only at h ⊢
        rw [s_age_returns _ _ _ _ _ _ (by simpa [emit] using hlen)] at h
        simp only [Option.some.injEq] at h
        rw [← h]
        simp [emit]
      | some v =>
        rw [hp] at h
        simp only [Option.some.injEq] at h ⊢
        rw [← h]
        simp [emit]

/-- One turn of `s_name`. -/
theorem s_name_step (name : List Nat) (message : String) (allow_empty provided : Bool)
    (w : World) :
    s_name name message allow_empty provided w =
      match read_line 128 w.stdin with
      | none =>
        ({ ok := false, value := name, provided := provided },
         { stdin := w.stdin, file := w.file,
           out := w.out ++ [Event.prompt message, Event.input_aborted] })
      | some (line, rest) =>
        if trim line = [] then
          if allow_empty then
            ({ ok := true, value := name, provided := false },
             { stdin := rest, file := w.file, out := w.out ++ [Event.prompt message] })
          else
            s_name name message allow_empty provided
              { stdin := rest, file := w.file,
                out := w.out ++ [Event.prompt message, Event.name_empty] }
        else if (trim line).length > NAME_LEN then
          s_name name message allow_empty provided
            { stdin := rest, file := w.file,
              out := w.out ++ [Event.prompt message, Event.name_too_long] }
        else
          ({ ok := true, value := (trim line).take NAME_LEN, provided := true },
           { stdin := rest, file := w.file, out := w.out ++ [Event.prompt message] }) := by
  have h := s_name_returns name message allow_empty provided w (w.stdin.length + 1)
    (Nat.lt_succ_self _)
  simp only [s_name_loop] at h
  have hs : (emit w (Event.prompt message)).stdin = w.stdin := rfl
  rw [hs] at h
  cases hr : read_line 128 w.stdin with
  | none =>
    rw [hr] at h
    simp only [Option.some.injEq] at h
    rw [← h]
    simp [emit]
  | some p =>
    obtain ⟨line, rest⟩ := p
    have hlen : rest.length < w.stdin.length := read_line_length 126 _ _ _ hr
    rw [hr] at h
    simp only at h ⊢
    by_cases hb : trim line = []
    · simp only [hb, ↓reduceIte] at h ⊢
      cases allow_empty with
      | true =>
        simp only [↓reduceIte, Option.some.injEq] at h ⊢
        rw [← h]
        simp [emit]
      | false =>
        simp only [Bool.false_eq_true, ↓reduceIte] at h ⊢
        rw [s_name_returns _ _ _ _ _ _ (by simpa [emit] using hlen)] at h
        simp only [Option.some.injEq] at h
        rw [← h]
        simp [emit]
    · simp only [hb, ↓reduceIte] at h ⊢
      by_cases hl : (trim line).length > NAME_LEN
      · simp only [hl, ↓reduceIte] at h ⊢
        rw [s_name_returns _ _ _ _ _ _ (by simpa [emit] using hlen)] at h
        simp only [Option.some.injEq] at h
        rw [← h]
        simp [emit]
      · simp only [hl, ↓reduceIte, Option.some.injEq] at h ⊢
        rw [← h]
        simp [emit]

/-- One turn of `s_id`. -/
theorem s_id_step (id : Nat) (w : World) :
    s_id id w =
      match read_line 32 w.stdin with
      | none =>
        ({ ok := false, value := id, provided := false },
         { stdin := w.stdin, file := w.file,
           out := w.out ++ [Event.prompt "Enter ID: ", Event.input_aborted] })
      | some (buffer, rest) =>
        if buffer = [] then
          s_id id
            { stdin := rest, file := w.file,
              out := w.out ++ [Event.prompt "Enter ID: ", Event.id_empty] }
        else
          match parse_uint32 buffer 1 UINT32_MAX with
          | none =>
            s_id id
              { stdin := rest, file := w.file,
                out := w.out ++ [Event.prompt "Enter ID: ", Event.id_invalid] }
          | some value =>
            ({ ok := true, value := value, provided := false },
             { stdin := rest, file := w.file, out := w.out ++ [Event.prompt "Enter ID: "] }) := by
  have h := s_id_returns id w (w.stdin.length + 1) (Nat.lt_succ_self _)
  simp only [s_id_loop] at h
  have hs : (emit w (Event.prompt "Enter ID: ")).stdin = w.stdin := rfl
  rw [hs] at h
  cases hr : read_line 32 w.stdin with
  | none =>
    rw [hr] at h
    simp only [Option.some.injEq] at h
    rw [← h]
    simp [emit]
  | some p =>
    obtain ⟨buffer, rest⟩ := p
    have hlen : rest.length < w.stdin.length := read_line_length 30 _ _ _ hr
    rw [hr] at h
    simp only at h ⊢
    by_cases hb : buffer = []
    · simp only [hb, ↓reduceIte] at h ⊢
      rw [s_id_returns _ _ _ (by simpa [emit] using hlen)] at h
      simp only [Option.some.injEq] at h
      rw [← h]
      simp [emit]
    · simp only [hb, ↓reduceIte] at h ⊢
      cases hp : parse_uint32 buffer 1 UINT32_MAX with
      | none =>
        rw [hp] at h
        simp only at h ⊢
        rw [s_id_returns _ _ _ (by simpa [emit] using hlen)] at h
        simp only [Option.some.injEq] at h
        rw [← h]
        simp [emit]
      | some v =>
        rw [hp] at h
        simp only [Option.some.injEq] at h ⊢
        rw [← h]
        simp [emit]

/-! ## Claims on the age prompt -/

theorem fgets_loop_no_newline (line : List Nat) (h : ∀ c ∈ line, c ≠ 10) :
    ∀ n, fgets_loop n line = (line.take n, line.drop n) := by
  induction line with
  | nil => intro n; cases n <;> simp [fgets_loop]
  | cons c line ih =>
    intro n
    cases n with
    | zero => simp [fgets_loop]
    | succ m =>
      have hc : c ≠ 10 := h c (by simp)
      simp [fgets_loop, hc, ih (fun d hd => h d (by simp [hd])) m]

theorem drain_no_newline (l : List Nat) (h : ∀ c ∈ l, c ≠ 10) : drain l = [] := by
  induction l with
  | nil => rfl
  | cons c l ih =>
    have hc : c ≠ 10 := h c (by simp)
    simp [drain, hc, ih (fun d hd => h d (by simp [hd]))]

/-- A last line without NUL that the end of input cuts off before any newline:
`read_line` leaves the line, cut to the `size - 1` bytes the buffer holds. -/
theorem read_line_last (size : Nat) (line : List Nat) (hne : line ≠ [])
    (h : ∀ c ∈ line, c ≠ 0 ∧ c ≠ 10) :
    read_line size line = some (line.take (size - 1), []) := by
  have h10 : ∀ c ∈ line, c ≠ 10 := fun c hc => (h c hc).2
  have hfgets : fgets size line = some (fgets_loop (size - 1) line) := by
    cases line with
    | nil => exact absurd rfl hne
    | cons c l => rfl
  unfold read_line
  rw [hfgets, fgets_loop_no_newline line h10]
  simp only
  have hmem : ∀ c ∈ line.take (size - 1), c ≠ 0 ∧ c ≠ 10 :=
    fun c hc => h c (List.mem_of_mem_take hc)
  have hs : strcspn_newline (line.take (size - 1)) = (line.take (size - 1)).length := by
    have := strcspn_newline_all (line.take (size - 1)) [] hmem (Or.inl rfl)
    simpa using this
  rw [hs]
  have hget : ¬ ((line.take (size - 1)).get? (line.take (size - 1)).length = some 10) := by
    rw [List.get?_eq_none.mpr (le_refl _)]
    simp
  rw [if_neg hget, cstr_of_no_nul _ (fun c hc => (hmem c hc).1),
    drain_no_newline _ (fun c hc => h10 c (List.mem_of_mem_drop hc))]

/-- C11: for every n with 5 ≤ n ≤ 75, the age prompt given the line that holds
n in decimal (ended by a newline, or by the end of input) accepts it at once:
it returns true with `*age = n` and `*provided = true`, after the one prompt
and no complaint; `parse_uint32` gives n and the cast to `uint8_t` keeps it. -/
theorem s_age_accepts_valid (n : Nat) (hn : valid_age n) (age : Nat) (message : String)
    (allow_empty provided : Bool) (w : World) :
    (∀ rest, w.stdin = decimal n ++ 10 :: rest →
      s_age age message allow_empty provided w =
        ({ ok := true, value := n, provided := true },
         { stdin := rest, file := w.file, out := w.out ++ [Event.prompt message] })) ∧
    (w.stdin = decimal n →
      s_age age message allow_empty provided w =
        ({ ok := true, value := n, provided := true },
         { stdin := [], file := w.file, out := w.out ++ [Event.prompt message] })) ∧
    parse_uint32 (decimal n) AGE_MIN AGE_MAX = some n ∧ n % 256 = n := by
  obtain ⟨hne, hlen, hmem, hparse⟩ := decimal_age n hn
  have hmod : n % 256 = n :=
    Nat.mod_eq_of_lt (by have := hn.2; simp only [AGE_MAX] at this; omega)
  refine ⟨fun rest h => s_age_valid_line age message allow_empty provided w n rest hn h,
    ?_, hparse, hmod⟩
  intro h
  have hr : read_line 32 (decimal n) = some (decimal n, []) := by
    rw [read_line_last 32 _ hne hmem, List.take_of_length_le (by omega)]
  rw [s_age_step, h, hr]
  simp [hne, hparse, hmod]

theorem s_age_accepts_valid_witness :
    s_age 0 "Enter age (5-75): " false false
        { stdin := ascii "42\nAda\n", file := none, out := [] } =
      ({ ok := true, value := 42, provided := true },
       { stdin := ascii "Ada\n", file := none, out := [Event.prompt "Enter age (5-75): "] }) :=
  (s_age_accepts_valid 42 (by decide) 0 "Enter age (5-75): " false false
    { stdin := ascii "42\nAda\n", file := none, out := [] }).1 (ascii "Ada\n") (by decide)

/-- C12 (failing input): the line "-18446744073709551611" is a negative number,
not an integer in [5, 75]. `strtoul` takes the minus sign and negates in
`unsigned long`, which gives 5: the age prompt accepts the line as age 5 and
`create_student` stores that age. The same missing check lets " 42" and "+42"
through as 42. -/
theorem s_age_accepts_negative :
    s_age 0 "Enter age (5-75): " false false
        { stdin := ascii "-18446744073709551611\n", file := none, out := [] } =
      ({ ok := true, value := 5, provided := true },
       { stdin := [], file := none, out := [Event.prompt "Enter age (5-75): "] }) ∧
    (create_student no_faults
        { stdin := ascii "-18446744073709551611\nBob\n", file := none, out := [] }).file =
      some [{ id := 1, age := 5, name := name_field (ascii "Bob") }] ∧
    (s_age 0 "Enter age (5-75): " false false
        { stdin := ascii " 42\n", file := none, out := [] }).1 =
      { ok := true, value := 42, provided := true } ∧
    (s_age 0 "Enter age (5-75): " false false
        { stdin := ascii "+42\n", file := none, out := [] }).1 =
      { ok := true, value := 42, provided := true } := by
  decide

/-- The lines "4", "76", "-1" and "abc" are each rejected with "Please enter a
number between 5 and 75." and the prompt goes round again. -/
theorem s_age_rejects_examples :
    s_age 0 "Enter age (5-75): " false false
        { stdin := ascii "4\n76\n-1\nabc\n42\n", file := none, out := [] } =
      ({ ok := true, value := 42, provided := true },
       { stdin := [], file := none,
         out := [Event.prompt "Enter age (5-75): ", Event.age_range,
                 Event.prompt "Enter age (5-75): ", Event.age_range,
                 Event.prompt "Enter age (5-75): ", Event.age_range,
                 Event.prompt "Enter age (5-75): ", Event.age_range,
                 Event.prompt "Enter age (5-75): "] }) := by
  decide

/-- A line the age prompt does not take as a number in [5, 75] is rejected with
"Please enter a number between 5 and 75." and the prompt goes round again. -/
theorem s_age_rejects (age : Nat) (message : String) (allow_empty provided : Bool) (w : World)
    (buffer rest : List Nat) (hr : read_line 32 w.stdin = some (buffer, rest))
    (hne : buffer ≠ []) (hp : parse_uint32 buffer AGE_MIN AGE_MAX = none) :
    s_age age message allow_empty provided w =
      s_age age message allow_empty provided
        { stdin := rest, file := w.file,
          out := w.out ++ [Event.prompt message, Event.age_range] } := by
  rw [s_age_step, hr]
  simp [hne, hp]

/-! ## Claims on the name prompt -/

/-- The name prompt on a line without NUL that ends with a newline: what
counts is the part of the line the 128-byte buffer holds, trimmed. -/
theorem s_name_line (name : List Nat) (message : String) (allow_empty provided : Bool)
    (w : World) (line rest : List Nat) (h : w.stdin = line ++ 10 :: rest)
    (hmem : ∀ c ∈ line, c ≠ 0 ∧ c ≠ 10) :
    s_name name message allow_empty provided w =
      if trim (line.take 127) = [] then
        if allow_empty then
          ({ ok := true, value := name, provided := false },
           { stdin := rest, file := w.file, out := w.out ++ [Event.prompt message] })
        else
          s_name name message allow_empty provided
            { stdin := rest, file := w.file,
              out := w.out ++ [Event.prompt message, Event.name_empty] }
      else if (trim (line.take 127)).length > NAME_LEN then
        s_name name message allow_empty provided
          { stdin := rest, file := w.file,
            out := w.out ++ [Event.prompt message, Event.name_too_long] }
      else
        ({ ok := true, value := trim (line.take 127), provided := true },
         { stdin := rest, file := w.file, out := w.out ++ [Event.prompt message] }) := by
  rw [s_name_step, h, read_line_line 128 line rest hmem]
  simp only [Nat.add_one_sub_one]
  split
  · rfl
  · split
    · rfl
    · rename_i hl
      rw [List.take_of_length_le (by omega)]

/-- C13 (as amended): for every input line of at most 127 bytes, none of them
NUL, whose content after removing leading and trailing white space has length
between 1 and 32, the name prompt accepts the line at once and stores exactly
the trimmed text with `*provided = true`; written to a record, the text is
followed by NUL bytes within the 33-byte field. -/
theorem s_name_accepts_trimmed (name : List Nat) (message : String)
    (allow_empty provided : Bool) (w : World) (line rest : List Nat)
    (h : w.stdin = line ++ 10 :: rest)
    (hmem : ∀ c ∈ line, c ≠ 0 ∧ c ≠ 10) (hfit : line.length ≤ 127)
    (hlo : 1 ≤ (trim line).length) (hhi : (trim line).length ≤ NAME_LEN) :
    s_name name message allow_empty provided w =
      ({ ok := true, value := trim line, provided := true },
       { stdin := rest, file := w.file, out := w.out ++ [Event.prompt message] }) ∧
    (strncpy (List.replicate (NAME_LEN + 1) 0) (trim line) NAME_LEN).set NAME_LEN 0 =
      name_field (trim line) ∧
    (name_field (trim line)).length = NAME_LEN + 1 ∧
    cstr (name_field (trim line)) = trim line := by
  have htake : line.take 127 = line := List.take_of_length_le hfit
  have hne : trim line ≠ [] := by
    intro he; rw [he] at hlo; simp at hlo
  have hnul : ∀ c ∈ trim line, c ≠ 0 := fun c hc => (hmem c (mem_trim _ _ hc)).1
  refine ⟨?_, name_field_eq _ hhi, ?_, cstr_name_field _ hhi hnul⟩
  · rw [s_name_line name message allow_empty provided w line rest h hmem, htake]
    simp [hne, Nat.not_lt.mpr hhi]
  · unfold name_field
    simp only [List.length_append, List.length_replicate]
    omega

theorem s_name_accepts_trimmed_witness :
    s_name [] "Enter name (max 32 chars): " false false
        { stdin := ascii "  Ada Lovelace \t\n30\n", file := none, out := [] } =
      ({ ok := true, value := ascii "Ada Lovelace", provided := true },
       { stdin := ascii "30\n", file := none,
         out := [Event.prompt "Enter name (max 32 chars): "] }) :=
  (s_name_accepts_trimmed [] "Enter name (max 32 chars): " false false
    { stdin := ascii "  Ada Lovelace \t\n30\n", file := none, out := [] }
    (ascii "  Ada Lovelace \t") (ascii "30\n") (by decide) (by decide) (by decide)
    (by decide) (by decide)).1

set_option maxRecDepth 100000 in
/-- C13 (counterexample): the line of 130 spaces followed by "Ada" has the
trimmed content "Ada", of length 3. The buffer of the prompt holds the first
127 bytes only, all spaces: the line is rejected with "Name cannot be empty."
and no name is stored from it. -/
theorem s_name_rejects_padded_line :
    trim (List.replicate 130 32 ++ ascii "Ada") = ascii "Ada" ∧
    s_name [] "Enter name (max 32 chars): " false false
        { stdin := List.replicate 130 32 ++ ascii "Ada\n", file := none, out := [] } =
      ({ ok := false, value := [], provided := false },
       { stdin := [], file := none,
         out := [Event.prompt "Enter name (max 32 chars): ", Event.name_empty,
                 Event.prompt "Enter name (max 32 chars): ", Event.input_aborted] }) := by
  decide

set_option maxRecDepth 100000 in
/-- C14 (failing input): the line "Ann", 124 spaces, "Marie-Louise" has a
trimmed content of 139 bytes. The buffer of the prompt holds the first 127
bytes, "Ann" and 124 spaces, the rest of the line is discarded, and the prefix
"Ann" is accepted as the name and stored by `create_student`. -/
theorem s_name_accepts_cut_line :
    (trim (ascii "Ann" ++ List.replicate 124 32 ++ ascii "Marie-Louise")).length = 139 ∧
    s_name [] "Enter name (max 32 chars): " false false
        { stdin := ascii "Ann" ++ List.replicate 124 32 ++ ascii "Marie-Louise\n",
          file := none, out := [] } =
      ({ ok := true, value := ascii "Ann", provided := true },
       { stdin := [], file := none, out := [Event.prompt "Enter name (max 32 chars): "] }) ∧
    (create_student no_faults
        { stdin := ascii "30\nAnn" ++ List.replicate 124 32 ++ ascii "Marie-Louise\n",
          file := none, out := [] }).file =
      some [{ id := 1, age := 30, name := name_field (ascii "Ann") }] := by
  decide

/-- The part of C14 the code does: a line of at most 127 bytes, none of them
NUL, whose trimmed content has 33 bytes or more is rejected with "Name must be
at most 32 characters." and the prompt goes round again. -/
theorem s_name_rejects_long (name : List Nat) (message : String)
    (allow_empty provided : Bool) (w : World) (line rest : List Nat)
    (h : w.stdin = line ++ 10 :: rest)
    (hmem : ∀ c ∈ line, c ≠ 0 ∧ c ≠ 10) (hfit : line.length ≤ 127)
    (hlong : NAME_LEN < (trim line).length) :
    s_name name message allow_empty provided w =
      s_name name message allow_empty provided
        { stdin := rest, file := w.file,
          out := w.out ++ [Event.prompt message, Event.name_too_long] } := by
  have htake : line.take 127 = line := List.take_of_length_le hfit
  have hne : trim line ≠ [] := by
    intro he; rw [he] at hlong; simp at hlong
  rw [s_name_line name message allow_empty provided w line rest h hmem, htake]
  simp [hne, hlong]

/-- C15: an empty line at the age prompt, and a line of white space only at
the name prompt, is answered by `allow_empty`. When it is true the prompt
returns true with `*provided = false` and the old value untouched. When it is
false the prompt writes "Age cannot be empty." or "Name cannot be empty." and
goes round again on the input that follows; a value it then returns was
entered on a later line: the age lies in [5, 75] and the name is not empty. -/
theorem empty_line_handling (age : Nat) (name : List Nat) (message : String)
    (provided : Bool) (w : World) (rest : List Nat) :
    (w.stdin = 10 :: rest →
      s_age age message true provided w =
        ({ ok := true, value := age, provided := false },
         { stdin := rest, file := w.file, out := w.out ++ [Event.prompt message] }) ∧
      s_age age message false provided w =
        s_age age message false provided
          { stdin := rest, file := w.file,
            out := w.out ++ [Event.prompt message, Event.age_empty] }) ∧
    (∀ ws : List Nat, w.stdin = ws ++ 10 :: rest → (∀ c ∈ ws, isspace c = true ∧ c ≠ 10) →
      s_name name message true provided w =
        ({ ok := true, value := name, provided := false },
         { stdin := rest, file := w.file, out := w.out ++ [Event.prompt message] }) ∧
      s_name name message false provided w =
        s_name name message false provided
          { stdin := rest, file := w.file,
            out := w.out ++ [Event.prompt message, Event.name_empty] }) ∧
    ((s_age age message false provided w).1.ok = true →
      (s_age age message false provided w).1.provided = true ∧
      AGE_MIN ≤ (s_age age message false provided w).1.value ∧
      (s_age age message false provided w).1.value ≤ AGE_MAX) ∧
    ((s_name name message false provided w).1.ok = true →
      (s_name name message false provided w).1.provided = true ∧
      (s_name name message false provided w).1.value ≠ []) := by
  refine ⟨?_, ?_, ?_, ?_⟩
  · intro h
    have hr : read_line 32 (10 :: rest) = some ([], rest) := by
      have := read_line_line 32 [] rest (by simp)
      simpa using this
    constructor
    · rw [s_age_step, h, hr]; simp
    · rw [s_age_step, h, hr]; simp
  · intro ws h hws
    have h0 : ∀ c ∈ ws, c ≠ 0 ∧ c ≠ 10 := by
      intro c hc
      refine ⟨?_, (hws c hc).2⟩
      intro hz
      have := (hws c hc).1
      rw [hz] at this
      exact absurd this (by decide)
    have ht : trim (ws.take 127) = [] :=
      trim_blank _ (fun c hc => (hws c (List.mem_of_mem_take hc)).1)
    constructor
    · rw [s_name_line name message true provided w ws rest h h0]; simp [ht]
    · rw [s_name_line name message false provided w ws rest h h0]; simp [ht]
  · intro hok
    have hpost := s_age_post_holds age message false provided w
    have hp := hpost.required hok rfl
    exact ⟨hp, hpost.range hok hp⟩
  · intro hok
    have hpost := s_name_post_holds name message false provided w
    have hp := hpost.required hok rfl
    exact ⟨hp, (hpost.accepted hok hp).1⟩

theorem empty_line_handling_witness :
    s_age 20 "Enter new age (5-75) or press ENTER to keep current: " true false
        { stdin := ascii "\nBob\n", file := none, out := [] } =
      ({ ok := true, value := 20, provided := false },
       { stdin := ascii "Bob\n", file := none,
         out := [Event.prompt "Enter new age (5-75) or press ENTER to keep current: "] }) ∧
    s_name (ascii "Ada") "Enter name (max 32 chars): " false false
        { stdin := ascii " \t \nBob\n", file := none, out := [] } =
      s_name (ascii "Ada") "Enter name (max 32 chars): " false false
        { stdin := ascii "Bob\n", file := none,
          out := [Event.prompt "Enter name (max 32 chars): ", Event.name_empty] } :=
  ⟨((empty_line_handling 20 [] "Enter new age (5-75) or press ENTER to keep current: " false
      { stdin := ascii "\nBob\n", file := none, out := [] } (ascii "Bob\n")).1
      (by decide)).1,
   ((empty_line_handling 0 (ascii "Ada") "Enter name (max 32 chars): " false
      { stdin := ascii " \t \nBob\n", file := none, out := [] } (ascii "Bob\n")).2.1
      (ascii " \t ") (by decide) (by decide)).2⟩

/-! ## Claims on parsing numbers -/

/-- C16 (failing input): the text "-18446744073709551611" with the bounds 5 and
75 holds a sign and denotes a negative number, yet `parse_uint32` returns true
and writes 5; the texts " 42" and "+42", with leading white space and a sign,
give 42. -/
theorem parse_uint32_accepts_sign :
    parse_uint32 (ascii "-18446744073709551611") 5 75 = some 5 ∧
    parse_uint32 (ascii " 42") 5 75 = some 42 ∧
    parse_uint32 (ascii "+42") 5 75 = some 42 := by
  decide

/-- The texts "", "4x", "x4", "4 ", "4" and "76" are rejected for the bounds 5 and 75. -/
theorem parse_uint32_rejects_examples :
    parse_uint32 [] 5 75 = none ∧ parse_uint32 (ascii "42x") 5 75 = none ∧
    parse_uint32 (ascii "x42") 5 75 = none ∧ parse_uint32 (ascii "42 ") 5 75 = none ∧
    parse_uint32 (ascii "4") 5 75 = none ∧ parse_uint32 (ascii "76") 5 75 = none := by
  decide

theorem strtoul_digits (ds : List Nat) (hne : ds ≠ []) (hd : ∀ c ∈ ds, isdigit c = true) :
    strtoul ds =
      if digits_value ds > ULONG_MAX then { value := ULONG_MAX, rest := [], erange := true }
      else { value := digits_value ds, rest := [], erange := false } := by
  obtain ⟨c, t, rfl⟩ := List.exists_cons_of_ne_nil hne
  have hc : isdigit c = true := hd c (by simp)
  have hc' : 48 ≤ c ∧ c ≤ 57 := by simpa [isdigit] using hc
  have hsp : isspace c = false := by
    simp only [isspace, Bool.or_eq_false_iff, beq_eq_false_iff_ne, Bool.and_eq_false_iff,
      decide_eq_false_iff_not]
    omega
  have htake : (c :: t).takeWhile isdigit = c :: t :=
    List.takeWhile_eq_self_iff.mpr hd
  have hdrop : (c :: t).dropWhile isdigit = [] :=
    List.dropWhile_eq_nil_iff.mpr hd
  have h45 : c ≠ 45 := by omega
  have h43 : c ≠ 43 := by omega
  have hds : (c :: t).dropWhile isspace = c :: t := by
    simp [List.dropWhile_cons, hsp]
  have hsign : ((c :: t).head? == some 45 || (c :: t).head? == some 43) = false := by
    simp [h45, h43]
  unfold strtoul
  simp only [hds, hsign, Bool.false_eq_true, ↓reduceIte, htake, hdrop, reduceCtorEq]
  have hneg : ((c :: t).head? == some 45) = false := by simp [h45]
  simp only [hneg, Bool.false_eq_true, ↓reduceIte]

/-- A text of decimal digits only is accepted exactly when the number it
denotes lies within the bounds, and then that number is the value written. -/
theorem parse_uint32_digits (ds : List Nat) (min max : Nat) (hne : ds ≠ [])
    (hd : ∀ c ∈ ds, isdigit c = true) (hmax : max ≤ UINT32_MAX) :
    parse_uint32 ds min max =
      if min ≤ digits_value ds ∧ digits_value ds ≤ max then some (digits_value ds)
      else none := by
  unfold parse_uint32
  simp only [hne, ↓reduceIte, strtoul_digits ds hne hd]
  simp only [UINT32_MAX] at hmax
  by_cases hbig : digits_value ds > ULONG_MAX
  · have : ¬ (min ≤ digits_value ds ∧ digits_value ds ≤ max) := by
      simp only [ULONG_MAX] at hbig
      omega
    simp [hbig, this]
  · simp only [hbig, ↓reduceIte, Bool.false_eq_true, false_or]
    have hne' : ([] : List Nat) ≠ ds := fun h => hne h.symm
    by_cases hin : min ≤ digits_value ds ∧ digits_value ds ≤ max
    · have hmod : digits_value ds % 4294967296 = digits_value ds :=
        Nat.mod_eq_of_lt (by omega)
      have h1 : ¬ digits_value ds < min := by omega
      have h2 : ¬ max < digits_value ds := by omega
      simp [hne', hne, hin, hmod, h1, h2]
    · have h3 : digits_value ds < min ∨ max < digits_value ds := by omega
      simp only [hin, ↓reduceIte]
      rcases h3 with h3 | h3 <;> simp [hne', hne, h3]

/-- A text `parse_uint32` accepts is white space, then at most one sign, then
decimal digits and nothing else; without a minus sign the value written is the
number the digits denote, and it lies within the bounds. -/
theorem parse_uint32_shape (text : List Nat) (min max v : Nat) (hmax : max ≤ UINT32_MAX)
    (h : parse_uint32 text min max = some v) :
    ∃ ws sign ds : List Nat, text = ws ++ sign ++ ds ∧ (∀ c ∈ ws, isspace c = true) ∧
      (sign = [] ∨ sign = [43] ∨ sign = [45]) ∧ ds ≠ [] ∧ (∀ c ∈ ds, isdigit c = true) ∧
      (sign ≠ [45] → v = digits_value ds) ∧ min ≤ v ∧ v ≤ max := by
  have hb := parse_uint32_bounds text min max v
    (by simp only [UINT32_MAX] at hmax; omega) h
  have hsplit : text = text.takeWhile isspace ++ text.dropWhile isspace :=
    (List.takeWhile_append_dropWhile isspace text).symm
  have hws : ∀ c ∈ text.takeWhile isspace, isspace c = true :=
    fun c hc => List.mem_takeWhile_imp hc
  unfold parse_uint32 at h
  split at h
  · simp at h
  · simp only at h
    split at h
    · simp at h
    · rename_i hcond
      simp only [Bool.or_eq_true, beq_iff_eq, bne_iff_ne, ne_eq, not_or, Bool.not_eq_true,
        Decidable.not_not] at hcond
      obtain ⟨⟨herange, hrest_ne⟩, hrest⟩ := hcond
      split at h
      · simp at h
      · rename_i hrange
        simp only [Option.some.injEq] at h
        -- the three parts of the text
        generalize hs : text.dropWhile isspace = s at hsplit
        have hstr : strtoul text =
            (let negative := s.head? == some 45
             let s' := if s.head? == some 45 || s.head? == some 43 then s.tail else s
             let ds := s'.takeWhile isdigit
             if ds = [] then { value := 0, rest := text, erange := false }
             else if digits_value ds > ULONG_MAX then
               { value := ULONG_MAX, rest := s'.dropWhile isdigit, erange := true }
             else
               { value := if negative then (ULONG_MAX + 1 - digits_value ds) % (ULONG_MAX + 1)
                          else digits_value ds,
                 rest := s'.dropWhile isdigit, erange := false }) := by
          unfold strtoul
          rw [hs]
        simp only at hstr
        generalize hs' : (if (s.head? == some 45 || s.head? == some 43) = true then s.tail
          else s) = s' at hstr
        by_cases hds : s'.takeWhile isdigit = []
        · rw [if_pos hds] at hstr
          rw [hstr] at hrest_ne
          exact absurd rfl hrest_ne
        · rw [if_neg hds] at hstr
          by_cases hbig : digits_value (s'.takeWhile isdigit) > ULONG_MAX
          · rw [if_pos hbig] at hstr
            rw [hstr] at herange
            simp at herange
          · rw [if_neg hbig] at hstr
            rw [hstr] at hrest h
            simp only at hrest h
            have hall : s'.takeWhile isdigit = s' := by
              have := List.takeWhile_append_dropWhile isdigit s'
              rw [hrest, List.append_nil] at this
              exact this
            have hdig : ∀ c ∈ s', isdigit c = true := by
              intro c hc
              rw [← hall] at hc
              exact List.mem_takeWhile_imp hc
            rw [hall] at hds h hstr
            by_cases hsign : (s.head? == some 45 || s.head? == some 43) = true
            · rw [if_pos hsign] at hs'
              cases s with
              | nil => simp at hsign
              | cons c t =>
                simp only [List.tail_cons] at hs'
                subst hs'
                simp only [List.head?_cons, Bool.or_eq_true, beq_iff_eq, Option.some.injEq]
                  at hsign
                refine ⟨text.takeWhile isspace, [c], t, by rw [List.append_assoc]; exact hsplit, hws, ?_, hds,
                  hdig, ?_, hb.1, hb.2⟩
                · rcases hsign with hc | hc <;> simp [hc]
                · intro hnot
                  have hc : c = 43 := by
                    rcases hsign with hc | hc
                    · exact absurd (by rw [hc]) hnot
                    · exact hc
                  have hneg : (List.head? (c :: t) == some 45) = false := by simp [hc]
                  rw [hneg] at h
                  simp only [Bool.false_eq_true, ↓reduceIte] at h
                  have hle : digits_value t ≤ max := by
                    have hr : ¬ (digits_value t < min ∨ digits_value t > max) := by
                      rw [hstr] at hrange
                      simpa [hc] using hrange
                    omega
                  rw [← h]
                  apply Nat.mod_eq_of_lt
                  simp only [UINT32_MAX] at hmax
                  omega
            · rw [if_neg hsign] at hs'
              subst hs'
              have hneg : (s.head? == some 45) = false := by
                cases hh : (s.head? == some 45)
                · rfl
                · simp [hh] at hsign
              rw [hneg] at h
              simp only [Bool.false_eq_true, ↓reduceIte] at h
              refine ⟨text.takeWhile isspace, [], s, by rw [List.append_nil]; exact hsplit, hws, Or.inl rfl,
                hds, hdig, ?_, hb.1, hb.2⟩
              intro _
              have hle : digits_value s ≤ max := by
                have hr : ¬ (digits_value s < min ∨ digits_value s > max) := by
                  rw [hstr] at hrange
                  simpa [hneg] using hrange
                omega
              rw [← h]
              apply Nat.mod_eq_of_lt
              simp only [UINT32_MAX] at hmax
              omega

/-! ## Decimal strings -/

theorem digitChar_toNat (d : Nat) (h : d < 10) : (Nat.digitChar d).toNat = 48 + d := by
  interval_cases d <;> rfl

theorem digits_value_foldl (l : List Nat) (a : Nat) :
    l.foldl (fun acc c => 10 * acc + (c - 48)) a = a * 10 ^ l.length + digits_value l := by
  unfold digits_value
  induction l generalizing a with
  | nil => simp
  | cons c l ih =>
    simp only [List.foldl_cons, List.length_cons]
    rw [ih (10 * a + (c - 48)), ih (10 * 0 + (c - 48))]
    ring

theorem digits_value_cons (c : Nat) (l : List Nat) :
    digits_value (c :: l) = (c - 48) * 10 ^ l.length + digits_value l := by
  have := digits_value_foldl l (10 * 0 + (c - 48))
  simp only [digits_value, List.foldl_cons] at this ⊢
  rw [this]
  simp

theorem toDigitsCore_digits (fuel : Nat) :
    ∀ (n : Nat) (ds : List Char), n < fuel →
      (∀ c ∈ ds.map Char.toNat, isdigit c = true) →
      (∀ c ∈ (Nat.toDigitsCore 10 fuel n ds).map Char.toNat, isdigit c = true) ∧
      digits_value ((Nat.toDigitsCore 10 fuel n ds).map Char.toNat) =
        n * 10 ^ ds.length + digits_value (ds.map Char.toNat) ∧
      (Nat.toDigitsCore 10 fuel n ds).map Char.toNat ≠ [] := by
  induction fuel with
  | zero => intro n _ h; omega
  | succ fuel ih =>
    intro n ds hn hds
    have hd : (Nat.digitChar (n % 10)).toNat = 48 + n % 10 :=
      digitChar_toNat _ (Nat.mod_lt _ (by decide))
    have hdd : isdigit (Nat.digitChar (n % 10)).toNat = true := by
      rw [hd]
      have : n % 10 < 10 := Nat.mod_lt _ (by decide)
      simp only [isdigit, Bool.and_eq_true, decide_eq_true_eq]
      omega
    have hds' : ∀ c ∈ (Nat.digitChar (n % 10) :: ds).map Char.toNat, isdigit c = true := by
      intro c hc
      simp only [List.map_cons, List.mem_cons] at hc
      rcases hc with hc | hc
      · rw [hc]; exact hdd
      · exact hds c hc
    simp only [Nat.toDigitsCore]
    by_cases h0 : n / 10 = 0
    · simp only [h0, ↓reduceIte]
      have hlt : n < 10 := by omega
      refine ⟨hds', ?_, by simp⟩
      rw [List.map_cons, digits_value_cons, hd, Nat.mod_eq_of_lt hlt]
      simp
    · simp only [h0, ↓reduceIte]
      obtain ⟨h1, h2, h3⟩ := ih (n / 10) (Nat.digitChar (n % 10) :: ds) (by omega) hds'
      refine ⟨h1, ?_, h3⟩
      rw [h2, List.map_cons, digits_value_cons, hd, List.length_cons, List.length_map]
      have hdm := Nat.div_add_mod n 10
      have : 48 + n % 10 - 48 = n % 10 := by omega
      rw [this, pow_succ]
      nth_rewrite 3 [← hdm]
      ring

/-- The decimal string of a number holds decimal digits only, at least one,
and denotes the number. -/
theorem decimal_spec (n : Nat) :
    decimal n ≠ [] ∧ (∀ c ∈ decimal n, isdigit c = true) ∧ digits_value (decimal n) = n := by
  have h := toDigitsCore_digits (n + 1) n [] (Nat.lt_succ_self _) (by simp)
  have hd : decimal n = (Nat.toDigitsCore 10 (n + 1) n []).map Char.toNat := rfl
  rw [hd]
  refine ⟨h.2.2, h.1, ?_⟩
  rw [h.2.1]
  simp [digits_value]

theorem decimal_length (n e : Nat) (he : 0 < e) (h : n < 10 ^ e) : (decimal n).length ≤ e := by
  have hlen : (decimal n).length = (Nat.repr n).length := by
    show ((Nat.repr n).toList.map Char.toNat).length = _
    rw [List.length_map]
    rfl
  rw [hlen]
  exact Nat.repr_length n e he h

theorem isdigit_ne (c : Nat) (h : isdigit c = true) : c ≠ 0 ∧ c ≠ 10 := by
  simp only [isdigit, Bool.and_eq_true, decide_eq_true_eq] at h
  omega

/-! ## Claims on the id prompt -/

/-- C17 (failing input): the line "-18446744073709551615" is not an unsigned
decimal integer, yet the id prompt accepts it and yields 1 (`strtoul` negates
in `unsigned long`); " 7" and "+7" yield 7; and the line of 21 zeros followed
by "42949672959", which denotes a value above 2^32, yields 4294967295, the
value of the 31 bytes the buffer holds. -/
theorem s_id_accepts_negative :
    s_id 0 { stdin := ascii "-18446744073709551615\n", file := none, out := [] } =
      ({ ok := true, value := 1, provided := false },
       { stdin := [], file := none, out := [Event.prompt "Enter ID: "] }) ∧
    (s_id 0 { stdin := ascii " 7\n", file := none, out := [] }).1 =
      { ok := true, value := 7, provided := false } ∧
    (s_id 0 { stdin := ascii "+7\n", file := none, out := [] }).1 =
      { ok := true, value := 7, provided := false } ∧
    (s_id 0 { stdin := List.replicate 21 48 ++ ascii "42949672959\n",
              file := none, out := [] }).1 =
      { ok := true, value := 4294967295, provided := false } := by
  decide

/-- The lines "0", "" and "4294967296" are each rejected by the id prompt. -/
theorem s_id_rejects_examples :
    s_id 0 { stdin := ascii "0\n\n4294967296\n12\n", file := none, out := [] } =
      ({ ok := true, value := 12, provided := false },
       { stdin := [], file := none,
         out := [Event.prompt "Enter ID: ", Event.id_invalid,
                 Event.prompt "Enter ID: ", Event.id_empty,
                 Event.prompt "Enter ID: ", Event.id_invalid,
                 Event.prompt "Enter ID: "] }) := by
  decide

/-- A line of at most 31 decimal digits and nothing else: the id prompt
accepts it exactly when the number lies in [1, 2^32 - 1], and yields that
number; otherwise it writes "Please enter a positive integer." and goes round again. -/
theorem s_id_digits (id : Nat) (w : World) (ds rest : List Nat)
    (h : w.stdin = ds ++ 10 :: rest) (hne : ds ≠ [])
    (hd : ∀ c ∈ ds, isdigit c = true) (hfit : ds.length ≤ 31) :
    s_id id w =
      if 1 ≤ digits_value ds ∧ digits_value ds ≤ UINT32_MAX then
        ({ ok := true, value := digits_value ds, provided := false },
         { stdin := rest, file := w.file, out := w.out ++ [Event.prompt "Enter ID: "] })
      else
        s_id id { stdin := rest, file := w.file,
                  out := w.out ++ [Event.prompt "Enter ID: ", Event.id_invalid] } := by
  have hmem : ∀ c ∈ ds, c ≠ 0 ∧ c ≠ 10 := fun c hc => isdigit_ne c (hd c hc)
  rw [s_id_step, h, read_line_line 32 ds rest hmem, List.take_of_length_le (by omega)]
  simp only [hne, ↓reduceIte, parse_uint32_digits ds 1 UINT32_MAX hne hd (le_refl _)]
  by_cases hin : 1 ≤ digits_value ds ∧ digits_value ds ≤ UINT32_MAX
  · simp only [hin, and_self, ↓reduceIte]
  · simp only [hin, ↓reduceIte]

/-- For every n in [1, 2^32 - 1] the id prompt given the decimal string of n yields n. -/
theorem s_id_accepts_decimal (n : Nat) (h1 : 1 ≤ n) (h2 : n ≤ UINT32_MAX) (id : Nat)
    (w : World) (rest : List Nat) (h : w.stdin = decimal n ++ 10 :: rest) :
    s_id id w =
      ({ ok := true, value := n, provided := false },
       { stdin := rest, file := w.file, out := w.out ++ [Event.prompt "Enter ID: "] }) := by
  obtain ⟨hne, hd, hv⟩ := decimal_spec n
  have hlen : (decimal n).length ≤ 10 :=
    decimal_length n 10 (by decide) (by simp only [UINT32_MAX] at h2; omega)
  rw [s_id_digits id w (decimal n) rest h hne hd (by omega), hv]
  simp [h1, h2]

/-- Every value the id prompt yields lies in [1, 2^32 - 1]. -/
theorem s_id_range (id : Nat) (w : World) (h : (s_id id w).1.ok = true) :
    1 ≤ (s_id id w).1.value ∧ (s_id id w).1.value ≤ UINT32_MAX :=
  (s_id_post_holds id w).range h

/-! ## Field constraints -/

/-- Trimming a trimmed text changes nothing. -/
theorem trim_trim (text : List Nat) : trim (trim text) = trim text := by
  have hdef : ∀ l : List Nat, trim l = (l.rdropWhile isspace).dropWhile isspace := fun _ => rfl
  by_cases hne : trim text = []
  · rw [hne]; rfl
  · have hsuf : trim text <:+ text.rdropWhile isspace := by
      rw [hdef]; exact List.dropWhile_suffix _
    have hlast : ∀ hl : trim text ≠ [], ¬ isspace ((trim text).getLast hl) = true := by
      intro hl
      rw [hsuf.getLast hl]
      exact List.rdropWhile_eq_self_iff.mp (List.rdropWhile_idempotent isspace text) _
    have h1 : (trim text).rdropWhile isspace = trim text :=
      List.rdropWhile_eq_self_iff.mpr hlast
    rw [hdef (trim text), h1, hdef text, List.dropWhile_idempotent]

theorem s_name_loop_trimmed (message : String) (allow_empty : Bool) (turns : Nat) :
    ∀ (name : List Nat) (w : World) (r : prompt_result (List Nat) × World),
      s_name_loop message allow_empty turns name false w = some r →
      r.1.provided = true → trim r.1.value = r.1.value := by
  induction turns with
  | zero => intro _ _ _ h; simp [s_name_loop] at h
  | succ turns ih =>
    intro name w r h hp
    simp only [s_name_loop] at h
    cases hr : read_line 128 (emit w (Event.prompt message)).stdin with
    | none =>
      rw [hr] at h
      simp only [Option.some.injEq] at h
      subst h
      simp at hp
    | some p =>
      obtain ⟨line, rest⟩ := p
      rw [hr] at h
      simp only at h
      split at h
      · split at h
        · simp only [Option.some.injEq] at h
          subst h
          simp at hp
        · exact ih _ _ _ h hp
      · split at h
        · exact ih _ _ _ h hp
        · rename_i hlen
          simp only [Option.some.injEq] at h
          subst h
          simp only
          rw [List.take_of_length_le (by omega)]
          exact trim_trim line

/-- A name the name prompt stores has no white space at either end. -/
theorem s_name_trimmed (name : List Nat) (message : String) (allow_empty : Bool) (w : World)
    (hp : (s_name name message allow_empty false w).1.provided = true) :
    trim (s_name name message allow_empty false w).1.value =
      (s_name name message allow_empty false w).1.value :=
  s_name_loop_trimmed message allow_empty _ name w _
    (s_name_returns name message allow_empty false w (w.stdin.length + 1) (Nat.lt_succ_self _))
    hp

/-- The record a successful `create_student` appends satisfies the field constraints. -/
theorem create_student_field_ok (w : World) (X : Nat)
    (hok : (create_age w).1.ok = true) (hnok : (create_name w).1.ok = true) :
    field_ok { id := X, age := (create_age w).1.value,
               name := name_field (create_name w).1.value } := by
  have ha := s_age_post_holds 0 "Enter age (5-75): " false false w
  have hn := s_name_post_holds [] "Enter name (max 32 chars): " false false (create_age w).2
  have hap := ha.required hok rfl
  have hnp := hn.required hnok rfl
  have hr := ha.range hok hap
  have hacc := hn.accepted hnok hnp
  have htrim := s_name_trimmed [] "Enter name (max 32 chars): " false (create_age w).2 hnp
  have hc : cstr (name_field (create_name w).1.value) = (create_name w).1.value :=
    cstr_name_field _ hacc.2.1 hacc.2.2
  unfold field_ok
  simp only [hc]
  refine ⟨hr.1, hr.2, ?_, hacc.2.1, htrim⟩
  have := hacc.1
  exact List.length_pos.mpr this

/-- The record `edit_student` writes back satisfies the field constraints when
the record it found does. -/
theorem edited_student_field_ok (F : Faults) (w : World) (hw : edit_writes F w)
    (hold : field_ok (edit_scan F w).student) : field_ok (edited_student F w) := by
  have ha := s_age_post_holds (edit_scan F w).student.age
    "Enter new age (5-75) or press ENTER to keep current: " true false
    (emit (edit_id w).2 (Event.editing (edit_scan F w).student.id
      (cstr (edit_scan F w).student.name) (edit_scan F w).student.age))
  have hn := s_name_post_holds []
    "Enter new name (max 32 chars) or press ENTER to keep current: " true false (edit_age F w).2
  have haok : (edit_age F w).1.ok = true := hw.2.2.2.2.1
  have hnok : (edit_name F w).1.ok = true := hw.2.2.2.2.2.1
  unfold field_ok at hold ⊢
  unfold edited_student
  simp only
  by_cases hap : (edit_age F w).1.provided = true
  · have hr : AGE_MIN ≤ (edit_age F w).1.value ∧ (edit_age F w).1.value ≤ AGE_MAX :=
      ha.range haok hap
    by_cases hnp : (edit_name F w).1.provided = true
    · have hacc : (edit_name F w).1.value ≠ [] ∧ (edit_name F w).1.value.length ≤ NAME_LEN ∧
          ∀ c ∈ (edit_name F w).1.value, c ≠ 0 := hn.accepted hnok hnp
      have htrim : trim (edit_name F w).1.value = (edit_name F w).1.value :=
        s_name_trimmed [] _ true (edit_age F w).2 hnp
      simp only [hap, hnp, ↓reduceIte, cstr_strncpy _ _ hacc.2.1 hacc.2.2]
      exact ⟨hr.1, hr.2, List.length_pos.mpr hacc.1, hacc.2.1, htrim⟩
    · simp only [hap, hnp, ↓reduceIte, Bool.false_eq_true]
      exact ⟨hr.1, hr.2, hold.2.2⟩
  · by_cases hnp : (edit_name F w).1.provided = true
    · have hacc : (edit_name F w).1.value ≠ [] ∧ (edit_name F w).1.value.length ≤ NAME_LEN ∧
          ∀ c ∈ (edit_name F w).1.value, c ≠ 0 := hn.accepted hnok hnp
      have htrim : trim (edit_name F w).1.value = (edit_name F w).1.value :=
        s_name_trimmed [] _ true (edit_age F w).2 hnp
      simp only [hap, hnp, ↓reduceIte, Bool.false_eq_true, cstr_strncpy _ _ hacc.2.1 hacc.2.2]
      exact ⟨hold.1, hold.2.1, List.length_pos.mpr hacc.1, hacc.2.1, htrim⟩
    · simp only [hap, hnp, ↓reduceIte, Bool.false_eq_true]
      exact hold

/-- C18: when every record of the file has its age in [5, 75] and a name of 1
to 32 bytes without white space at either end, so has every record of the
file `create_student` leaves and of the file `edit_student` leaves, whatever
is typed and whichever library call fails. The record a completed create
appends, and the record a completed edit writes back, have their age in
[5, 75] and a name of 1 to 32 bytes. -/
theorem field_ok_preserved (F : Faults) (w : World)
    (h : ∀ s ∈ records_of w.file, field_ok s) :
    (∀ s ∈ records_of (create_student F w).file, field_ok s) ∧
    (∀ s ∈ records_of (edit_student F w).file, field_ok s) ∧
    (∀ X, reports_created (create_student F w) X →
      field_ok { id := X, age := (create_age w).1.value,
                 name := name_field (create_name w).1.value }) ∧
    (edit_writes F w → field_ok (edited_student F w)) := by
  have hedit : edit_writes F w → field_ok (edited_student F w) := by
    intro hw
    have hscan := edit_scan_found F w hw.2.2.2.1
    exact edited_student_field_ok F w hw (h _ (List.getElem?_mem hscan.1))
  refine ⟨?_, ?_, ?_, hedit⟩
  · intro s hs
    rw [create_student_file] at hs
    split at hs
    · rename_i hc
      simp only [records_of, Option.getD_some, List.mem_append, List.mem_singleton] at hs
      rcases hs with hs | hs
      · exact h s hs
      · rw [hs]
        exact create_student_field_ok w _ hc.1 hc.2.1
    · exact h s hs
  · intro s hs
    rw [edit_student_file] at hs
    split at hs
    · rename_i hw
      simp only [records_of, Option.getD_some] at hs
      rcases List.mem_or_eq_of_mem_set hs with hs | hs
      · exact h s hs
      · rw [hs]; exact hedit hw
    · exact h s hs
  · intro X hX
    have hc := (create_student_created F w X).mp hX
    exact create_student_field_ok w X hc.1.1 hc.1.2.1

theorem field_ok_preserved_witness :
    (∀ s ∈ records_of (create_student no_faults
      { stdin := ascii "40\n  Cyd \n", out := [],
        file := some [{ id := 1, age := 20, name := name_field (ascii "Ada") }] }).file,
      field_ok s) ∧
    (∀ s ∈ records_of (edit_student no_faults
      { stdin := ascii "1\n75\nAda L\n", out := [],
        file := some [{ id := 1, age := 20, name := name_field (ascii "Ada") }] }).file,
      field_ok s) :=
  ⟨(field_ok_preserved no_faults
      { stdin := ascii "40\n  Cyd \n", out := [],
        file := some [{ id := 1, age := 20, name := name_field (ascii "Ada") }] }
      (by decide)).1,
   (field_ok_preserved no_faults
      { stdin := ascii "1\n75\nAda L\n", out := [],
        file := some [{ id := 1, age := 20, name := name_field (ascii "Ada") }] }
      (by decide)).2.1⟩

/-! ## End of input -/

theorem s_age_loop_aborted (message : String) (allow_empty : Bool) (turns : Nat) :
    ∀ (age : Nat) (provided : Bool) (w : World) (r : prompt_result Nat × World),
      s_age_loop message allow_empty turns age provided w = some r →
      r.1.ok = false → r.2.stdin = [] := by
  induction turns with
  | zero => intro _ _ _ _ h; simp [s_age_loop] at h
  | succ turns ih =>
    intro age provided w r h hok
    simp only [s_age_loop] at h
    cases hr : read_line 32 (emit w (Event.prompt message)).stdin with
    | none =>
      rw [hr] at h
      simp only [Option.some.injEq] at h
      subst h
      exact (read_line_none 32 _).mp hr
    | some p =>
      obtain ⟨buffer, rest⟩ := p
      rw [hr] at h
      simp only at h
      split at h
      · split at h
        · simp only [Option.some.injEq] at h
          subst h
          simp at hok
        · exact ih _ _ _ _ h hok
      · split at h
        · exact ih _ _ _ _ h hok
        · simp only [Option.some.injEq] at h
          subst h
          simp at hok

theorem s_name_loop_aborted (message : String) (allow_empty : Bool) (turns : Nat) :
    ∀ (name : List Nat) (provided : Bool) (w : World) (r : prompt_result (List Nat) × World),
      s_name_loop message allow_empty turns name provided w = some r →
      r.1.ok = false → r.2.stdin = [] := by
  induction turns with
  | zero => intro _ _ _ _ h; simp [s_name_loop] at h
  | succ turns ih =>
    intro name provided w r h hok
    simp only [s_name_loop] at h
    cases hr : read_line 128 (emit w (Event.prompt message)).stdin with
    | none =>
      rw [hr] at h
      simp only [Option.some.injEq] at h
      subst h
      exact (read_line_none 128 _).mp hr
    | some p =>
      obtain ⟨line, rest⟩ := p
      rw [hr] at h
      simp only at h
      split at h
      · split at h
        · simp only [Option.some.injEq] at h
          subst h
          simp at hok
        · exact ih _ _ _ _ h hok
      · split at h
        · exact ih _ _ _ _ h hok
        · simp only [Option.some.injEq] at h
          subst h
          simp at hok

theorem s_id_loop_aborted (turns : Nat) :
    ∀ (id : Nat) (w : World) (r : prompt_result Nat × World),
      s_id_loop turns id w = some r → r.1.ok = false → r.2.stdin = [] := by
  induction turns with
  | zero => intro _ _ _ h; simp [s_id_loop] at h
  | succ turns ih =>
    intro id w r h hok
    simp only [s_id_loop] at h
    cases hr : read_line 32 (emit w (Event.prompt "Enter ID: ")).stdin with
    | none =>
      rw [hr] at h
      simp only [Option.some.injEq] at h
      subst h
      exact (read_line_none 32 _).mp hr
    | some p =>
      obtain ⟨buffer, rest⟩ := p
      rw [hr] at h
      simp only at h
      split at h
      · exact ih _ _ _ h hok
      · split at h
        · exact ih _ _ _ h hok
        · simp only [Option.some.injEq] at h
          subst h
          simp at hok

/-- A prompt returns false only when the input has ended: nothing is left to
read and the last message is "Input aborted.". -/
theorem prompt_aborted (age id : Nat) (name : List Nat) (message : String)
    (allow_empty provided : Bool) (w : World) :
    ((s_age age message allow_empty provided w).1.ok = false →
      (s_age age message allow_empty provided w).2.stdin = [] ∧
      (s_age age message allow_empty provided w).2.out.getLast? = some Event.input_aborted) ∧
    ((s_name name message allow_empty provided w).1.ok = false →
      (s_name name message allow_empty provided w).2.stdin = [] ∧
      (s_name name message allow_empty provided w).2.out.getLast? =
        some Event.input_aborted) ∧
    ((s_id id w).1.ok = false →
      (s_id id w).2.stdin = [] ∧
      (s_id id w).2.out.getLast? = some Event.input_aborted) := by
  refine ⟨fun h => ⟨?_, (s_age_post_holds age message allow_empty provided w).aborted h⟩,
    fun h => ⟨?_, (s_name_post_holds name message allow_empty provided w).aborted h⟩,
    fun h => ⟨?_, (s_id_post_holds id w).aborted h⟩⟩
  · exact s_age_loop_aborted message allow_empty _ age provided w _
      (s_age_returns age message allow_empty provided w _ (Nat.lt_succ_self _)) h
  · exact s_name_loop_aborted message allow_empty _ name provided w _
      (s_name_returns name message allow_empty provided w _ (Nat.lt_succ_self _)) h
  · exact s_id_loop_aborted _ id w _ (s_id_returns id w _ (Nat.lt_succ_self _)) h

/-- When the input has ended, a prompt returns false. -/
theorem prompt_end_of_input (age id : Nat) (name : List Nat) (message : String)
    (allow_empty provided : Bool) (w : World) (h : w.stdin = []) :
    (s_age age message allow_empty provided w).1.ok = false ∧
    (s_name name message allow_empty provided w).1.ok = false ∧
    (s_id id w).1.ok = false := by
  have h32 : read_line 32 w.stdin = none := (read_line_none 32 _).mpr h
  have h128 : read_line 128 w.stdin = none := (read_line_none 128 _).mpr h
  refine ⟨?_, ?_, ?_⟩
  · rw [s_age_step, h32]
  · rw [s_name_step, h128]
  · rw [s_id_step, h32]

/-- C19: when the input ends during the age or the name prompt of
`create_student`, or during the id, the age or the name prompt of
`edit_student` (the prompt returns false, after any number of rejected
lines), the operation stops there: the file afterwards is the file before, a
file that did not exist still does not, and nothing is written after
"Input aborted.". -/
theorem abort_leaves_file (F : Faults) (w : World) :
    ((create_age w).1.ok = false →
      create_student F w = (create_age w).2 ∧ (create_student F w).file = w.file) ∧
    ((create_age w).1.ok = true → (create_name w).1.ok = false →
      create_student F w = (create_name w).2 ∧ (create_student F w).file = w.file) ∧
    ((edit_id w).1.ok = false →
      edit_student F w = (edit_id w).2 ∧ (edit_student F w).file = w.file) ∧
    ((edit_age F w).1.ok = false → (edit_student F w).file = w.file) ∧
    ((edit_name F w).1.ok = false → (edit_student F w).file = w.file) ∧
    (w.file = none →
      ((create_age w).1.ok = false ∨ (create_name w).1.ok = false →
        (create_student F w).file = none) ∧
      (edit_student F w).file = none) := by
  have hca : (create_age w).1.ok = false → create_student F w = (create_age w).2 := by
    intro h
    have h' : (s_age 0 "Enter age (5-75): " false false w).1.ok = false := h
    unfold create_student
    simp only [h', Bool.not_false, ↓reduceIte]
    rfl
  have hcn : (create_age w).1.ok = true → (create_name w).1.ok = false →
      create_student F w = (create_name w).2 := by
    intro h1 h2
    have h1' : (s_age 0 "Enter age (5-75): " false false w).1.ok = true := h1
    have h2' : (s_name [] "Enter name (max 32 chars): " false false
        (s_age 0 "Enter age (5-75): " false false w).2).1.ok = false := h2
    unfold create_student
    simp only [h1', h2', Bool.not_true, Bool.false_eq_true, Bool.not_false, ↓reduceIte]
    rfl
  have hfa : (create_age w).2.file = w.file := (s_age_post_holds _ _ _ _ _).file_eq
  have hfn : (create_name w).2.file = w.file := by
    unfold create_name
    rw [(s_name_post_holds _ _ _ _ _).file_eq, hfa]
  have hei : (edit_id w).1.ok = false → edit_student F w = (edit_id w).2 := by
    intro h
    have h' : (s_id 0 w).1.ok = false := h
    unfold edit_student
    simp only [h', Bool.not_false, ↓reduceIte]
    rfl
  have hfi : (edit_id w).2.file = w.file := (s_id_post_holds 0 w).file_eq
  have hnot : ∀ {P : Prop}, (edit_writes F w → P) → ¬ P → (edit_student F w).file = w.file := by
    intro P hP hnp
    rw [edit_student_file, if_neg (fun hw => hnp (hP hw))]
  refine ⟨fun h => ⟨hca h, by rw [hca h, hfa]⟩, fun h1 h2 => ⟨hcn h1 h2, by rw [hcn h1 h2, hfn]⟩,
    fun h => ⟨hei h, by rw [hei h, hfi]⟩, ?_, ?_, ?_⟩
  · intro h
    exact hnot (fun hw => hw.2.2.2.2.1) (by simp [h])
  · intro h
    exact hnot (fun hw => hw.2.2.2.2.2.1) (by simp [h])
  · intro hnone
    constructor
    · intro h
      rw [create_student_file, if_neg, hnone]
      intro hc
      rcases h with h | h
      · exact Bool.false_ne_true (h.symm.trans hc.1)
      · exact Bool.false_ne_true (h.symm.trans hc.2.1)
    · rw [hnot (fun hw => hw.2.2.1) (by simp [hnone]), hnone]

theorem abort_leaves_file_witness :
    (create_student no_faults
      { stdin := ascii "abc\n4\n", out := [],
        file := some [{ id := 1, age := 20, name := name_field (ascii "Ada") }] }).file =
      some [{ id := 1, age := 20, name := name_field (ascii "Ada") }] ∧
    (edit_student no_faults
      { stdin := ascii "1\n99\n30\n", out := [],
        file := some [{ id := 1, age := 20, name := name_field (ascii "Ada") }] }).file =
      some [{ id := 1, age := 20, name := name_field (ascii "Ada") }] :=
  ⟨((abort_leaves_file no_faults
      { stdin := ascii "abc\n4\n", out := [],
        file := some [{ id := 1, age := 20, name := name_field (ascii "Ada") }] }).1
      (by decide)).2,
   (abort_leaves_file no_faults
      { stdin := ascii "1\n99\n30\n", out := [],
        file := some [{ id := 1, age := 20, name := name_field (ascii "Ada") }] }).2.2.2.2.1
      (by decide)⟩

/-! ## Claims on the lookup -/

theorem print_student_by_id_file (F : Faults) (w : World) :
    (print_student_by_id F w).file = w.file := by
  have hf := (s_id_post_holds 0 w).file_eq
  unfold print_student_by_id
  simp only
  split
  · exact hf
  · split
    · simpa [emit] using hf
    · split
      · simpa [emit] using hf
      · split
        · simpa [emit, print_student] using hf
        · split <;> simpa [emit] using hf

/-- C20: the lookup of `print_student_by_id` and `edit_student` reads the
records from the start of the file. Without a read error it finds a record
exactly when some record has the id, the record found is the first one in file
order with that id, and it finds none exactly when no record has the id.
`print_student_by_id` then prints the record found, or "No student found with
ID X."; a file that does not exist gives "No students stored yet." in both
operations; and `print_student_by_id` leaves the file as it is. -/
theorem lookup_linear_scan (F : Faults) (w : World) :
    (print_student_by_id F w).file = w.file ∧
    (F.read_error = none → ∀ (records : List student_t) (X : Nat),
      ((find_student F records X).found = true ↔ ∃ s ∈ records, s.id = X) ∧
      ((find_student F records X).found = false ↔ ∀ s ∈ records, s.id ≠ X) ∧
      (find_student F records X).error = false ∧
      ((find_student F records X).found = true →
        records[(find_student F records X).pos - 1]? = some (find_student F records X).student ∧
        (find_student F records X).student.id = X ∧
        ∀ j, j < (find_student F records X).pos - 1 → ∀ t, records[j]? = some t → t.id ≠ X)) ∧
    ((s_id 0 w).1.ok = true → F.open_read = false → F.read_error = none →
      (w.file = none →
        (print_student_by_id F w).out = (s_id 0 w).2.out ++ [Event.no_students]) ∧
      (∀ records, w.file = some records →
        ((∃ s ∈ records, s.id = (s_id 0 w).1.value) →
          (print_student_by_id F w).out =
            (s_id 0 w).2.out ++
              [Event.header,
               Event.student (find_student F records (s_id 0 w).1.value).student.id
                 (cstr (find_student F records (s_id 0 w).1.value).student.name)
                 (find_student F records (s_id 0 w).1.value).student.age]) ∧
        ((∀ s ∈ records, s.id ≠ (s_id 0 w).1.value) →
          (print_student_by_id F w).out =
            (s_id 0 w).2.out ++ [Event.not_found (s_id 0 w).1.value]))) ∧
    ((edit_id w).1.ok = true → F.open_update = false →
      (w.file = none →
        (edit_student F w).out = (edit_id w).2.out ++ [Event.no_students] ∧
        (edit_student F w).file = none) ∧
      (F.read_error = none → ∀ records, w.file = some records →
        (∀ s ∈ records, s.id ≠ (edit_id w).1.value) →
        (edit_student F w).out = (edit_id w).2.out ++ [Event.not_found (edit_id w).1.value] ∧
        (edit_student F w).file = w.file)) := by
  have hscan : F.read_error = none → ∀ (records : List student_t) (X : Nat),
      ((find_student F records X).found = true ↔ ∃ s ∈ records, s.id = X) ∧
      ((find_student F records X).found = false ↔ ∀ s ∈ records, s.id ≠ X) ∧
      (find_student F records X).error = false ∧
      ((find_student F records X).found = true →
        records[(find_student F records X).pos - 1]? = some (find_student F records X).student ∧
        (find_student F records X).student.id = X ∧
        ∀ j, j < (find_student F records X).pos - 1 → ∀ t, records[j]? = some t → t.id ≠ X) := by
    intro hread records X
    have hiff := find_loop_found_iff X records 0
      { id := 0, age := 0, name := List.replicate (NAME_LEN + 1) 0 }
    have hfound : (find_student F records X).found = true ↔ ∃ s ∈ records, s.id = X := by
      unfold find_student; rw [hread]; exact hiff.1
    refine ⟨hfound, ?_, ?_, ?_⟩
    · constructor
      · intro hf s hs hid
        have := hfound.mpr ⟨s, hs, hid⟩
        rw [hf] at this
        exact Bool.false_ne_true this
      · intro hall
        cases hf : (find_student F records X).found with
        | false => rfl
        | true =>
          obtain ⟨s, hs, hid⟩ := hfound.mp hf
          exact absurd hid (hall s hs)
    · unfold find_student; rw [hread]; exact hiff.2
    · intro hf
      unfold find_student at hf ⊢
      obtain ⟨k, h1, h2, h3, h4⟩ := find_loop_found _ _ _ _ _ hf
      have hk : (find_loop X records F.read_error 0
          { id := 0, age := 0, name := List.replicate (NAME_LEN + 1) 0 }).pos - 1 = k := by
        omega
      rw [hk]
      exact ⟨h2, h3, h4⟩
  have hfi : (s_id 0 w).2.file = w.file := (s_id_post_holds 0 w).file_eq
  refine ⟨print_student_by_id_file F w, hscan, ?_, ?_⟩
  · intro hok hopen hread
    constructor
    · intro hnone
      have hf : (s_id 0 w).2.file = none := by rw [hfi, hnone]
      unfold print_student_by_id
      simp [hok, hopen, hf, emit]
    · intro records hfile
      have hf : (s_id 0 w).2.file = some records := by rw [hfi, hfile]
      constructor
      · intro hex
        exact print_student_by_id_found F w records hopen hok hfile
          ((hscan hread records _).1.mpr hex)
      · intro hall
        have hnf := (hscan hread records (s_id 0 w).1.value).2.1.mpr hall
        have herr := (hscan hread records (s_id 0 w).1.value).2.2.1
        unfold print_student_by_id
        simp [hok, hopen, hf, hnf, herr, emit]
  · intro hok hopen
    have hok' : (s_id 0 w).1.ok = true := hok
    constructor
    · intro hnone
      have hf : (s_id 0 w).2.file = none := by rw [hfi, hnone]
      constructor
      · unfold edit_student
        simp [hok', hopen, hf, emit]
        rfl
      · rw [edit_student_file, if_neg (fun hw => hw.2.2.1 hnone), hnone]
    · intro hread records hfile hall
      have hf : (s_id 0 w).2.file = some records := by rw [hfi, hfile]
      have hnf := (hscan hread records (s_id 0 w).1.value).2.1.mpr hall
      have herr := (hscan hread records (s_id 0 w).1.value).2.2.1
      constructor
      · unfold edit_student
        simp [hok', hopen, hf, hnf, herr, emit]
        rfl
      · rw [edit_student_file, if_neg]
        intro hw
        have : (edit_scan F w).found = false := by
          unfold edit_scan edit_id
          rw [hfile]
          exact hnf
        exact Bool.false_ne_true (this.symm.trans hw.2.2.2.1)

theorem lookup_linear_scan_witness :
    (print_student_by_id no_faults
      { stdin := ascii "7\n", out := [],
        file := some [{ id := 1, age := 20, name := name_field (ascii "Ada") },
                      { id := 7, age := 30, name := name_field (ascii "Bob") },
                      { id := 7, age := 31, name := name_field (ascii "Cyd") }] }).out =
      [Event.prompt "Enter ID: ", Event.header, Event.student 7 (ascii "Bob") 30] ∧
    (print_student_by_id no_faults
      { stdin := ascii "99\n", out := [], file := none }).out =
      [Event.prompt "Enter ID: ", Event.no_students] :=
  ⟨(((lookup_linear_scan no_faults
      { stdin := ascii "7\n", out := [],
        file := some [{ id := 1, age := 20, name := name_field (ascii "Ada") },
                      { id := 7, age := 30, name := name_field (ascii "Bob") },
                      { id := 7, age := 31, name := name_field (ascii "Cyd") }] }).2.2.1
      (by decide) rfl rfl).2 _ rfl).1 (by decide),
   ((lookup_linear_scan no_faults
      { stdin := ascii "99\n", out := [], file := none }).2.2.1
      (by decide) rfl rfl).1 rfl⟩

end Exam
